import Mathlib

/-! aspnetusers: a shallow embedding of `users.go`

The Go package keeps the ASP.NET `aspnetusers` table through `database/sql`.
Here the table is a list of rows, every operation takes the state of the
world (table contents, scheduled store failures, the log of store operations,
the position in the UUID and salt streams, the clock) and returns the new one
next to its Go results.  A Go `(*User, error)` result is a pair of options;
a method that writes through its `*User` argument also returns the record.

What lives outside the repository is a parameter: the password library
`pwdatav3`, `uuid.New`, `strings.ToUpper` (structure `Env`) and the behaviour
of the database engine that is visible through the driver (structure `Driver`).
Go's `strings.ToUpper` itself is embedded too, with the case table of package
`unicode`, for what is claimed of upper-casing as such.
-/

namespace Aspnetusers

/-! ## Errors -/

/-- Errors raised by the database driver. -/
inductive DriverError where
  | MySQLError (number : Nat)
  | Other (msg : String)
  deriving DecidableEq, Repr

/-- Go `error` values met in `users.go`: the six package sentinels,
`sql.ErrNoRows`, driver errors, errors of the password library, and the
values built by `fmt.Errorf("...: %v", err)`. -/
inductive Error where
  | ErrNoPassword
  | ErrNotFound
  | ErrExists
  | ErrConcurrency
  | ErrInvalidCredentials
  | ErrLockedOut
  | ErrNoRows
  | Driver (e : DriverError)
  | Hash (msg : String)
  | Errorf (pfx : String) (cause : Error)
  deriving DecidableEq, Repr

/-! ## Data model -/

/-- Go `any` values that a boolean column is scanned into. -/
inductive AnyVal where
  | bytes (b : List Nat)
  | bool (b : Bool)
  | int (n : Int)
  deriving DecidableEq, Repr

/-- The `User` struct.  `LockoutEnd` is a `*time.Time`: an optional instant,
counted in nanoseconds.  `AccessFailedCount` is a Go `int` (64 bits). -/
structure User where
  ID : String
  UserName : String
  NormalizedUserName : String
  Email : String
  NormalizedEmail : String
  EmailConfirmed : Bool
  PasswordHash : String
  SecurityStamp : String
  ConcurrencyStamp : String
  PhoneNumber : String
  PhoneNumberConfirmed : Bool
  TwoFactorEnabled : Bool
  LockoutEnd : Option Int
  LockoutEnabled : Bool
  AccessFailedCount : Int
  deriving DecidableEq, Repr

/-- The zero value `User{}`. -/
def User.zero : User :=
  { ID := "", UserName := "", NormalizedUserName := "", Email := "", NormalizedEmail := "",
    EmailConfirmed := false, PasswordHash := "", SecurityStamp := "", ConcurrencyStamp := "",
    PhoneNumber := "", PhoneNumberConfirmed := false, TwoFactorEnabled := false,
    LockoutEnd := none, LockoutEnabled := false, AccessFailedCount := 0 }

/-- One row of the table (schema of `doc.go`): `Id` followed by `cols` in
their lexical order.  The text columns and `LockoutEnd` may be NULL. -/
structure Row where
  Id : String
  AccessFailedCount : Int
  ConcurrencyStamp : Option String
  Email : Option String
  EmailConfirmed : Bool
  LockoutEnabled : Bool
  LockoutEnd : Option Int
  NormalizedEmail : Option String
  NormalizedUserName : Option String
  PasswordHash : Option String
  PhoneNumber : Option String
  PhoneNumberConfirmed : Bool
  SecurityStamp : Option String
  TwoFactorEnabled : Bool
  UserName : Option String
  deriving DecidableEq, Repr

/-- The `Database` struct: the conventions of one SQL dialect.  `BoolVar`
only allocates the location that `Scan` overwrites, so it has no field. -/
structure Database where
  Param : Nat → String
  BoolVal : AnyVal → Bool
  IsDuplicate : Error → Bool

/-- The adapter `MySQLDatabase`.  `BoolVal` reads the first byte of a
`[]uint8`; on any other value the Go code panics, here it is `false`. -/
def MySQLDatabase : Database :=
  { Param := fun _ => "?"
    BoolVal := fun a =>
      match a with
      | .bytes (b :: _) => decide (b ≠ 0)
      | _ => false
    IsDuplicate := fun err =>
      match err with
      | .Driver (.MySQLError number) => decide (number = 1062)
      | _ => false }

/-- What the engine behind `*sql.DB` shows through its driver: the value a
boolean column is scanned as, and the error of a violated unique key. -/
structure Driver where
  boolValue : Bool → AnyVal
  duplicate : DriverError

/-- MySQL: `bit(1)` columns arrive as one byte, a duplicate key is error 1062. -/
def MySQLDriver : Driver :=
  { boolValue := fun b => .bytes [if b then 1 else 0]
    duplicate := .MySQLError 1062 }

/-- The `Users` struct. -/
structure Users where
  db : Driver
  table : String
  style : Database

/-- The imported packages: `uuid`, `pwdatav3` and `strings.ToUpper`.  The
`n`-th UUID drawn is `uuid n`; `GenerateFromPassword` and `New` take the index of
the salt they draw and may fail; `MarshalText` is the method of the value that
`New` returns; `CompareHashAndPassword` is `true` when the Go function returns a
nil error. -/
structure Env where
  uuid : Nat → String
  GenerateFromPassword : String → Nat → Except String String
  EncodeToString : String → String
  DecodeString : String → Except String String
  CompareHashAndPassword : String → String → Bool
  ToUpper : String → String
  New : String → Nat → Except String String
  MarshalText : String → Except String String

/-! ## The store -/

/-- Store operations, as logged. -/
inductive Op where
  | queryID (uid : String)
  | queryName (key : String)
  | insert (r : Row)
  | update (vals : Row) (id stamp : String)
  deriving DecidableEq, Repr

/-- State of the world.  `faults` schedules the outcome of the coming store
operations, the head for the next one: `some e` makes it fail with `e`
without touching the table.  `log` holds the store operations performed,
the latest first. -/
structure World where
  rows : List Row
  faults : List (Option DriverError)
  log : List Op
  uuids : Nat
  salts : Nat
  now : Int

/-- Record a store operation and take its scheduled fault. -/
def World.step (w : World) (op : Op) : Option DriverError × World :=
  match w.faults with
  | [] => (none, { w with log := op :: w.log })
  | f :: fs => (f, { w with faults := fs, log := op :: w.log })

/-- Run `db.QueryRow` for the first row satisfying `p`. -/
def queryRow (w : World) (op : Op) (p : Row → Bool) : Except Error Row × World :=
  match w.step op with
  | (some e, w1) => (.error (.Driver e), w1)
  | (none, w1) =>
    match w1.rows.find? p with
    | none => (.error .ErrNoRows, w1)
    | some r => (.ok r, w1)

/-- Run the `INSERT`: refused when the primary key `Id` or the unique key
`NormalizedUserName` is already present. -/
def execInsert (tab : Users) (w : World) (r : Row) : Option Error × World :=
  match w.step (.insert r) with
  | (some e, w1) => (some (.Driver e), w1)
  | (none, w1) =>
    if w1.rows.any (fun x => decide (x.Id = r.Id) ||
        (r.NormalizedUserName.isSome && decide (x.NormalizedUserName = r.NormalizedUserName)))
    then (some (.Driver tab.db.duplicate), w1)
    else (none, { w1 with rows := w1.rows ++ [r] })

/-- The `WHERE Id = ? AND ConcurrencyStamp = ?` clause; a NULL stamp matches nothing. -/
def hit (id stamp : String) (x : Row) : Bool :=
  decide (x.Id = id) && decide (x.ConcurrencyStamp = some stamp)

/-- The rows after the `UPDATE`: matching rows take every column but `Id` from `vals`. -/
def updated (rows : List Row) (vals : Row) (id stamp : String) : List Row :=
  rows.map (fun x => if hit id stamp x then { vals with Id := x.Id } else x)

/-- Run the `UPDATE` and return the number of rows affected, which is the number of
rows that the `WHERE` clause matches.  It is refused when it would leave two rows with
the new `NormalizedUserName` (the unique key `UserNameIndex`). -/
def execUpdate (tab : Users) (w : World) (vals : Row) (id stamp : String) : Except Error Nat × World :=
  match w.step (.update vals id stamp) with
  | (some e, w1) => (.error (.Driver e), w1)
  | (none, w1) =>
    if w1.rows.any (hit id stamp) &&
        decide (1 < ((updated w1.rows vals id stamp).filter
          (fun x => decide (x.NormalizedUserName = vals.NormalizedUserName))).length)
    then (.error (.Driver tab.db.duplicate), w1)
    else (.ok ((w1.rows.filter (hit id stamp)).length), { w1 with rows := updated w1.rows vals id stamp })

/-! ## users.go -/

/-- Go `int` arithmetic: wrap to 64 bits, two's complement. -/
def wrapInt (x : Int) : Int := (x + 2 ^ 63) % 2 ^ 64 - 2 ^ 63

/-- The function `opts`: a NULL string becomes the empty string. -/
def opts (opt : Option String) : String :=
  match opt with
  | some s => s
  | none => ""

/-- The function `normalise`. -/
def normalise (E : Env) (s : String) : String := E.ToUpper s

/-- The function `newStamp`: draw the next UUID. -/
def newStamp (E : Env) (w : World) : String × World :=
  (E.uuid w.uuids, { w with uuids := w.uuids + 1 })

/-- The record `unpackUser` fills from a row: `row.Scan` and the assignments after it. -/
def scanUser (tab : Users) (r : Row) : User :=
  { ID := r.Id
    AccessFailedCount := r.AccessFailedCount
    ConcurrencyStamp := opts r.ConcurrencyStamp
    Email := opts r.Email
    EmailConfirmed := tab.style.BoolVal (tab.db.boolValue r.EmailConfirmed)
    NormalizedEmail := opts r.NormalizedEmail
    NormalizedUserName := opts r.NormalizedUserName
    PasswordHash := opts r.PasswordHash
    PhoneNumber := opts r.PhoneNumber
    PhoneNumberConfirmed := tab.style.BoolVal (tab.db.boolValue r.PhoneNumberConfirmed)
    SecurityStamp := opts r.SecurityStamp
    TwoFactorEnabled := tab.style.BoolVal (tab.db.boolValue r.TwoFactorEnabled)
    UserName := opts r.UserName
    LockoutEnabled := tab.style.BoolVal (tab.db.boolValue r.LockoutEnabled)
    LockoutEnd := r.LockoutEnd }

/-- The method `unpackUser`, on the outcome of `QueryRow`. -/
def unpackUser (tab : Users) (row : Except Error Row) : Option User × Option Error :=
  match row with
  | .error err => (none, some err)
  | .ok r => (some (scanUser tab r), none)

/-- The method `FindByID`. -/
def FindByID (tab : Users) (uid : String) (w : World) : (Option User × Option Error) × World :=
  let (row, w1) := queryRow w (.queryID uid) (fun x => decide (x.Id = uid))
  match unpackUser tab row with
  | (_, some err) =>
    if err = .ErrNoRows then ((none, some .ErrNotFound), w1)
    else ((none, some (.Errorf "find user: " err)), w1)
  | (u, none) => ((u, none), w1)

/-- The method `FindByName`. -/
def FindByName (E : Env) (tab : Users) (username : String) (w : World) :
    (Option User × Option Error) × World :=
  let key := normalise E username
  let (row, w1) := queryRow w (.queryName key) (fun x => decide (x.NormalizedUserName = some key))
  match unpackUser tab row with
  | (_, some err) =>
    if err = .ErrNoRows then ((none, some .ErrNotFound), w1)
    else ((none, some (.Errorf "find user: " err)), w1)
  | (u, none) => ((u, none), w1)

/-- The values `Update` passes for the 14 columns of `cols`, as a row. -/
def updateVals (u : User) (stamp : String) : Row :=
  { Id := u.ID
    AccessFailedCount := u.AccessFailedCount
    ConcurrencyStamp := some stamp
    Email := some u.Email
    EmailConfirmed := u.EmailConfirmed
    LockoutEnabled := u.LockoutEnabled
    LockoutEnd := u.LockoutEnd
    NormalizedEmail := some u.NormalizedEmail
    NormalizedUserName := some u.NormalizedUserName
    PasswordHash := some u.PasswordHash
    PhoneNumber := some u.PhoneNumber
    PhoneNumberConfirmed := u.PhoneNumberConfirmed
    SecurityStamp := some u.SecurityStamp
    TwoFactorEnabled := u.TwoFactorEnabled
    UserName := some u.UserName }

/-- The method `Update`: the error, the record behind the pointer `u` after
the call, and the new world.  `res.RowsAffected()` itself is taken not to fail. -/
def Update (E : Env) (tab : Users) (u : User) (w : World) : Option Error × User × World :=
  let (stamp, w1) := newStamp E w
  let (res, w2) := execUpdate tab w1 (updateVals u stamp) u.ID u.ConcurrencyStamp
  match res with
  | .error err => (some err, u, w2)
  | .ok nr =>
    if nr = 0 then (some .ErrConcurrency, u, w2)
    else (none, { u with ConcurrencyStamp := stamp }, w2)

/-- Go `unicode.IsSpace`: the Latin-1 spaces and the `White_Space` code points above them. -/
def isSpace (c : Char) : Bool :=
  c = '\t' || c = '\n' || c.toNat = 0x0B || c.toNat = 0x0C || c = '\r' || c = ' ' ||
  c.toNat = 0x85 || c.toNat = 0xA0 || c.toNat = 0x1680 ||
  (0x2000 ≤ c.toNat && c.toNat ≤ 0x200A) || c.toNat = 0x2028 || c.toNat = 0x2029 ||
  c.toNat = 0x202F || c.toNat = 0x205F || c.toNat = 0x3000

/-- Go `strings.TrimSpace`: drop the leading and the trailing spaces. -/
def TrimSpace (s : String) : String :=
  String.mk ((s.data.dropWhile isSpace).reverse.dropWhile isSpace).reverse

/-- The function `emptyPassword`. -/
def emptyPassword (s : String) : Bool := decide (TrimSpace s = "")

/-- The function `mustHashPassword`, with the index of the salt drawn; `none` is the panic. -/
def mustHashPassword (E : Env) (pw : String) (salt : Nat) : Option String :=
  match E.GenerateFromPassword pw salt with
  | .error _ => none
  | .ok pwd => some (E.EncodeToString pwd)

/-- The values `NewUser` passes to the `INSERT`, as a row. -/
def insertVals (u : User) : Row :=
  { Id := u.ID
    AccessFailedCount := u.AccessFailedCount
    ConcurrencyStamp := some u.ConcurrencyStamp
    Email := some u.Email
    EmailConfirmed := u.EmailConfirmed
    LockoutEnabled := u.LockoutEnabled
    LockoutEnd := u.LockoutEnd
    NormalizedEmail := some u.NormalizedEmail
    NormalizedUserName := some u.NormalizedUserName
    PasswordHash := some u.PasswordHash
    PhoneNumber := some u.PhoneNumber
    PhoneNumberConfirmed := u.PhoneNumberConfirmed
    SecurityStamp := some u.SecurityStamp
    TwoFactorEnabled := u.TwoFactorEnabled
    UserName := some u.UserName }

/-- The `User` literal in `NewUser`, from the hash and the three stamps drawn for it. -/
def newRecord (E : Env) (name email pwd id sec conc : String) : User :=
  { User.zero with
    ID := id
    UserName := name
    NormalizedUserName := normalise E name
    PasswordHash := E.EncodeToString pwd
    Email := email
    NormalizedEmail := normalise E email
    SecurityStamp := sec
    ConcurrencyStamp := conc }

/-- The method `NewUser`.  The result of the lookup is not used (the early
return on an existing user is commented out in the source); only a lookup
error other than `ErrNotFound` ends the call. -/
def NewUser (E : Env) (tab : Users) (name email password : String) (w : World) :
    (Option User × Option Error) × World :=
  let ((_, err), w1) := FindByName E tab name w
  if err ≠ none ∧ err ≠ some .ErrNotFound then ((none, err), w1)
  else if emptyPassword password then ((none, some .ErrNoPassword), w1)
  else
    let w2 := { w1 with salts := w1.salts + 1 }
    match E.GenerateFromPassword password w1.salts with
    | .error msg => ((none, some (.Errorf "hashing password: " (.Hash msg))), w2)
    | .ok pwd =>
      let (id, w3) := newStamp E w2
      let (sec, w4) := newStamp E w3
      let (conc, w5) := newStamp E w4
      let u : User := newRecord E name email pwd id sec conc
      match execInsert tab w5 (insertVals u) with
      | (some err, w6) =>
        if tab.style.IsDuplicate err then ((none, some .ErrExists), w6)
        else ((none, some (.Errorf "adding new user: " err)), w6)
      | (none, w6) => ((some u, none), w6)

/-- The method `accessFailed`. -/
def accessFailed (E : Env) (tab : Users) (u : User) (bad : Bool) (w : World) :
    Option Error × User × World :=
  let u1 : User :=
    if bad then { u with AccessFailedCount := wrapInt (u.AccessFailedCount + 1) }
    else { u with AccessFailedCount := 0 }
  Update E tab u1 w

/-- The method `Authenticate`; `emptyHash` is the package variable of that
name, `mustHashPassword("")` computed when the package is loaded.  The error
of `accessFailed` is dropped, as in the source. -/
def Authenticate (E : Env) (emptyHash : String) (tab : Users) (name password : String) (w : World) :
    (Option User × Option Error) × World :=
  let ((found, err), w1) := FindByName E tab name w
  if err ≠ none ∧ err ≠ some .ErrNotFound then ((found, err), w1)
  else
    let u : User :=
      match found with
      | none => { User.zero with PasswordHash := emptyHash }
      | some u => u
    match E.DecodeString u.PasswordHash with
    | .error msg => ((none, some (.Hash msg)), w1)
    | .ok pwd =>
      let ok := E.CompareHashAndPassword pwd password
      let (_, u1, w2) := accessFailed E tab u (!ok) w1
      if !ok then ((none, some .ErrInvalidCredentials), w2)
      else ((some u1, none), w2)

/-- The method `CheckLockout`: the error, with the record and the world it leaves. -/
def CheckLockout (_tab : Users) (u : User) (w : World) : Option Error × User × World :=
  match u.LockoutEnd with
  | some e => if u.LockoutEnabled ∧ w.now < e then (some .ErrLockedOut, u, w) else (none, u, w)
  | none => (none, u, w)

/-- The method `ChangePassword`.  The new hash and stamp are staged on the copy `nu`
and copied into `u` only when `Update` returns no error. -/
def ChangePassword (E : Env) (tab : Users) (u : User) (password : String) (w : World) :
    Option Error × User × World :=
  if emptyPassword password then (some .ErrNoPassword, u, w)
  else
    let w1 : World := { w with salts := w.salts + 1 }
    match E.New password w.salts with
    | .error msg => (some (.Errorf "change password: " (.Hash msg)), u, w1)
    | .ok pwd =>
      match E.MarshalText pwd with
      | .error msg => (some (.Errorf "change password: " (.Hash msg)), u, w1)
      | .ok text =>
        let (sec, w2) := newStamp E w1
        let nu : User := { u with PasswordHash := text, SecurityStamp := sec }
        let (err, nu1, w3) := Update E tab nu w2
        match err with
        | some e => (some e, u, w3)
        | none =>
          (none, { u with PasswordHash := nu1.PasswordHash, SecurityStamp := nu1.SecurityStamp }, w3)

/-- The method `ConfirmEmail`. -/
def ConfirmEmail (E : Env) (tab : Users) (u : User) (w : World) : Option Error × User × World :=
  Update E tab { u with EmailConfirmed := true } w

/-- The method `ResetLockout`: the field is cleared in the record before `Update` runs. -/
def ResetLockout (E : Env) (tab : Users) (u : User) (w : World) : Option Error × User × World :=
  match u.LockoutEnd with
  | some _ => Update E tab { u with LockoutEnd := none } w
  | none => (none, u, w)

/-- The method `LockOut`; `d` is the `time.Duration`, in nanoseconds.  The end is staged
on the copy `nu` and written into `u` only when `Update` returns no error. -/
def LockOut (E : Env) (tab : Users) (u : User) (d : Int) (w : World) :
    Option Error × User × World :=
  let lockEnd : Int := w.now + d
  let nu : User := { u with LockoutEnd := some lockEnd }
  let (err, _, w1) := Update E tab nu w
  match err with
  | some e => (some e, u, w1)
  | none => (none, { u with LockoutEnd := some lockEnd }, w1)

/-! ### The statements and their arguments -/

/-- The package variable `cols`: the columns in lexical order, `Id` excluded. -/
def cols : List String :=
  ["AccessFailedCount", "ConcurrencyStamp", "Email", "EmailConfirmed", "LockoutEnabled", "LockoutEnd",
   "NormalizedEmail", "NormalizedUserName", "PasswordHash", "PhoneNumber",
   "PhoneNumberConfirmed", "SecurityStamp", "TwoFactorEnabled", "UserName"]

/-- The method `params`: the loop over `i = 0 .. n-1` writes to the builder `sb`
a comma when `i > 0`, then `db.Param(i + 1)`. -/
def Database.params (db : Database) (n : Nat) : String :=
  (List.range n).foldl (fun sb i => (if 0 < i then sb ++ "," else sb) ++ db.Param (i + 1)) ""

/-- The method `assign`: the loop over `cols` writes a comma and a space when `i > 0`,
then the name, `=` and `db.Param(i + 1)`. -/
def Database.assign (db : Database) (cols : List String) : String :=
  cols.enum.foldl (fun sb (p : Nat × String) =>
    (if 0 < p.1 then sb ++ ", " else sb) ++ p.2 ++ "=" ++ db.Param (p.1 + 1)) ""

/-- An argument of the variadic `cmd`: a `string`, a `[]string`, or a value of another
type, given by the text `fmt.Sprint` prints for it. -/
inductive CmdArg where
  | str (s : String)
  | strs (a : List String)
  | other (text : String)
  deriving DecidableEq, Repr

/-- The method `cmd`: the verb, then each argument after a space; the strings of a
`[]string` are separated by a comma and a space. -/
def Database.cmd (_db : Database) (verb : String) (args : List CmdArg) : String :=
  args.foldl (fun sb a =>
    match a with
    | .str s => sb ++ " " ++ s
    | .strs a => a.enum.foldl (fun sb (p : Nat × String) =>
        (if p.1 ≠ 0 then sb ++ ", " else sb) ++ p.2) (sb ++ " ")
    | .other text => sb ++ " " ++ text) verb

/-- A value passed to `db.Exec` as an argument of a statement: an `int`, a `string`,
a `bool` or a `*time.Time`. -/
inductive Value where
  | int (n : Int)
  | string (s : String)
  | bool (b : Bool)
  | time (t : Option Int)
  deriving DecidableEq, Repr

/-- The statement `stmt` of `Update`. -/
def updateStmt (tab : Users) : String :=
  tab.style.cmd "UPDATE" [.str tab.table, .str "SET", .str (tab.style.assign cols),
    .str "WHERE Id =", .str (tab.style.Param (cols.length + 1)),
    .str "AND ConcurrencyStamp =", .str (tab.style.Param (cols.length + 2))]

/-- The arguments `Update` passes to `db.Exec` after the statement; `stamp` is the
stamp it has just drawn. -/
def updateArgs (u : User) (stamp : String) : List Value :=
  [.int u.AccessFailedCount, .string stamp, .string u.Email, .bool u.EmailConfirmed,
   .bool u.LockoutEnabled, .time u.LockoutEnd,
   .string u.NormalizedEmail, .string u.NormalizedUserName, .string u.PasswordHash,
   .string u.PhoneNumber, .bool u.PhoneNumberConfirmed, .string u.SecurityStamp,
   .bool u.TwoFactorEnabled, .string u.UserName, .string u.ID, .string u.ConcurrencyStamp]

/-- The statement `stmt` of `NewUser`. -/
def insertStmt (tab : Users) : String :=
  tab.style.cmd "INSERT INTO" [.str tab.table, .str "(Id, ", .strs cols, .str ") VALUES (",
    .str (tab.style.params (1 + cols.length)), .str ")"]

/-- The arguments `NewUser` passes to `db.Exec` after the statement. -/
def insertArgs (u : User) : List Value :=
  [.string u.ID, .int u.AccessFailedCount, .string u.ConcurrencyStamp, .string u.Email,
   .bool u.EmailConfirmed, .bool u.LockoutEnabled, .time u.LockoutEnd,
   .string u.NormalizedEmail, .string u.NormalizedUserName, .string u.PasswordHash,
   .string u.PhoneNumber, .bool u.PhoneNumberConfirmed, .string u.SecurityStamp,
   .bool u.TwoFactorEnabled, .string u.UserName]

/-- The statement `stmt` of `FindByID`. -/
def findByIDStmt (tab : Users) : String :=
  tab.style.cmd "SELECT id," [.strs cols, .str "FROM", .str tab.table, .str "WHERE Id = ",
    .str (tab.style.Param 1)]

/-- The statement `stmt` of `FindByName`. -/
def findByNameStmt (tab : Users) : String :=
  tab.style.cmd "SELECT id," [.strs cols, .str "FROM", .str tab.table,
    .str "WHERE NormalizedUserName = ", .str (tab.style.Param 1)]

/-- The field of the `User` struct that belongs to a column: the struct names its
fields after the columns (`ID` for `Id`), and `unpackUser` scans the columns `Id`, `cols`
into the fields in this pairing. -/
def User.column (u : User) (name : String) : Option Value :=
  match name with
  | "Id" => some (.string u.ID)
  | "AccessFailedCount" => some (.int u.AccessFailedCount)
  | "ConcurrencyStamp" => some (.string u.ConcurrencyStamp)
  | "Email" => some (.string u.Email)
  | "EmailConfirmed" => some (.bool u.EmailConfirmed)
  | "LockoutEnabled" => some (.bool u.LockoutEnabled)
  | "LockoutEnd" => some (.time u.LockoutEnd)
  | "NormalizedEmail" => some (.string u.NormalizedEmail)
  | "NormalizedUserName" => some (.string u.NormalizedUserName)
  | "PasswordHash" => some (.string u.PasswordHash)
  | "PhoneNumber" => some (.string u.PhoneNumber)
  | "PhoneNumberConfirmed" => some (.bool u.PhoneNumberConfirmed)
  | "SecurityStamp" => some (.string u.SecurityStamp)
  | "TwoFactorEnabled" => some (.bool u.TwoFactorEnabled)
  | "UserName" => some (.string u.UserName)
  | _ => none

/-! ## The packages `unicode` and `strings` -/

/-- The constant `unicode.MaxRune`. -/
def unicode.MaxRune : Int := 0x10FFFF

/-- The constant `unicode.MaxASCII`. -/
def unicode.MaxASCII : Nat := 0x7F

/-- The constant `unicode.UpperLower`: the delta of a range in which upper and lower
case letters alternate. -/
def unicode.UpperLower : Int := unicode.MaxRune + 1

/-- The type `unicode.CaseRange`, with `Delta[UpperCase]` for its `Delta`. -/
structure unicode.CaseRange where
  Lo : Nat
  Hi : Nat
  Delta : Int

/-- The table `unicode.CaseRanges`, without the ranges whose delta for `UpperCase` is
zero: the simple upper-case mappings of the Unicode Character Database, version 14.0.0. -/
def unicode.CaseRanges : List unicode.CaseRange :=
  [unicode.CaseRange.mk 0x0061 0x007A (-32), unicode.CaseRange.mk 0x00B5 0x00B5 743,
   unicode.CaseRange.mk 0x00E0 0x00F6 (-32), unicode.CaseRange.mk 0x00F8 0x00FE (-32),
   unicode.CaseRange.mk 0x00FF 0x00FF 121, unicode.CaseRange.mk 0x0100 0x012F unicode.UpperLower,
   unicode.CaseRange.mk 0x0131 0x0131 (-232),
   unicode.CaseRange.mk 0x0132 0x0137 unicode.UpperLower,
   unicode.CaseRange.mk 0x0139 0x0148 unicode.UpperLower,
   unicode.CaseRange.mk 0x014A 0x0177 unicode.UpperLower,
   unicode.CaseRange.mk 0x0179 0x017E unicode.UpperLower,
   unicode.CaseRange.mk 0x017F 0x017F (-300), unicode.CaseRange.mk 0x0180 0x0180 195,
   unicode.CaseRange.mk 0x0182 0x0185 unicode.UpperLower, unicode.CaseRange.mk 0x0188 0x0188 (-1),
   unicode.CaseRange.mk 0x018C 0x018C (-1), unicode.CaseRange.mk 0x0192 0x0192 (-1),
   unicode.CaseRange.mk 0x0195 0x0195 97, unicode.CaseRange.mk 0x0199 0x0199 (-1),
   unicode.CaseRange.mk 0x019A 0x019A 163, unicode.CaseRange.mk 0x019E 0x019E 130,
   unicode.CaseRange.mk 0x01A0 0x01A5 unicode.UpperLower, unicode.CaseRange.mk 0x01A8 0x01A8 (-1),
   unicode.CaseRange.mk 0x01AD 0x01AD (-1), unicode.CaseRange.mk 0x01B0 0x01B0 (-1),
   unicode.CaseRange.mk 0x01B3 0x01B6 unicode.UpperLower, unicode.CaseRange.mk 0x01B9 0x01B9 (-1),
   unicode.CaseRange.mk 0x01BD 0x01BD (-1), unicode.CaseRange.mk 0x01BF 0x01BF 56,
   unicode.CaseRange.mk 0x01C5 0x01C5 (-1), unicode.CaseRange.mk 0x01C6 0x01C6 (-2),
   unicode.CaseRange.mk 0x01C8 0x01C8 (-1), unicode.CaseRange.mk 0x01C9 0x01C9 (-2),
   unicode.CaseRange.mk 0x01CB 0x01CB (-1), unicode.CaseRange.mk 0x01CC 0x01CC (-2),
   unicode.CaseRange.mk 0x01CD 0x01DC unicode.UpperLower, unicode.CaseRange.mk 0x01DD 0x01DD (-79),
   unicode.CaseRange.mk 0x01DE 0x01EF unicode.UpperLower, unicode.CaseRange.mk 0x01F2 0x01F2 (-1),
   unicode.CaseRange.mk 0x01F3 0x01F3 (-2), unicode.CaseRange.mk 0x01F5 0x01F5 (-1),
   unicode.CaseRange.mk 0x01F8 0x021F unicode.UpperLower,
   unicode.CaseRange.mk 0x0222 0x0233 unicode.UpperLower, unicode.CaseRange.mk 0x023C 0x023C (-1),
   unicode.CaseRange.mk 0x023F 0x0240 10815, unicode.CaseRange.mk 0x0242 0x0242 (-1),
   unicode.CaseRange.mk 0x0246 0x024F unicode.UpperLower, unicode.CaseRange.mk 0x0250 0x0250 10783,
   unicode.CaseRange.mk 0x0251 0x0251 10780, unicode.CaseRange.mk 0x0252 0x0252 10782,
   unicode.CaseRange.mk 0x0253 0x0253 (-210), unicode.CaseRange.mk 0x0254 0x0254 (-206),
   unicode.CaseRange.mk 0x0256 0x0257 (-205), unicode.CaseRange.mk 0x0259 0x0259 (-202),
   unicode.CaseRange.mk 0x025B 0x025B (-203), unicode.CaseRange.mk 0x025C 0x025C 42319,
   unicode.CaseRange.mk 0x0260 0x0260 (-205), unicode.CaseRange.mk 0x0261 0x0261 42315,
   unicode.CaseRange.mk 0x0263 0x0263 (-207), unicode.CaseRange.mk 0x0265 0x0265 42280,
   unicode.CaseRange.mk 0x0266 0x0266 42308, unicode.CaseRange.mk 0x0268 0x0268 (-209),
   unicode.CaseRange.mk 0x0269 0x0269 (-211), unicode.CaseRange.mk 0x026A 0x026A 42308,
   unicode.CaseRange.mk 0x026B 0x026B 10743, unicode.CaseRange.mk 0x026C 0x026C 42305,
   unicode.CaseRange.mk 0x026F 0x026F (-211), unicode.CaseRange.mk 0x0271 0x0271 10749,
   unicode.CaseRange.mk 0x0272 0x0272 (-213), unicode.CaseRange.mk 0x0275 0x0275 (-214),
   unicode.CaseRange.mk 0x027D 0x027D 10727, unicode.CaseRange.mk 0x0280 0x0280 (-218),
   unicode.CaseRange.mk 0x0282 0x0282 42307, unicode.CaseRange.mk 0x0283 0x0283 (-218),
   unicode.CaseRange.mk 0x0287 0x0287 42282, unicode.CaseRange.mk 0x0288 0x0288 (-218),
   unicode.CaseRange.mk 0x0289 0x0289 (-69), unicode.CaseRange.mk 0x028A 0x028B (-217),
   unicode.CaseRange.mk 0x028C 0x028C (-71), unicode.CaseRange.mk 0x0292 0x0292 (-219),
   unicode.CaseRange.mk 0x029D 0x029D 42261, unicode.CaseRange.mk 0x029E 0x029E 42258,
   unicode.CaseRange.mk 0x0345 0x0345 84, unicode.CaseRange.mk 0x0370 0x0373 unicode.UpperLower,
   unicode.CaseRange.mk 0x0377 0x0377 (-1), unicode.CaseRange.mk 0x037B 0x037D 130,
   unicode.CaseRange.mk 0x03AC 0x03AC (-38), unicode.CaseRange.mk 0x03AD 0x03AF (-37),
   unicode.CaseRange.mk 0x03B1 0x03C1 (-32), unicode.CaseRange.mk 0x03C2 0x03C2 (-31),
   unicode.CaseRange.mk 0x03C3 0x03CB (-32), unicode.CaseRange.mk 0x03CC 0x03CC (-64),
   unicode.CaseRange.mk 0x03CD 0x03CE (-63), unicode.CaseRange.mk 0x03D0 0x03D0 (-62),
   unicode.CaseRange.mk 0x03D1 0x03D1 (-57), unicode.CaseRange.mk 0x03D5 0x03D5 (-47),
   unicode.CaseRange.mk 0x03D6 0x03D6 (-54), unicode.CaseRange.mk 0x03D7 0x03D7 (-8),
   unicode.CaseRange.mk 0x03D8 0x03EF unicode.UpperLower, unicode.CaseRange.mk 0x03F0 0x03F0 (-86),
   unicode.CaseRange.mk 0x03F1 0x03F1 (-80), unicode.CaseRange.mk 0x03F2 0x03F2 7,
   unicode.CaseRange.mk 0x03F3 0x03F3 (-116), unicode.CaseRange.mk 0x03F5 0x03F5 (-96),
   unicode.CaseRange.mk 0x03F8 0x03F8 (-1), unicode.CaseRange.mk 0x03FB 0x03FB (-1),
   unicode.CaseRange.mk 0x0430 0x044F (-32), unicode.CaseRange.mk 0x0450 0x045F (-80),
   unicode.CaseRange.mk 0x0460 0x0481 unicode.UpperLower,
   unicode.CaseRange.mk 0x048A 0x04BF unicode.UpperLower,
   unicode.CaseRange.mk 0x04C1 0x04CE unicode.UpperLower, unicode.CaseRange.mk 0x04CF 0x04CF (-15),
   unicode.CaseRange.mk 0x04D0 0x052F unicode.UpperLower, unicode.CaseRange.mk 0x0561 0x0586 (-48),
   unicode.CaseRange.mk 0x10D0 0x10FA 3008, unicode.CaseRange.mk 0x10FD 0x10FF 3008,
   unicode.CaseRange.mk 0x13F8 0x13FD (-8), unicode.CaseRange.mk 0x1C80 0x1C80 (-6254),
   unicode.CaseRange.mk 0x1C81 0x1C81 (-6253), unicode.CaseRange.mk 0x1C82 0x1C82 (-6244),
   unicode.CaseRange.mk 0x1C83 0x1C84 (-6242), unicode.CaseRange.mk 0x1C85 0x1C85 (-6243),
   unicode.CaseRange.mk 0x1C86 0x1C86 (-6236), unicode.CaseRange.mk 0x1C87 0x1C87 (-6181),
   unicode.CaseRange.mk 0x1C88 0x1C88 35266, unicode.CaseRange.mk 0x1D79 0x1D79 35332,
   unicode.CaseRange.mk 0x1D7D 0x1D7D 3814, unicode.CaseRange.mk 0x1D8E 0x1D8E 35384,
   unicode.CaseRange.mk 0x1E00 0x1E95 unicode.UpperLower, unicode.CaseRange.mk 0x1E9B 0x1E9B (-59),
   unicode.CaseRange.mk 0x1EA0 0x1EFF unicode.UpperLower, unicode.CaseRange.mk 0x1F00 0x1F07 8,
   unicode.CaseRange.mk 0x1F10 0x1F15 8, unicode.CaseRange.mk 0x1F20 0x1F27 8,
   unicode.CaseRange.mk 0x1F30 0x1F37 8, unicode.CaseRange.mk 0x1F40 0x1F45 8,
   unicode.CaseRange.mk 0x1F51 0x1F51 8, unicode.CaseRange.mk 0x1F53 0x1F53 8,
   unicode.CaseRange.mk 0x1F55 0x1F55 8, unicode.CaseRange.mk 0x1F57 0x1F57 8,
   unicode.CaseRange.mk 0x1F60 0x1F67 8, unicode.CaseRange.mk 0x1F70 0x1F71 74,
   unicode.CaseRange.mk 0x1F72 0x1F75 86, unicode.CaseRange.mk 0x1F76 0x1F77 100,
   unicode.CaseRange.mk 0x1F78 0x1F79 128, unicode.CaseRange.mk 0x1F7A 0x1F7B 112,
   unicode.CaseRange.mk 0x1F7C 0x1F7D 126, unicode.CaseRange.mk 0x1F80 0x1F87 8,
   unicode.CaseRange.mk 0x1F90 0x1F97 8, unicode.CaseRange.mk 0x1FA0 0x1FA7 8,
   unicode.CaseRange.mk 0x1FB0 0x1FB1 8, unicode.CaseRange.mk 0x1FB3 0x1FB3 9,
   unicode.CaseRange.mk 0x1FBE 0x1FBE (-7205), unicode.CaseRange.mk 0x1FC3 0x1FC3 9,
   unicode.CaseRange.mk 0x1FD0 0x1FD1 8, unicode.CaseRange.mk 0x1FE0 0x1FE1 8,
   unicode.CaseRange.mk 0x1FE5 0x1FE5 7, unicode.CaseRange.mk 0x1FF3 0x1FF3 9,
   unicode.CaseRange.mk 0x214E 0x214E (-28), unicode.CaseRange.mk 0x2170 0x217F (-16),
   unicode.CaseRange.mk 0x2184 0x2184 (-1), unicode.CaseRange.mk 0x24D0 0x24E9 (-26),
   unicode.CaseRange.mk 0x2C30 0x2C5F (-48), unicode.CaseRange.mk 0x2C61 0x2C61 (-1),
   unicode.CaseRange.mk 0x2C65 0x2C65 (-10795), unicode.CaseRange.mk 0x2C66 0x2C66 (-10792),
   unicode.CaseRange.mk 0x2C67 0x2C6C unicode.UpperLower, unicode.CaseRange.mk 0x2C73 0x2C73 (-1),
   unicode.CaseRange.mk 0x2C76 0x2C76 (-1), unicode.CaseRange.mk 0x2C80 0x2CE3 unicode.UpperLower,
   unicode.CaseRange.mk 0x2CEB 0x2CEE unicode.UpperLower, unicode.CaseRange.mk 0x2CF3 0x2CF3 (-1),
   unicode.CaseRange.mk 0x2D00 0x2D25 (-7264), unicode.CaseRange.mk 0x2D27 0x2D27 (-7264),
   unicode.CaseRange.mk 0x2D2D 0x2D2D (-7264),
   unicode.CaseRange.mk 0xA640 0xA66D unicode.UpperLower,
   unicode.CaseRange.mk 0xA680 0xA69B unicode.UpperLower,
   unicode.CaseRange.mk 0xA722 0xA72F unicode.UpperLower,
   unicode.CaseRange.mk 0xA732 0xA76F unicode.UpperLower,
   unicode.CaseRange.mk 0xA779 0xA77C unicode.UpperLower,
   unicode.CaseRange.mk 0xA77E 0xA787 unicode.UpperLower, unicode.CaseRange.mk 0xA78C 0xA78C (-1),
   unicode.CaseRange.mk 0xA790 0xA793 unicode.UpperLower, unicode.CaseRange.mk 0xA794 0xA794 48,
   unicode.CaseRange.mk 0xA796 0xA7A9 unicode.UpperLower,
   unicode.CaseRange.mk 0xA7B4 0xA7C3 unicode.UpperLower,
   unicode.CaseRange.mk 0xA7C7 0xA7CA unicode.UpperLower, unicode.CaseRange.mk 0xA7D1 0xA7D1 (-1),
   unicode.CaseRange.mk 0xA7D6 0xA7D9 unicode.UpperLower, unicode.CaseRange.mk 0xA7F6 0xA7F6 (-1),
   unicode.CaseRange.mk 0xAB53 0xAB53 (-928), unicode.CaseRange.mk 0xAB70 0xABBF (-38864),
   unicode.CaseRange.mk 0xFF41 0xFF5A (-32), unicode.CaseRange.mk 0x10428 0x1044F (-40),
   unicode.CaseRange.mk 0x104D8 0x104FB (-40), unicode.CaseRange.mk 0x10597 0x105A1 (-39),
   unicode.CaseRange.mk 0x105A3 0x105B1 (-39), unicode.CaseRange.mk 0x105B3 0x105B9 (-39),
   unicode.CaseRange.mk 0x105BB 0x105BC (-39), unicode.CaseRange.mk 0x10CC0 0x10CF2 (-64),
   unicode.CaseRange.mk 0x118C0 0x118DF (-32), unicode.CaseRange.mk 0x16E60 0x16E7F (-32),
   unicode.CaseRange.mk 0x1E922 0x1E943 (-34)]

/-- The function `to` of package `unicode`, for `_case = UpperCase`.  The ranges of the
table are disjoint and ascending, so its binary search finds the range that `find?`
finds.  In an `UpperLower` range the low bit of the offset is cleared. -/
def unicode.toCase (caseRange : List unicode.CaseRange) (r : Nat) : Nat :=
  match caseRange.find? (fun cr => decide (cr.Lo ≤ r) && decide (r ≤ cr.Hi)) with
  | some cr =>
    if cr.Delta > unicode.MaxRune then cr.Lo + (r - cr.Lo) / 2 * 2
    else ((r : Int) + cr.Delta).toNat
  | none => r

/-- The function `unicode.ToUpper`, on the code point of a rune. -/
def unicode.ToUpper (r : Nat) : Nat :=
  if r ≤ unicode.MaxASCII then
    if 97 ≤ r ∧ r ≤ 122 then r - 32 else r
  else unicode.toCase unicode.CaseRanges r

/-- The rune that `strings.Map` writes for a mapped code point: `utf8.RuneError` when it
is not a valid rune. -/
def strings.writeRune (r : Nat) : Char :=
  if r.isValidChar then Char.ofNat r else Char.ofNat 0xFFFD

/-- The function `strings.Map`, for a mapping that returns no negative value.  A Lean
string is a sequence of valid runes, so the bytes that Go would decode as
`utf8.RuneError` do not occur. -/
def strings.Map (mapping : Nat → Nat) (s : String) : String :=
  String.mk (s.data.map (fun c => strings.writeRune (mapping c.toNat)))

/-- The function `strings.ToUpper`: an ASCII string is returned as it is when it has no
lower-case letter and with `'a' - 'A'` subtracted from its lower-case letters otherwise;
any other string goes through `Map(unicode.ToUpper, s)`. -/
def strings.ToUpper (s : String) : String :=
  if s.data.all (fun c => decide (c.toNat < 0x80)) then
    if s.data.any (fun c => decide (97 ≤ c.toNat ∧ c.toNat ≤ 122)) then
      String.mk (s.data.map (fun c =>
        if 97 ≤ c.toNat ∧ c.toNat ≤ 122 then Char.ofNat (c.toNat - 32) else c))
    else s
  else strings.Map unicode.ToUpper s

/-! ## Concrete collaborators, for evaluating the code -/

/-- A toy password library: the hash of `p` is `"#" ++ p` whatever the salt,
stored as it is; a text is a hash when it starts with `#`. -/
def demoEnv : Env :=
  { uuid := fun n => String.mk (List.replicate (n + 1) 'u')
    GenerateFromPassword := fun p _ => .ok ("#" ++ p)
    EncodeToString := fun h => h
    DecodeString := fun s =>
      match s.data with
      | '#' :: _ => .ok s
      | _ => .error "illegal hash"
    CompareHashAndPassword := fun h p => decide (h = "#" ++ p)
    ToUpper := strings.ToUpper
    New := fun p _ => .ok ("#" ++ p)
    MarshalText := fun h => .ok h }

/-- The store handle of the tests: MySQL with the default adapter. -/
def demoTab : Users := { db := MySQLDriver, table := "aspnetusers", style := MySQLDatabase }

/-- A dialect with numbered parameters `@p1`, `@p2`, ..., otherwise as `MySQLDatabase`. -/
def numberedDatabase : Database := { MySQLDatabase with Param := fun n => "@p" ++ toString n }

/-- The table `aspnetusers` reached through the numbered dialect. -/
def numberedTab : Users := { demoTab with style := numberedDatabase }

/-- A world holding the table `rows`, with no fault scheduled. -/
def World.ofRows (rows : List Row) : World :=
  { rows := rows, faults := [], log := [], uuids := 0, salts := 0, now := 0 }

/-- The row of a user named alice. -/
def aliceRow : Row :=
  { Id := "id-a", AccessFailedCount := 0, ConcurrencyStamp := some "st-a", Email := some "a@x",
    EmailConfirmed := false, LockoutEnabled := false, LockoutEnd := none,
    NormalizedEmail := some "A@X", NormalizedUserName := some "ALICE", PasswordHash := some "#pw",
    PhoneNumber := some "", PhoneNumberConfirmed := false, SecurityStamp := some "sec-a",
    TwoFactorEnabled := false, UserName := some "alice" }

/-- The row of a user named bob. -/
def bobRow : Row :=
  { aliceRow with Id := "id-b", ConcurrencyStamp := some "st-b", NormalizedUserName := some "BOB",
                  UserName := some "bob", SecurityStamp := some "sec-b" }

/-- The record of alice, as `FindByName` decodes it. -/
def aliceUser : User :=
  { ID := "id-a", UserName := "alice", NormalizedUserName := "ALICE", Email := "a@x",
    NormalizedEmail := "A@X", EmailConfirmed := false, PasswordHash := "#pw",
    SecurityStamp := "sec-a", ConcurrencyStamp := "st-a", PhoneNumber := "",
    PhoneNumberConfirmed := false, TwoFactorEnabled := false, LockoutEnd := none,
    LockoutEnabled := false, AccessFailedCount := 0 }

/-- The row of alice with lockout enabled. -/
def lockableRow : Row := { aliceRow with LockoutEnabled := true }

/-- The record of alice with lockout enabled. -/
def lockableUser : User := { aliceUser with LockoutEnabled := true }

/-- The row of alice locked out until 100. -/
def lockedRow : Row := { aliceRow with LockoutEnabled := true, LockoutEnd := some 100 }

/-- The contract of the password library that the claims assume: a generated hash
survives encoding and decoding, and it verifies exactly the password it was made from. -/
structure HashContract (E : Env) : Prop where
  decode_encode : ∀ p s h, E.GenerateFromPassword p s = .ok h →
    E.DecodeString (E.EncodeToString h) = .ok h
  compare_iff : ∀ p s h q, E.GenerateFromPassword p s = .ok h →
    (E.CompareHashAndPassword h q = true ↔ q = p)

/-- The contract of `pwdatav3.New` and `MarshalText`, as `HashContract` for
`GenerateFromPassword` and `EncodeToString`: the text decodes to a hash that verifies
exactly the password it was made from. -/
structure NewContract (E : Env) : Prop where
  decode_marshal : ∀ p s h t, E.New p s = .ok h → E.MarshalText h = .ok t →
    ∃ d, E.DecodeString t = .ok d ∧ ∀ q, (E.CompareHashAndPassword d q = true ↔ q = p)

/-- The row with its two lockout columns blanked. -/
def Row.eraseLockout (r : Row) : Row := { r with LockoutEnabled := false, LockoutEnd := none }

/-- The record with its two lockout fields blanked. -/
def User.eraseLockout (u : User) : User := { u with LockoutEnabled := false, LockoutEnd := none }

/-- Two worlds that differ at most in the lockout columns of their rows (and in the log
of the statements issued). -/
def lockoutBlind (v w : World) : Prop :=
  v.rows.map Row.eraseLockout = w.rows.map Row.eraseLockout ∧ v.faults = w.faults ∧
  v.uuids = w.uuids ∧ v.salts = w.salts ∧ v.now = w.now

/-- The keys of the row `r` are already in the table: its `Id` or its normalised name. -/
def keyTaken (rows : List Row) (r : Row) : Bool :=
  rows.any (fun x => decide (x.Id = r.Id) ||
    (r.NormalizedUserName.isSome && decide (x.NormalizedUserName = r.NormalizedUserName)))

/-- The world after `Update` has drawn its stamp and the store has logged the statement. -/
def afterUpdate (E : Env) (u : User) (w : World) : World :=
  ((newStamp E w).2.step (.update (updateVals u (E.uuid w.uuids)) u.ID u.ConcurrencyStamp)).2

/-- The part of `Authenticate` after the lookup: decode, compare, count, answer. -/
def authTail (E : Env) (tab : Users) (password : String) (u : User) (w1 : World) :
    (Option User × Option Error) × World :=
  match E.DecodeString u.PasswordHash with
  | .error msg => ((none, some (.Hash msg)), w1)
  | .ok pwd =>
    if E.CompareHashAndPassword pwd password = true then
      ((some (accessFailed E tab u false w1).2.1, none), (accessFailed E tab u false w1).2.2)
    else ((none, some .ErrInvalidCredentials), (accessFailed E tab u true w1).2.2)

/-- The world after `ChangePassword` has drawn a salt and a security stamp. -/
@[reducible]
def World.drawn (w : World) : World := { w with salts := w.salts + 1, uuids := w.uuids + 1 }

/-- The world with its table replaced. -/
@[reducible]
def World.setRows (w : World) (rows : List Row) : World := { w with rows := rows }

/-- The next `n` store operations meet no scheduled fault. -/
def World.healthy (w : World) (n : Nat) : Prop := ∀ f ∈ w.faults.take n, f = none

instance (w : World) (n : Nat) : Decidable (w.healthy n) := by
  unfold World.healthy; infer_instance

/-! ## Theorems -/

/-! ### The store -/

theorem step_rows (w : World) (op : Op) : (w.step op).2.rows = w.rows := by
  unfold World.step; cases w.faults <;> rfl

theorem step_uuids (w : World) (op : Op) : (w.step op).2.uuids = w.uuids := by
  unfold World.step; cases w.faults <;> rfl

theorem step_salts (w : World) (op : Op) : (w.step op).2.salts = w.salts := by
  unfold World.step; cases w.faults <;> rfl

theorem step_now (w : World) (op : Op) : (w.step op).2.now = w.now := by
  unfold World.step; cases w.faults <;> rfl

theorem step_log (w : World) (op : Op) : (w.step op).2.log = op :: w.log := by
  unfold World.step; cases w.faults <;> rfl

theorem step_faults (w : World) (op : Op) : (w.step op).2.faults = w.faults.tail := by
  unfold World.step; cases w.faults <;> rfl

theorem step_fst (w : World) (op : Op) : (w.step op).1 = (w.faults.head?).join := by
  unfold World.step; cases w.faults <;> rfl

theorem step_healthy (w : World) (op : Op) (n : Nat) (h : w.healthy (n + 1)) :
    (w.step op).1 = none ∧ (w.step op).2.healthy n := by
  unfold World.healthy at h ⊢
  rw [step_fst, step_faults]
  cases hf : w.faults with
  | nil => simp
  | cons f fs =>
    rw [hf] at h
    simp only [List.take_succ_cons, List.mem_cons, forall_eq_or_imp] at h
    exact ⟨by simp [h.1], by simpa using h.2⟩

theorem healthy_mono (w : World) (n m : Nat) (hnm : n ≤ m) (h : w.healthy m) : w.healthy n := by
  intro f hf
  exact h f (List.take_subset_take_left _ hnm hf)

theorem updated_of_no_hit (rows : List Row) (vals : Row) (id stamp : String)
    (h : ∀ r ∈ rows, hit id stamp r = false) : updated rows vals id stamp = rows := by
  unfold updated
  conv_rhs => rw [← List.map_id rows]
  apply List.map_congr_left
  intro r hr
  simp [h r hr]

theorem filter_hit_of_no_hit (rows : List Row) (id stamp : String)
    (h : ∀ r ∈ rows, hit id stamp r = false) : rows.filter (hit id stamp) = [] := by
  rw [List.filter_eq_nil_iff]
  intro r hr
  simp [h r hr]

theorem any_hit_of_no_hit (rows : List Row) (id stamp : String)
    (h : ∀ r ∈ rows, hit id stamp r = false) : rows.any (hit id stamp) = false := by
  rw [List.any_eq_false]
  intro r hr
  simp [h r hr]

/-! ### Update -/

theorem afterUpdate_rows (E : Env) (u : User) (w : World) : (afterUpdate E u w).rows = w.rows := by
  unfold afterUpdate; rw [step_rows]; rfl

theorem afterUpdate_uuids (E : Env) (u : User) (w : World) :
    (afterUpdate E u w).uuids = w.uuids + 1 := by
  unfold afterUpdate; rw [step_uuids]; rfl

theorem afterUpdate_healthy (E : Env) (u : User) (w : World) (n : Nat) (hw : w.healthy (n + 1)) :
    (afterUpdate E u w).healthy n :=
  (step_healthy (newStamp E w).2 _ n hw).2

/-- What `Update` does when the store executes its statement. -/
theorem Update_spec (E : Env) (tab : Users) (u : User) (w : World) (hw : w.healthy 1) :
    Update E tab u w =
      if w.rows.any (hit u.ID u.ConcurrencyStamp) = true ∧
          1 < ((updated w.rows (updateVals u (E.uuid w.uuids)) u.ID u.ConcurrencyStamp).filter
            (fun x => decide (x.NormalizedUserName = some u.NormalizedUserName))).length
      then (some (.Driver tab.db.duplicate), u, afterUpdate E u w)
      else if (w.rows.filter (hit u.ID u.ConcurrencyStamp)).length = 0
      then (some .ErrConcurrency, u,
        (afterUpdate E u w).setRows
          (updated w.rows (updateVals u (E.uuid w.uuids)) u.ID u.ConcurrencyStamp))
      else (none, { u with ConcurrencyStamp := E.uuid w.uuids },
        (afterUpdate E u w).setRows
          (updated w.rows (updateVals u (E.uuid w.uuids)) u.ID u.ConcurrencyStamp)) := by
  have hs := step_healthy (newStamp E w).2
    (.update (updateVals u (E.uuid w.uuids)) u.ID u.ConcurrencyStamp) 0 hw
  have hrows : ((newStamp E w).2.step
      (.update (updateVals u (E.uuid w.uuids)) u.ID u.ConcurrencyStamp)).2.rows = w.rows :=
    step_rows _ _
  unfold Update execUpdate afterUpdate
  simp only [newStamp] at hs hrows ⊢
  generalize World.step _ _ = st at hs hrows
  obtain ⟨f, w1⟩ := st
  simp only at hs hrows
  obtain ⟨hf, -⟩ := hs
  subst hf
  simp only [hrows, updateVals, Bool.and_eq_true, decide_eq_true_eq]
  by_cases h1 : w.rows.any (hit u.ID u.ConcurrencyStamp) = true ∧
      1 < ((updated w.rows (updateVals u (E.uuid w.uuids)) u.ID u.ConcurrencyStamp).filter
        (fun x => decide (x.NormalizedUserName = some u.NormalizedUserName))).length
  · simp only [updateVals] at h1
    rw [if_pos h1, if_pos h1]
  · simp only [updateVals] at h1
    rw [if_neg h1, if_neg h1]

theorem Update_miss (E : Env) (tab : Users) (u : User) (w : World)
    (hw : w.healthy 1)
    (hno : ∀ r ∈ w.rows, hit u.ID u.ConcurrencyStamp r = false) :
    Update E tab u w = (some .ErrConcurrency, u, afterUpdate E u w) := by
  rw [Update_spec E tab u w hw]
  simp only [any_hit_of_no_hit _ _ _ hno, Bool.false_eq_true, false_and, if_false,
    filter_hit_of_no_hit _ _ _ hno, List.length_nil, if_true, updated_of_no_hit _ _ _ _ hno]
  congr 2
  rw [← afterUpdate_rows E u w]

theorem hit_false_of_not (id stamp : String) (r : Row)
    (h : ¬ (r.Id = id ∧ r.ConcurrencyStamp = some stamp)) : hit id stamp r = false := by
  unfold hit
  by_cases h1 : r.Id = id
  · have h2 : r.ConcurrencyStamp ≠ some stamp := fun h2 => h ⟨h1, h2⟩
    simp [h1, h2]
  · simp [h1]

/-- C1: when no row has both `Id = u.ID` and `ConcurrencyStamp = u.ConcurrencyStamp`
and the store executes the statement, `Update` returns exactly `ErrConcurrency`,
the record `u` keeps every field, and the table is unchanged. -/
theorem Update_conflict_changes_nothing (E : Env) (tab : Users) (u : User) (w : World)
    (hw : w.healthy 1)
    (hno : ∀ r ∈ w.rows, ¬ (r.Id = u.ID ∧ r.ConcurrencyStamp = some u.ConcurrencyStamp)) :
    (Update E tab u w).1 = some .ErrConcurrency ∧
    (Update E tab u w).2.1 = u ∧
    (Update E tab u w).2.2.rows = w.rows := by
  rw [Update_miss E tab u w hw (fun r hr => hit_false_of_not _ _ r (hno r hr))]
  exact ⟨rfl, rfl, afterUpdate_rows E u w⟩

/-- C1 at a concrete input: alice's record with a stale stamp. -/
theorem Update_conflict_changes_nothing_witness :
    (Update demoEnv demoTab { aliceUser with ConcurrencyStamp := "old" }
      (World.ofRows [aliceRow, bobRow])).1 = some .ErrConcurrency ∧
    (Update demoEnv demoTab { aliceUser with ConcurrencyStamp := "old" }
      (World.ofRows [aliceRow, bobRow])).2.1 = { aliceUser with ConcurrencyStamp := "old" } ∧
    (Update demoEnv demoTab { aliceUser with ConcurrencyStamp := "old" }
      (World.ofRows [aliceRow, bobRow])).2.2.rows = [aliceRow, bobRow] :=
  Update_conflict_changes_nothing demoEnv demoTab { aliceUser with ConcurrencyStamp := "old" }
    (World.ofRows [aliceRow, bobRow]) (by decide) (by decide)

theorem length_le_one_of_const_nodup (l : List Row) (c : String)
    (hnd : (l.map Row.Id).Nodup) (hc : ∀ x ∈ l, x.Id = c) : l.length ≤ 1 := by
  match l, hnd, hc with
  | [], _, _ => simp
  | [_], _, _ => simp
  | a :: b :: t, hnd, hc =>
    exfalso
    have ha := hc a (by simp)
    have hb := hc b (by simp)
    simp only [List.map_cons, List.nodup_cons, List.mem_cons] at hnd
    exact hnd.1 (Or.inl (ha.trans hb.symm))

theorem eq_of_length_le_one (l : List Row) (a b : Row) (hl : l.length ≤ 1)
    (ha : a ∈ l) (hb : b ∈ l) : a = b := by
  match l, hl, ha, hb with
  | [x], _, ha, hb =>
    simp only [List.mem_singleton] at ha hb
    rw [ha, hb]
  | _ :: _ :: _, hl, _, _ => simp at hl

theorem updated_map_Id (rows : List Row) (vals : Row) (id stamp : String) :
    (updated rows vals id stamp).map Row.Id = rows.map Row.Id := by
  unfold updated
  rw [List.map_map]
  apply List.map_congr_left
  intro r _
  simp only [Function.comp]
  split_ifs <;> rfl

theorem mem_updated (rows : List Row) (vals : Row) (id stamp : String) (y : Row)
    (hy : y ∈ updated rows vals id stamp) :
    ∃ x ∈ rows, y = if hit id stamp x = true then { vals with Id := x.Id } else x := by
  unfold updated at hy
  rw [List.mem_map] at hy
  obtain ⟨x, hx, rfl⟩ := hy
  exact ⟨x, hx, rfl⟩

theorem hit_Id (id stamp : String) (x : Row) (h : hit id stamp x = true) : x.Id = id := by
  unfold hit at h
  simp only [Bool.and_eq_true, decide_eq_true_eq] at h
  exact h.1

theorem hit_stamp (id stamp : String) (x : Row) (h : hit id stamp x = true) :
    x.ConcurrencyStamp = some stamp := by
  unfold hit at h
  simp only [Bool.and_eq_true, decide_eq_true_eq] at h
  exact h.2

theorem hit_iff (id stamp : String) (x : Row) :
    hit id stamp x = true ↔ (x.Id = id ∧ x.ConcurrencyStamp = some stamp) := by
  unfold hit
  simp only [Bool.and_eq_true, decide_eq_true_eq]

/-- With unique `Id`s, an update that gives its row a name no other row carries keeps
the names unique. -/
theorem accepts_of_unique (rows : List Row) (vals : Row) (id stamp : String)
    (hnd : (rows.map Row.Id).Nodup)
    (hname : ∀ r ∈ rows, r.NormalizedUserName = vals.NormalizedUserName → r.Id = id) :
    ((updated rows vals id stamp).filter
      (fun x => decide (x.NormalizedUserName = vals.NormalizedUserName))).length ≤ 1 := by
  apply length_le_one_of_const_nodup _ id
  · have hsub : ((updated rows vals id stamp).filter
        (fun x => decide (x.NormalizedUserName = vals.NormalizedUserName))).Sublist
        (updated rows vals id stamp) := List.filter_sublist _
    have := (hsub.map Row.Id)
    rw [updated_map_Id] at this
    exact hnd.sublist this
  · intro y hy
    rw [List.mem_filter] at hy
    obtain ⟨x, hx, hyx⟩ := mem_updated _ _ _ _ y hy.1
    by_cases hh : hit id stamp x = true
    · rw [if_pos hh] at hyx
      rw [hyx]
      exact hit_Id id stamp x hh
    · rw [if_neg hh] at hyx
      subst hyx
      exact hname y hx (by simpa using hy.2)

theorem Update_hit (E : Env) (tab : Users) (u : User) (w : World)
    (hw : w.healthy 1)
    (hrow : ∃ r ∈ w.rows, hit u.ID u.ConcurrencyStamp r = true)
    (hadm : ((updated w.rows (updateVals u (E.uuid w.uuids)) u.ID u.ConcurrencyStamp).filter
      (fun x => decide (x.NormalizedUserName = some u.NormalizedUserName))).length ≤ 1) :
    Update E tab u w = (none, { u with ConcurrencyStamp := E.uuid w.uuids },
      (afterUpdate E u w).setRows
          (updated w.rows (updateVals u (E.uuid w.uuids)) u.ID u.ConcurrencyStamp)) := by
  rw [Update_spec E tab u w hw]
  have h1 : ¬ (w.rows.any (hit u.ID u.ConcurrencyStamp) = true ∧
      1 < ((updated w.rows (updateVals u (E.uuid w.uuids)) u.ID u.ConcurrencyStamp).filter
        (fun x => decide (x.NormalizedUserName = some u.NormalizedUserName))).length) :=
    fun h => absurd hadm (by omega)
  have h2 : ¬ (w.rows.filter (hit u.ID u.ConcurrencyStamp)).length = 0 := by
    obtain ⟨r, hr, hh⟩ := hrow
    have : r ∈ w.rows.filter (hit u.ID u.ConcurrencyStamp) := List.mem_filter.mpr ⟨hr, hh⟩
    intro h0
    rw [List.length_eq_zero] at h0
    rw [h0] at this
    simp at this
  rw [if_neg h1, if_neg h2]

/-- C2, as amended: over a table with unique `Id`s, when a row matches `u.ID` and
`u.ConcurrencyStamp`, no other row carries `u.NormalizedUserName` and the store executes
the statement, `Update` returns no error; the record differs from `u` in the
`ConcurrencyStamp` alone, which is the stamp drawn by this call; the matching row keeps
its `Id`, takes that stamp and the fields of `u` in every other column; the other rows
are unchanged. -/
theorem Update_success_effect (E : Env) (tab : Users) (u : User) (w : World)
    (hw : w.healthy 1)
    (hnd : (w.rows.map Row.Id).Nodup)
    (hrow : ∃ r ∈ w.rows, r.Id = u.ID ∧ r.ConcurrencyStamp = some u.ConcurrencyStamp)
    (hname : ∀ r ∈ w.rows, r.NormalizedUserName = some u.NormalizedUserName → r.Id = u.ID) :
    (Update E tab u w).1 = none ∧
    (Update E tab u w).2.1 = { u with ConcurrencyStamp := E.uuid w.uuids } ∧
    (Update E tab u w).2.2.rows = w.rows.map (fun x =>
      if x.Id = u.ID ∧ x.ConcurrencyStamp = some u.ConcurrencyStamp then
        { Id := x.Id
          AccessFailedCount := u.AccessFailedCount
          ConcurrencyStamp := some (E.uuid w.uuids)
          Email := some u.Email
          EmailConfirmed := u.EmailConfirmed
          LockoutEnabled := u.LockoutEnabled
          LockoutEnd := u.LockoutEnd
          NormalizedEmail := some u.NormalizedEmail
          NormalizedUserName := some u.NormalizedUserName
          PasswordHash := some u.PasswordHash
          PhoneNumber := some u.PhoneNumber
          PhoneNumberConfirmed := u.PhoneNumberConfirmed
          SecurityStamp := some u.SecurityStamp
          TwoFactorEnabled := u.TwoFactorEnabled
          UserName := some u.UserName }
      else x) := by
  have hrow1 : ∃ r ∈ w.rows, hit u.ID u.ConcurrencyStamp r = true := by
    obtain ⟨r, hr, h⟩ := hrow
    exact ⟨r, hr, (hit_iff _ _ _).mpr h⟩
  rw [Update_hit E tab u w hw hrow1
    (accepts_of_unique w.rows (updateVals u (E.uuid w.uuids)) u.ID u.ConcurrencyStamp hnd hname)]
  refine ⟨rfl, rfl, ?_⟩
  show updated w.rows _ _ _ = _
  unfold updated
  apply List.map_congr_left
  intro x _
  by_cases hx : x.Id = u.ID ∧ x.ConcurrencyStamp = some u.ConcurrencyStamp
  · rw [if_pos ((hit_iff _ _ _).mpr hx), if_pos hx]
    rfl
  · have : ¬ hit u.ID u.ConcurrencyStamp x = true := fun h => hx ((hit_iff _ _ _).mp h)
    rw [if_neg this, if_neg hx]

/-- C2 at a concrete input: alice, as read from the table, with a failed login counted. -/
theorem Update_success_effect_witness :
    (Update demoEnv demoTab { aliceUser with AccessFailedCount := 1 }
      (World.ofRows [aliceRow, bobRow])).1 = none ∧
    (Update demoEnv demoTab { aliceUser with AccessFailedCount := 1 }
      (World.ofRows [aliceRow, bobRow])).2.1 =
        { aliceUser with AccessFailedCount := 1, ConcurrencyStamp := "u" } ∧
    (Update demoEnv demoTab { aliceUser with AccessFailedCount := 1 }
      (World.ofRows [aliceRow, bobRow])).2.2.rows =
        [{ aliceRow with AccessFailedCount := 1, ConcurrencyStamp := some "u" }, bobRow] :=
  Update_success_effect demoEnv demoTab { aliceUser with AccessFailedCount := 1 }
    (World.ofRows [aliceRow, bobRow]) (by decide) (by decide) (by decide) (by decide)

/-- C2 as stated fails: alice's row matches her record, but the record now carries the
name of bob, and the unique key on `NormalizedUserName` makes the store refuse the
update; `Update` returns the driver's error. -/
theorem Update_rename_collision :
    (∃ r ∈ (World.ofRows [aliceRow, bobRow]).rows,
      r.Id = ({ aliceUser with UserName := "bob", NormalizedUserName := "BOB" } : User).ID ∧
      r.ConcurrencyStamp =
        some ({ aliceUser with UserName := "bob", NormalizedUserName := "BOB" } : User).ConcurrencyStamp) ∧
    (Update demoEnv demoTab { aliceUser with UserName := "bob", NormalizedUserName := "BOB" }
      (World.ofRows [aliceRow, bobRow])).1 = some (.Driver (.MySQLError 1062)) ∧
    (Update demoEnv demoTab { aliceUser with UserName := "bob", NormalizedUserName := "BOB" }
      (World.ofRows [aliceRow, bobRow])).2.2.rows = [aliceRow, bobRow] := by
  decide

/-! ### Lookups -/

/-- What `FindByID` does when the store executes its query. -/
theorem FindByID_spec (tab : Users) (uid : String) (w : World) (hw : w.healthy 1) :
    FindByID tab uid w =
      match w.rows.find? (fun x => decide (x.Id = uid)) with
      | none => ((none, some .ErrNotFound), (w.step (.queryID uid)).2)
      | some r => ((some (scanUser tab r), none), (w.step (.queryID uid)).2) := by
  have hs := step_healthy w (.queryID uid) 0 hw
  have hrows := step_rows w (.queryID uid)
  unfold FindByID queryRow
  generalize World.step _ _ = st at hs hrows
  obtain ⟨f, w1⟩ := st
  simp only at hs hrows
  obtain ⟨hf, -⟩ := hs
  subst hf
  simp only [hrows]
  cases w.rows.find? (fun x => decide (x.Id = uid)) <;> simp [unpackUser]

/-- What `FindByName` does when the store executes its query. -/
theorem FindByName_spec (E : Env) (tab : Users) (name : String) (w : World) (hw : w.healthy 1) :
    FindByName E tab name w =
      match w.rows.find? (fun x => decide (x.NormalizedUserName = some (E.ToUpper name))) with
      | none => ((none, some .ErrNotFound), (w.step (.queryName (E.ToUpper name))).2)
      | some r => ((some (scanUser tab r), none), (w.step (.queryName (E.ToUpper name))).2) := by
  have hs := step_healthy w (.queryName (E.ToUpper name)) 0 hw
  have hrows := step_rows w (.queryName (E.ToUpper name))
  unfold FindByName queryRow
  simp only [normalise]
  generalize World.step _ _ = st at hs hrows
  obtain ⟨f, w1⟩ := st
  simp only at hs hrows
  obtain ⟨hf, -⟩ := hs
  subst hf
  simp only [hrows]
  cases w.rows.find? (fun x => decide (x.NormalizedUserName = some (E.ToUpper name))) <;>
    simp [unpackUser]

/-- A successful `Update` matched a row and passed the unique key. -/
theorem Update_ok_inv (E : Env) (tab : Users) (u : User) (w : World) (hw : w.healthy 1)
    (hok : (Update E tab u w).1 = none) :
    (∃ r ∈ w.rows, hit u.ID u.ConcurrencyStamp r = true) ∧
    ((updated w.rows (updateVals u (E.uuid w.uuids)) u.ID u.ConcurrencyStamp).filter
      (fun x => decide (x.NormalizedUserName = some u.NormalizedUserName))).length ≤ 1 := by
  rw [Update_spec E tab u w hw] at hok
  by_cases h1 : w.rows.any (hit u.ID u.ConcurrencyStamp) = true ∧
      1 < ((updated w.rows (updateVals u (E.uuid w.uuids)) u.ID u.ConcurrencyStamp).filter
        (fun x => decide (x.NormalizedUserName = some u.NormalizedUserName))).length
  · rw [if_pos h1] at hok
    simp at hok
  · rw [if_neg h1] at hok
    by_cases h2 : (w.rows.filter (hit u.ID u.ConcurrencyStamp)).length = 0
    · rw [if_pos h2] at hok
      simp at hok
    · have hex : ∃ r ∈ w.rows, hit u.ID u.ConcurrencyStamp r = true := by
        by_contra hne
        push_neg at hne
        apply h2
        rw [filter_hit_of_no_hit _ _ _ (fun r hr => by simpa using hne r hr)]
        rfl
      refine ⟨hex, ?_⟩
      have hany : w.rows.any (hit u.ID u.ConcurrencyStamp) = true := by
        obtain ⟨r, hr, hh⟩ := hex
        exact List.any_eq_true.mpr ⟨r, hr, hh⟩
      by_contra hlt
      exact h1 ⟨hany, by omega⟩

/-- C3: two records `a` and `b` carry the same `ID` and `ConcurrencyStamp`, the table has
unique `Id`s, the stamp drawn for the first update differs from the current one and the
store executes the four statements.  If `Update a` succeeds, then `Update b` returns
`ErrConcurrency`, leaves `b` and the table as they were, and the record that `FindByID`
then returns is updated without error. -/
theorem stale_stamp_conflict_then_refetch (E : Env) (tab : Users) (a b : User) (w : World)
    (hw : w.healthy 4)
    (hnd : (w.rows.map Row.Id).Nodup)
    (hid : b.ID = a.ID) (hst : b.ConcurrencyStamp = a.ConcurrencyStamp)
    (hfresh : E.uuid w.uuids ≠ a.ConcurrencyStamp)
    (hok : (Update E tab a w).1 = none) :
    (Update E tab b (Update E tab a w).2.2).1 = some .ErrConcurrency ∧
    (Update E tab b (Update E tab a w).2.2).2.1 = b ∧
    (Update E tab b (Update E tab a w).2.2).2.2.rows = (Update E tab a w).2.2.rows ∧
    ∃ c, (FindByID tab b.ID (Update E tab b (Update E tab a w).2.2).2.2).1 = (some c, none) ∧
      (Update E tab c (FindByID tab b.ID (Update E tab b (Update E tab a w).2.2).2.2).2).1 = none := by
  have hw1 : w.healthy 1 := healthy_mono w 1 4 (by omega) hw
  obtain ⟨hex, hadm⟩ := Update_ok_inv E tab a w hw1 hok
  rw [Update_hit E tab a w hw1 hex hadm]
  simp only
  generalize hT1 : updated w.rows (updateVals a (E.uuid w.uuids)) a.ID a.ConcurrencyStamp = T1
    at hadm
  generalize hW1 : (afterUpdate E a w).setRows T1 = W1
  have hr1 : W1.rows = T1 := by rw [← hW1]
  have hh1 : W1.healthy 3 := by
    rw [← hW1]; exact afterUpdate_healthy E a w 3 hw
  have hnd1 : (T1.map Row.Id).Nodup := by rw [← hT1, updated_map_Id]; exact hnd
  -- the row written by the first update
  obtain ⟨x0, hx0, hhit0⟩ := hex
  have hy0 : ({ updateVals a (E.uuid w.uuids) with Id := x0.Id } : Row) ∈ T1 := by
    rw [← hT1]
    unfold updated
    exact List.mem_map.mpr ⟨x0, hx0, by rw [if_pos hhit0]⟩
  generalize hy0def : ({ updateVals a (E.uuid w.uuids) with Id := x0.Id } : Row) = y0 at hy0
  have hy0Id : y0.Id = a.ID := by rw [← hy0def]; exact hit_Id a.ID a.ConcurrencyStamp x0 hhit0
  have hy0st : y0.ConcurrencyStamp = some (E.uuid w.uuids) := by rw [← hy0def]; rfl
  have hy0nm : y0.NormalizedUserName = some a.NormalizedUserName := by rw [← hy0def]; rfl
  -- no row carries the stale stamp any more
  have hmiss : ∀ r ∈ W1.rows, hit b.ID b.ConcurrencyStamp r = false := by
    intro y hy
    rw [hr1, ← hT1] at hy
    obtain ⟨x, hx, hyx⟩ := mem_updated _ _ _ _ y hy
    by_cases hh : hit a.ID a.ConcurrencyStamp x = true
    · rw [if_pos hh] at hyx
      apply hit_false_of_not
      rintro ⟨-, h2⟩
      rw [hyx, hst] at h2
      exact hfresh (Option.some.inj h2)
    · rw [if_neg hh] at hyx
      rw [hyx, hid, hst]
      simpa using hh
  rw [Update_miss E tab b W1 (healthy_mono W1 1 3 (by omega) hh1) hmiss]
  refine ⟨rfl, rfl, (afterUpdate_rows E b W1).trans hr1, ?_⟩
  simp only
  have hh2 : (afterUpdate E b W1).healthy 2 := afterUpdate_healthy E b W1 2 hh1
  have hr2 : (afterUpdate E b W1).rows = T1 := by rw [afterUpdate_rows, hr1]
  generalize afterUpdate E b W1 = W2 at hh2 hr2
  rw [FindByID_spec tab b.ID W2 (healthy_mono W2 1 2 (by omega) hh2), hr2]
  have hh3 : (W2.step (.queryID b.ID)).2.healthy 1 := (step_healthy W2 _ 1 hh2).2
  have hr3 : (W2.step (.queryID b.ID)).2.rows = T1 := by rw [step_rows, hr2]
  generalize (W2.step (.queryID b.ID)).2 = W3 at hh3 hr3
  cases hfind : T1.find? (fun x => decide (x.Id = b.ID)) with
  | none =>
    exfalso
    rw [List.find?_eq_none] at hfind
    exact hfind y0 hy0 (by simp [hy0Id, hid])
  | some r =>
    have hrmem : r ∈ T1 := List.mem_of_find?_eq_some hfind
    have hrId : r.Id = b.ID := by simpa using List.find?_some hfind
    have hry0 : r = y0 :=
      List.inj_on_of_nodup_map hnd1 hrmem hy0 (by rw [hrId, hy0Id, hid])
    subst hry0
    refine ⟨scanUser tab r, rfl, ?_⟩
    simp only
    have hcId : (scanUser tab r).ID = a.ID := hy0Id
    have hcst : (scanUser tab r).ConcurrencyStamp = E.uuid w.uuids := by
      show opts r.ConcurrencyStamp = _
      rw [hy0st]; rfl
    have hcnm : (scanUser tab r).NormalizedUserName = a.NormalizedUserName := by
      show opts r.NormalizedUserName = _
      rw [hy0nm]; rfl
    have hrow3 : ∃ y ∈ W3.rows,
        hit (scanUser tab r).ID (scanUser tab r).ConcurrencyStamp y = true := by
      refine ⟨r, by rw [hr3]; exact hy0, ?_⟩
      rw [hit_iff, hcId, hcst]
      exact ⟨hy0Id, hy0st⟩
    have hadm3 := accepts_of_unique W3.rows
      (updateVals (scanUser tab r) (E.uuid W3.uuids)) (scanUser tab r).ID
      (scanUser tab r).ConcurrencyStamp (by rw [hr3]; exact hnd1)
      (by
        intro y hy hyn
        rw [hr3] at hy
        have hyn1 : y.NormalizedUserName = some a.NormalizedUserName := by
          rw [hyn]; show some (scanUser tab r).NormalizedUserName = _; rw [hcnm]
        have e := eq_of_length_le_one _ y r hadm
          (List.mem_filter.mpr ⟨hy, by simpa using hyn1⟩)
          (List.mem_filter.mpr ⟨hy0, by simpa using hy0nm⟩)
        rw [e, hcId]; exact hy0Id)
    rw [Update_hit E tab (scanUser tab r) W3 hh3 hrow3 hadm3]

/-- A concrete C3: alice's record is updated, a second copy with the old stamp is refused. -/
theorem stale_stamp_conflict_then_refetch_witness :
    (Update demoEnv demoTab aliceUser
      (Update demoEnv demoTab { aliceUser with AccessFailedCount := 1 }
        (World.ofRows [aliceRow, bobRow])).2.2).1 = some .ErrConcurrency :=
  (stale_stamp_conflict_then_refetch demoEnv demoTab { aliceUser with AccessFailedCount := 1 }
    aliceUser (World.ofRows [aliceRow, bobRow]) (by decide) (by decide) rfl rfl (by decide)
    (by decide)).1

/-! ### Authenticate -/

theorem demoEnv_contract : HashContract demoEnv where
  decode_encode := by
    intro p s h hg
    simp only [demoEnv, Except.ok.injEq] at hg
    subst hg
    simp [demoEnv]
  compare_iff := by
    intro p s h q hg
    simp only [demoEnv, Except.ok.injEq] at hg
    subst hg
    simp only [demoEnv, decide_eq_true_eq]
    constructor
    · intro h
      have := congrArg String.data h
      simp only [String.data_append, List.append_cancel_left_eq] at this
      exact (String.ext this).symm
    · intro h; rw [h]

/-- `Authenticate` for a name that the lookup finds, with a stored hash that decodes. -/
theorem Authenticate_found (E : Env) (emptyHash : String) (tab : Users) (name password : String)
    (w : World) (hw : w.healthy 1) (r : Row) (pwd : String)
    (hfind : w.rows.find? (fun x => decide (x.NormalizedUserName = some (E.ToUpper name))) = some r)
    (hdec : E.DecodeString (opts r.PasswordHash) = .ok pwd) :
    Authenticate E emptyHash tab name password w =
      if E.CompareHashAndPassword pwd password = true then
        ((some (accessFailed E tab (scanUser tab r) false
            (w.step (.queryName (E.ToUpper name))).2).2.1, none),
          (accessFailed E tab (scanUser tab r) false (w.step (.queryName (E.ToUpper name))).2).2.2)
      else
        ((none, some .ErrInvalidCredentials),
          (accessFailed E tab (scanUser tab r) true (w.step (.queryName (E.ToUpper name))).2).2.2) := by
  have hdec1 : E.DecodeString (scanUser tab r).PasswordHash = .ok pwd := hdec
  unfold Authenticate
  rw [FindByName_spec E tab name w hw, hfind]
  simp only [ne_eq, not_true_eq_false, false_and, if_false, hdec1]
  cases hc : E.CompareHashAndPassword pwd password <;> simp

/-- `Authenticate` for a name that the lookup does not find. -/
theorem Authenticate_missing (E : Env) (emptyHash : String) (tab : Users) (name password : String)
    (w : World) (hw : w.healthy 1) (pwd : String)
    (hfind : w.rows.find? (fun x => decide (x.NormalizedUserName = some (E.ToUpper name))) = none)
    (hdec : E.DecodeString emptyHash = .ok pwd) :
    Authenticate E emptyHash tab name password w =
      if E.CompareHashAndPassword pwd password = true then
        ((some (accessFailed E tab { User.zero with PasswordHash := emptyHash } false
            (w.step (.queryName (E.ToUpper name))).2).2.1, none),
          (accessFailed E tab { User.zero with PasswordHash := emptyHash } false
            (w.step (.queryName (E.ToUpper name))).2).2.2)
      else
        ((none, some .ErrInvalidCredentials),
          (accessFailed E tab { User.zero with PasswordHash := emptyHash } true
            (w.step (.queryName (E.ToUpper name))).2).2.2) := by
  unfold Authenticate
  rw [FindByName_spec E tab name w hw, hfind]
  simp only [ne_eq, not_true_eq_false, and_false, if_false, hdec]
  cases hc : E.CompareHashAndPassword pwd password <;> simp

/-- The update of a record that still agrees with its row `r` in `Id`, stamp and
normalised name: it succeeds, and a lookup by name then finds the rewritten row. -/
theorem Update_of_row (E : Env) (tab : Users) (u : User) (r : Row) (key : String) (W : World)
    (hW : W.healthy 1) (hr : r ∈ W.rows)
    (hnd : (W.rows.map Row.Id).Nodup)
    (hst : r.ConcurrencyStamp ≠ none)
    (huniq : ∀ x ∈ W.rows, x.NormalizedUserName = some key → x = r)
    (huID : u.ID = r.Id) (hust : u.ConcurrencyStamp = opts r.ConcurrencyStamp)
    (hunm : u.NormalizedUserName = key) :
    Update E tab u W = (none, { u with ConcurrencyStamp := E.uuid W.uuids },
      (afterUpdate E u W).setRows
          (updated W.rows (updateVals u (E.uuid W.uuids)) u.ID u.ConcurrencyStamp)) ∧
    (updated W.rows (updateVals u (E.uuid W.uuids)) u.ID u.ConcurrencyStamp).find?
      (fun x => decide (x.NormalizedUserName = some key)) =
      some { updateVals u (E.uuid W.uuids) with Id := r.Id } := by
  have hrst : r.ConcurrencyStamp = some u.ConcurrencyStamp := by
    rw [hust]
    cases h : r.ConcurrencyStamp with
    | none => exact absurd h hst
    | some s => rfl
  have hhit : hit u.ID u.ConcurrencyStamp r = true := (hit_iff _ _ _).mpr ⟨huID.symm, hrst⟩
  have hadm := accepts_of_unique W.rows (updateVals u (E.uuid W.uuids)) u.ID u.ConcurrencyStamp hnd
    (by
      intro y hy hyn
      have : y.NormalizedUserName = some key := by rw [hyn, ← hunm]; rfl
      rw [huniq y hy this, huID])
  refine ⟨Update_hit E tab u W hW ⟨r, hr, hhit⟩ hadm, ?_⟩
  have himg : ({ updateVals u (E.uuid W.uuids) with Id := r.Id } : Row) ∈
      updated W.rows (updateVals u (E.uuid W.uuids)) u.ID u.ConcurrencyStamp := by
    unfold updated
    exact List.mem_map.mpr ⟨r, hr, by rw [if_pos hhit]⟩
  cases hfind : (updated W.rows (updateVals u (E.uuid W.uuids)) u.ID u.ConcurrencyStamp).find?
      (fun x => decide (x.NormalizedUserName = some key)) with
  | none =>
    exfalso
    rw [List.find?_eq_none] at hfind
    apply hfind _ himg
    simp only [decide_eq_true_eq]
    show some u.NormalizedUserName = some key
    rw [hunm]
  | some y =>
    have hymem := List.mem_of_find?_eq_some hfind
    have hyn : y.NormalizedUserName = some key := by simpa using List.find?_some hfind
    obtain ⟨x, hx, hyx⟩ := mem_updated _ _ _ _ y hymem
    by_cases hh : hit u.ID u.ConcurrencyStamp x = true
    · rw [if_pos hh] at hyx
      have hxr : x = r :=
        List.inj_on_of_nodup_map hnd hx hr ((hit_Id u.ID u.ConcurrencyStamp x hh).trans huID)
      rw [hyx, hxr]
    · rw [if_neg hh] at hyx
      subst hyx
      exact absurd (huniq y hx hyn ▸ hhit) hh

theorem wrapInt_succ (c : Int) (h1 : -2 ^ 63 ≤ c) (h2 : c < 2 ^ 63 - 1) :
    wrapInt (c + 1) = c + 1 := by
  unfold wrapInt
  omega

/-- The record read back from the row that `Update` writes for `u`, when the adapter
decodes the booleans of the engine. -/
theorem scanUser_updateVals (tab : Users) (u : User) (s id : String)
    (hbool : ∀ b, tab.style.BoolVal (tab.db.boolValue b) = b) :
    scanUser tab { updateVals u s with Id := id } = { u with ID := id, ConcurrencyStamp := s } := by
  simp [scanUser, updateVals, opts, hbool]

/-- Decoding twice changes nothing more: the booleans of a decoded record are stable. -/
theorem scanUser_bools (tab : Users) (r : Row)
    (hbool : ∀ b, tab.style.BoolVal (tab.db.boolValue b) = b) :
    scanUser tab r =
      { ID := r.Id, UserName := opts r.UserName, NormalizedUserName := opts r.NormalizedUserName,
        Email := opts r.Email, NormalizedEmail := opts r.NormalizedEmail,
        EmailConfirmed := r.EmailConfirmed, PasswordHash := opts r.PasswordHash,
        SecurityStamp := opts r.SecurityStamp, ConcurrencyStamp := opts r.ConcurrencyStamp,
        PhoneNumber := opts r.PhoneNumber, PhoneNumberConfirmed := r.PhoneNumberConfirmed,
        TwoFactorEnabled := r.TwoFactorEnabled, LockoutEnd := r.LockoutEnd,
        LockoutEnabled := r.LockoutEnabled, AccessFailedCount := r.AccessFailedCount } := by
  simp [scanUser, hbool]

/-- `Authenticate` for a stored user whose hash decodes: the verdict follows the
comparison, the counter is written, and the next lookup by name shows it. -/
theorem Authenticate_stored (E : Env) (emptyHash : String) (tab : Users) (name password : String)
    (w : World) (r : Row) (pwd : String)
    (hw : w.healthy 3)
    (hbool : ∀ b, tab.style.BoolVal (tab.db.boolValue b) = b)
    (hnd : (w.rows.map Row.Id).Nodup)
    (hr : r ∈ w.rows)
    (hkey : r.NormalizedUserName = some (E.ToUpper name))
    (huniq : ∀ x ∈ w.rows, x.NormalizedUserName = some (E.ToUpper name) → x = r)
    (hst : r.ConcurrencyStamp ≠ none)
    (hdec : E.DecodeString (opts r.PasswordHash) = .ok pwd) :
    (Authenticate E emptyHash tab name password w).1 =
      (if E.CompareHashAndPassword pwd password = true then
        (some { scanUser tab r with AccessFailedCount := 0, ConcurrencyStamp := E.uuid w.uuids },
          none)
       else (none, some .ErrInvalidCredentials)) ∧
    (FindByName E tab name (Authenticate E emptyHash tab name password w).2).1 =
      (some { scanUser tab r with
        AccessFailedCount :=
          if E.CompareHashAndPassword pwd password = true then 0
          else wrapInt (r.AccessFailedCount + 1)
        ConcurrencyStamp := E.uuid w.uuids }, none) := by
  have hfind : w.rows.find? (fun x => decide (x.NormalizedUserName = some (E.ToUpper name)))
      = some r := by
    cases hf : w.rows.find? (fun x => decide (x.NormalizedUserName = some (E.ToUpper name))) with
    | none =>
      rw [List.find?_eq_none] at hf
      exact absurd (by simpa using hkey) (hf r hr)
    | some y =>
      have := huniq y (List.mem_of_find?_eq_some hf) (by simpa using List.find?_some hf)
      rw [this]
  rw [Authenticate_found E emptyHash tab name password w (healthy_mono w 1 3 (by omega) hw) r pwd
    hfind hdec]
  have hh1 : (w.step (.queryName (E.ToUpper name))).2.healthy 2 := (step_healthy w _ 2 hw).2
  have hr1 : (w.step (.queryName (E.ToUpper name))).2.rows = w.rows := step_rows _ _
  have hu1 : (w.step (.queryName (E.ToUpper name))).2.uuids = w.uuids := step_uuids _ _
  generalize (w.step (.queryName (E.ToUpper name))).2 = W1 at hh1 hr1 hu1
  have key : ∀ bad : Bool,
      (accessFailed E tab (scanUser tab r) bad W1).2.1 =
        { scanUser tab r with
          AccessFailedCount := if bad = true then wrapInt (r.AccessFailedCount + 1) else 0
          ConcurrencyStamp := E.uuid w.uuids } ∧
      (FindByName E tab name (accessFailed E tab (scanUser tab r) bad W1).2.2).1 =
        (some { scanUser tab r with
          AccessFailedCount := if bad = true then wrapInt (r.AccessFailedCount + 1) else 0
          ConcurrencyStamp := E.uuid w.uuids }, none) := by
    intro bad
    unfold accessFailed
    simp only
    generalize hu : (if bad = true then
        { scanUser tab r with AccessFailedCount := wrapInt ((scanUser tab r).AccessFailedCount + 1) }
      else { scanUser tab r with AccessFailedCount := 0 } : User) = u
    have huID : u.ID = r.Id := by rw [← hu]; split_ifs <;> rfl
    have hust : u.ConcurrencyStamp = opts r.ConcurrencyStamp := by rw [← hu]; split_ifs <;> rfl
    have hunm : u.NormalizedUserName = E.ToUpper name := by
      have : u.NormalizedUserName = opts r.NormalizedUserName := by rw [← hu]; split_ifs <;> rfl
      rw [this, hkey]; rfl
    obtain ⟨hU, hF⟩ := Update_of_row E tab u r (E.ToUpper name) W1
      (healthy_mono W1 1 2 (by omega) hh1) (by rw [hr1]; exact hr) (by rw [hr1]; exact hnd) hst
      (by rw [hr1]; exact huniq) huID hust hunm
    rw [hU]
    simp only
    generalize hW2 : (afterUpdate E u W1).setRows
      (updated W1.rows (updateVals u (E.uuid W1.uuids)) u.ID u.ConcurrencyStamp) = W2
    have hrows2 : W2.rows =
        updated W1.rows (updateVals u (E.uuid W1.uuids)) u.ID u.ConcurrencyStamp := by
      rw [← hW2]
    have hh2 : W2.healthy 1 := by
      rw [← hW2]; exact afterUpdate_healthy E u W1 1 hh1
    rw [FindByName_spec E tab name W2 hh2, hrows2, hF]
    simp only [scanUser_updateVals tab u _ _ hbool, hu1]
    rw [← hu]
    cases bad <;> simp [scanUser]
  by_cases hc : E.CompareHashAndPassword pwd password = true
  · simp only [hc, if_true]
    have := key false
    simp only [Bool.false_eq_true, if_false] at this
    exact ⟨by rw [this.1], this.2⟩
  · have hc1 : E.CompareHashAndPassword pwd password = false := by simpa using hc
    simp only [hc1, Bool.false_eq_true, if_false]
    have := key true
    simp only [if_true] at this
    exact ⟨trivial, this.2⟩

theorem find_of_unique (rows : List Row) (r : Row) (key : String) (hr : r ∈ rows)
    (hkey : r.NormalizedUserName = some key)
    (huniq : ∀ x ∈ rows, x.NormalizedUserName = some key → x = r) :
    rows.find? (fun x => decide (x.NormalizedUserName = some key)) = some r := by
  cases hf : rows.find? (fun x => decide (x.NormalizedUserName = some key)) with
  | none =>
    rw [List.find?_eq_none] at hf
    exact absurd (by simpa using hkey) (hf r hr)
  | some y =>
    have := huniq y (List.mem_of_find?_eq_some hf) (by simpa using List.find?_some hf)
    rw [this]

theorem find_of_absent (rows : List Row) (key : String)
    (hno : ∀ r ∈ rows, r.NormalizedUserName ≠ some key) :
    rows.find? (fun x => decide (x.NormalizedUserName = some key)) = none := by
  rw [List.find?_eq_none]
  intro r hr
  simpa using hno r hr

theorem emptyHash_decodes (E : Env) (emptyHash : String) (salt : Nat) (hc : HashContract E)
    (heh : mustHashPassword E "" salt = some emptyHash) :
    ∃ h, E.DecodeString emptyHash = .ok h ∧ ∀ q, (E.CompareHashAndPassword h q = true ↔ q = "") := by
  unfold mustHashPassword at heh
  cases hg : E.GenerateFromPassword "" salt with
  | error msg => rw [hg] at heh; simp at heh
  | ok h =>
    rw [hg] at heh
    simp only [Option.some.injEq] at heh
    exact ⟨h, by rw [← heh]; exact hc.decode_encode _ _ _ hg, fun q => hc.compare_iff _ _ _ q hg⟩

/-- For a name that is not registered and a password that is not the empty string,
`Authenticate` returns no user and exactly `ErrInvalidCredentials`. -/
theorem Authenticate_unknown_name_nonempty (E : Env) (emptyHash : String) (tab : Users)
    (name password : String) (w : World) (salt : Nat)
    (hc : HashContract E) (heh : mustHashPassword E "" salt = some emptyHash)
    (hw : w.healthy 1)
    (hno : ∀ r ∈ w.rows, r.NormalizedUserName ≠ some (E.ToUpper name))
    (hpw : password ≠ "") :
    (Authenticate E emptyHash tab name password w).1 = (none, some .ErrInvalidCredentials) := by
  obtain ⟨h, hdec, hcmp⟩ := emptyHash_decodes E emptyHash salt hc heh
  rw [Authenticate_missing E emptyHash tab name password w hw h (find_of_absent _ _ hno) hdec]
  have : ¬ E.CompareHashAndPassword h password = true := fun hh => hpw ((hcmp password).mp hh)
  rw [if_neg this]

/-- For a name that is not registered and the empty password, `Authenticate` returns a
user and no error, whatever password library meets the contract. -/
theorem Authenticate_unknown_name_empty (E : Env) (emptyHash : String) (tab : Users)
    (name : String) (w : World) (salt : Nat)
    (hc : HashContract E) (heh : mustHashPassword E "" salt = some emptyHash)
    (hw : w.healthy 1)
    (hno : ∀ r ∈ w.rows, r.NormalizedUserName ≠ some (E.ToUpper name)) :
    ∃ u, (Authenticate E emptyHash tab name "" w).1 = (some u, none) := by
  obtain ⟨h, hdec, hcmp⟩ := emptyHash_decodes E emptyHash salt hc heh
  rw [Authenticate_missing E emptyHash tab name "" w hw h (find_of_absent _ _ hno) hdec]
  rw [if_pos ((hcmp "").mpr rfl)]
  exact ⟨_, rfl⟩

/-- C4 at the failing input: the password library meets its contract, the placeholder
hash is the hash of the empty password, no row is named `nobody`, the password is empty,
and `Authenticate` returns the placeholder record with no error instead of no user and
`ErrInvalidCredentials`. -/
theorem Authenticate_unknown_name_empty_password :
    HashContract demoEnv ∧
    mustHashPassword demoEnv "" 0 = some "#" ∧
    (∀ r ∈ (World.ofRows [aliceRow, bobRow]).rows,
      r.NormalizedUserName ≠ some (demoEnv.ToUpper "nobody")) ∧
    (Authenticate demoEnv "#" demoTab "nobody" "" (World.ofRows [aliceRow, bobRow])).1 =
      (some { User.zero with PasswordHash := "#" }, none) :=
  ⟨demoEnv_contract, by decide, by decide, by decide⟩

/-- A wrong password for a stored user whose stamp is not NULL.  The row `r` is the only
one with the normalised name, carries a `ConcurrencyStamp` that is not NULL and a counter
below the largest Go `int`; its hash decodes and does not verify the password; the
adapter decodes the engine's booleans and the store executes the three statements.  Then
`Authenticate` returns no user and `ErrInvalidCredentials`, and `FindByName` afterwards
returns the record it returned before, with `AccessFailedCount` one higher and the
`ConcurrencyStamp` drawn by the call. -/
theorem Authenticate_wrong_password_counts (E : Env) (emptyHash : String) (tab : Users)
    (name password : String) (w : World) (r : Row) (pwd : String)
    (hw : w.healthy 3)
    (hbool : ∀ b, tab.style.BoolVal (tab.db.boolValue b) = b)
    (hnd : (w.rows.map Row.Id).Nodup)
    (hr : r ∈ w.rows)
    (hkey : r.NormalizedUserName = some (E.ToUpper name))
    (huniq : ∀ x ∈ w.rows, x.NormalizedUserName = some (E.ToUpper name) → x = r)
    (hst : r.ConcurrencyStamp ≠ none)
    (hlo : -2 ^ 63 ≤ r.AccessFailedCount) (hhi : r.AccessFailedCount < 2 ^ 63 - 1)
    (hdec : E.DecodeString (opts r.PasswordHash) = .ok pwd)
    (hbad : E.CompareHashAndPassword pwd password = false) :
    (FindByName E tab name w).1 = (some (scanUser tab r), none) ∧
    (Authenticate E emptyHash tab name password w).1 = (none, some .ErrInvalidCredentials) ∧
    (FindByName E tab name (Authenticate E emptyHash tab name password w).2).1 =
      (some { scanUser tab r with
        AccessFailedCount := r.AccessFailedCount + 1
        ConcurrencyStamp := E.uuid w.uuids }, none) := by
  have h := Authenticate_stored E emptyHash tab name password w r pwd hw hbool hnd hr hkey huniq
    hst hdec
  simp only [hbad, Bool.false_eq_true, if_false, wrapInt_succ _ hlo hhi] at h
  refine ⟨?_, h.1, h.2⟩
  rw [FindByName_spec E tab name w (healthy_mono w 1 3 (by omega) hw),
    find_of_unique w.rows r _ hr hkey huniq]

/-- A wrong password for alice, whose stamp is not NULL, is counted. -/
theorem Authenticate_wrong_password_counts_witness :
    (FindByName demoEnv demoTab "alice"
      (Authenticate demoEnv "#" demoTab "alice" "guess" (World.ofRows [aliceRow, bobRow])).2).1 =
      (some { aliceUser with AccessFailedCount := 1, ConcurrencyStamp := "u" }, none) :=
  (Authenticate_wrong_password_counts demoEnv "#" demoTab "alice" "guess"
    (World.ofRows [aliceRow, bobRow]) aliceRow "#pw" (by decide) (by decide) (by decide)
    (by decide) (by decide) (by decide) (by decide) (by decide) (by decide) rfl
    (by decide)).2.2

/-- C5 at the failing input: alice's row is stored with a NULL `ConcurrencyStamp`, which
is read as the stamp `""` and then matches no row.  A wrong password is refused with
`ErrInvalidCredentials`, but the counter that `FindByName` shows afterwards is the one
it showed before the call, not one more. -/
theorem Authenticate_null_stamp_not_counted :
    (FindByName demoEnv demoTab "alice"
      (World.ofRows [{ aliceRow with ConcurrencyStamp := none }])).1 =
      (some { aliceUser with ConcurrencyStamp := "" }, none) ∧
    (Authenticate demoEnv "#" demoTab "alice" "guess"
      (World.ofRows [{ aliceRow with ConcurrencyStamp := none }])).1 =
      (none, some .ErrInvalidCredentials) ∧
    (FindByName demoEnv demoTab "alice"
      (Authenticate demoEnv "#" demoTab "alice" "guess"
        (World.ofRows [{ aliceRow with ConcurrencyStamp := none }])).2).1 =
      (some { aliceUser with ConcurrencyStamp := "" }, none) := by
  decide

/-! ### NewUser -/

theorem healthy_of_faults (w W : World) (n k : Nat) (hf : W.faults = w.faults.drop k)
    (hw : w.healthy (n + k)) : W.healthy n := by
  intro f hfm
  rw [hf] at hfm
  apply hw f
  have h1 : (w.faults.drop k).take n = (w.faults.take (n + k)).drop k := by
    rw [List.drop_take]; simp
  rw [h1] at hfm
  exact List.mem_of_mem_drop hfm

/-- What the `INSERT` does when the store executes it. -/
theorem execInsert_spec (tab : Users) (W : World) (r : Row) (hW : W.healthy 1) :
    execInsert tab W r =
      if keyTaken W.rows r = true then (some (.Driver tab.db.duplicate), (W.step (.insert r)).2)
      else (none, (W.step (.insert r)).2.setRows (W.rows ++ [r])) := by
  have hs := step_healthy W (.insert r) 0 hW
  have hr := step_rows W (.insert r)
  unfold execInsert keyTaken
  generalize World.step _ _ = st at hs hr
  obtain ⟨f, w1⟩ := st
  simp only at hs hr
  obtain ⟨hf, -⟩ := hs
  subst hf
  simp only [hr]

/-- What `NewUser` does with a password that is not blank and that the library hashes,
when the store executes its two statements. -/
theorem NewUser_run (E : Env) (tab : Users) (name email password : String) (w : World)
    (pwd : String) (hw : w.healthy 2)
    (hpw : emptyPassword password = false)
    (hgen : E.GenerateFromPassword password w.salts = .ok pwd) :
    (NewUser E tab name email password w).1 =
      (if keyTaken w.rows (insertVals (newRecord E name email pwd (E.uuid w.uuids)
          (E.uuid (w.uuids + 1)) (E.uuid (w.uuids + 2)))) = true then
        (none, some (if tab.style.IsDuplicate (.Driver tab.db.duplicate) = true then .ErrExists
          else .Errorf "adding new user: " (.Driver tab.db.duplicate)))
       else (some (newRecord E name email pwd (E.uuid w.uuids)
          (E.uuid (w.uuids + 1)) (E.uuid (w.uuids + 2))), none)) ∧
    (NewUser E tab name email password w).2.rows =
      (if keyTaken w.rows (insertVals (newRecord E name email pwd (E.uuid w.uuids)
          (E.uuid (w.uuids + 1)) (E.uuid (w.uuids + 2)))) = true then w.rows
       else w.rows ++ [insertVals (newRecord E name email pwd (E.uuid w.uuids)
          (E.uuid (w.uuids + 1)) (E.uuid (w.uuids + 2)))]) ∧
    (NewUser E tab name email password w).2.faults = w.faults.drop 2 ∧
    (NewUser E tab name email password w).2.uuids = w.uuids + 3 ∧
    (NewUser E tab name email password w).2.salts = w.salts + 1 := by
  have hs := step_healthy w (.queryName (E.ToUpper name)) 1 hw
  have hr1 := step_rows w (.queryName (E.ToUpper name))
  have hu1 := step_uuids w (.queryName (E.ToUpper name))
  have hs1 := step_salts w (.queryName (E.ToUpper name))
  have hf1 := step_faults w (.queryName (E.ToUpper name))
  unfold NewUser
  rw [FindByName_spec E tab name w (healthy_mono w 1 2 (by omega) hw)]
  generalize (w.step (.queryName (E.ToUpper name))).2 = W1 at hs hr1 hu1 hs1 hf1
  have h5 : ∀ a b : Nat, ({ W1 with uuids := a, salts := b } : World).healthy 1 :=
    fun _ _ => hs.2
  generalize hr : newRecord E name email pwd (E.uuid w.uuids) (E.uuid (w.uuids + 1))
    (E.uuid (w.uuids + 2)) = u
  have key : ∀ res : (Option User × Option Error) × World,
      (res.1.2 = none ∨ res.1.2 = some .ErrNotFound) → res.2 = W1 →
      ∀ out : (Option User × Option Error) × World,
      out = (match res with
        | ((_, err), w1) =>
          if err ≠ none ∧ err ≠ some .ErrNotFound then ((none, err), w1)
          else if emptyPassword password = true then ((none, some Error.ErrNoPassword), w1)
          else
            let w2 : World := { w1 with salts := w1.salts + 1 }
            match E.GenerateFromPassword password w1.salts with
            | .error msg => ((none, some (.Errorf "hashing password: " (.Hash msg))), w2)
            | .ok pwd =>
              let (id, w3) := newStamp E w2
              let (sec, w4) := newStamp E w3
              let (conc, w5) := newStamp E w4
              let u : User := newRecord E name email pwd id sec conc
              match execInsert tab w5 (insertVals u) with
              | (some err, w6) =>
                if tab.style.IsDuplicate err = true then ((none, some .ErrExists), w6)
                else ((none, some (.Errorf "adding new user: " err)), w6)
              | (none, w6) => ((some u, none), w6)) →
      out.1 = (if keyTaken w.rows (insertVals u) = true then
          (none, some (if tab.style.IsDuplicate (.Driver tab.db.duplicate) = true then .ErrExists
            else .Errorf "adding new user: " (.Driver tab.db.duplicate)))
        else (some u, none)) ∧
      out.2.rows = (if keyTaken w.rows (insertVals u) = true then w.rows
        else w.rows ++ [insertVals u]) ∧
      out.2.faults = w.faults.drop 2 ∧ out.2.uuids = w.uuids + 3 ∧ out.2.salts = w.salts + 1 := by
    rintro ⟨⟨found, err⟩, w1⟩ herr hw1 out hout
    simp only at herr hw1
    subst hw1
    have hne : ¬ (err ≠ none ∧ err ≠ some .ErrNotFound) := by
      rcases herr with h | h <;> simp [h]
    simp only [hne, if_false, hpw, Bool.false_eq_true, hs1, hgen, newStamp, hu1,
      Nat.add_assoc, Nat.reduceAdd, hr] at hout
    rw [execInsert_spec tab _ _ (h5 _ _)] at hout
    simp only [hr1] at hout
    have hdrop : w.faults.tail.tail = w.faults.drop 2 := by
      cases w.faults with
      | nil => rfl
      | cons a t => cases t <;> rfl
    by_cases hk : keyTaken w.rows (insertVals u) = true
    · simp only [hk, if_true] at hout ⊢
      subst hout
      refine ⟨?_, ?_, ?_, ?_, ?_⟩
      · split_ifs <;> rfl
      · split_ifs <;> simp [step_rows, hr1]
      · split_ifs <;> simp [step_faults, hf1, hdrop]
      · split_ifs <;> simp [step_uuids]
      · split_ifs <;> simp [step_salts]
    · simp only [hk, if_false] at hout ⊢
      subst hout
      refine ⟨rfl, rfl, ?_, ?_, ?_⟩
      · simp [step_faults, hf1, hdrop]
      · simp [step_uuids]
      · simp [step_salts]
  exact key _ (by cases w.rows.find? _ <;> simp) (by cases w.rows.find? _ <;> rfl) _ rfl

/-- Whatever the store does, `Update` changes at most the `ConcurrencyStamp` of the record. -/
theorem Update_record (E : Env) (tab : Users) (u : User) (w : World) :
    (Update E tab u w).2.1 = u ∨
    (Update E tab u w).2.1 = { u with ConcurrencyStamp := E.uuid w.uuids } := by
  unfold Update
  simp only [newStamp]
  generalize execUpdate tab _ _ _ _ = res
  obtain ⟨r, w2⟩ := res
  cases r with
  | error e => left; rfl
  | ok nr =>
    by_cases h : nr = 0
    · left; simp [h]
    · right; simp [h]

theorem NewUser_blank (E : Env) (tab : Users) (name email password : String) (w : World)
    (hw : w.healthy 1) (hpw : emptyPassword password = true) :
    (NewUser E tab name email password w).1 = (none, some .ErrNoPassword) := by
  unfold NewUser
  rw [FindByName_spec E tab name w hw]
  cases w.rows.find? (fun x => decide (x.NormalizedUserName = some (E.ToUpper name))) <;>
    simp [hpw]

theorem NewUser_hash_error (E : Env) (tab : Users) (name email password : String) (w : World)
    (msg : String) (hw : w.healthy 1) (hpw : emptyPassword password = false)
    (hgen : E.GenerateFromPassword password w.salts = .error msg) :
    (NewUser E tab name email password w).1 =
      (none, some (.Errorf "hashing password: " (.Hash msg))) := by
  have hs1 := step_salts w (.queryName (E.ToUpper name))
  unfold NewUser
  rw [FindByName_spec E tab name w hw]
  cases w.rows.find? (fun x => decide (x.NormalizedUserName = some (E.ToUpper name))) <;>
    simp [hpw, hs1, hgen]

/-- A successful `NewUser`: the password is not blank, the library hashed it, no key of
the new row was taken, and the row is appended to the table. -/
theorem NewUser_ok_inv (E : Env) (tab : Users) (name email password : String) (w : World)
    (hw : w.healthy 2) (hok : (NewUser E tab name email password w).1.2 = none) :
    emptyPassword password = false ∧
    ∃ pwd, E.GenerateFromPassword password w.salts = .ok pwd ∧
      keyTaken w.rows (insertVals (newRecord E name email pwd (E.uuid w.uuids)
        (E.uuid (w.uuids + 1)) (E.uuid (w.uuids + 2)))) = false ∧
      (NewUser E tab name email password w).1 =
        (some (newRecord E name email pwd (E.uuid w.uuids)
          (E.uuid (w.uuids + 1)) (E.uuid (w.uuids + 2))), none) ∧
      (NewUser E tab name email password w).2.rows =
        w.rows ++ [insertVals (newRecord E name email pwd (E.uuid w.uuids)
          (E.uuid (w.uuids + 1)) (E.uuid (w.uuids + 2)))] ∧
      (NewUser E tab name email password w).2.faults = w.faults.drop 2 ∧
      (NewUser E tab name email password w).2.uuids = w.uuids + 3 := by
  have hw1 := healthy_mono w 1 2 (by omega) hw
  cases hpw : emptyPassword password with
  | true => rw [NewUser_blank E tab name email password w hw1 hpw] at hok; simp at hok
  | false =>
    refine ⟨rfl, ?_⟩
    cases hgen : E.GenerateFromPassword password w.salts with
    | error msg =>
      rw [NewUser_hash_error E tab name email password w msg hw1 hpw hgen] at hok
      simp at hok
    | ok pwd =>
      obtain ⟨h1, h2, h3, h4, -⟩ := NewUser_run E tab name email password w pwd hw hpw hgen
      cases hk : keyTaken w.rows (insertVals (newRecord E name email pwd (E.uuid w.uuids)
          (E.uuid (w.uuids + 1)) (E.uuid (w.uuids + 2)))) with
      | true =>
        rw [h1, hk] at hok
        simp at hok
      | false =>
        rw [hk] at h1 h2
        exact ⟨pwd, rfl, hk, by simpa using h1, by simpa using h2, h3, h4⟩

theorem not_keyTaken (rows : List Row) (r : Row) (h : keyTaken rows r = false)
    (hsome : r.NormalizedUserName.isSome = true) :
    ∀ x ∈ rows, x.Id ≠ r.Id ∧ x.NormalizedUserName ≠ r.NormalizedUserName := by
  intro x hx
  unfold keyTaken at h
  rw [List.any_eq_false] at h
  have := h x hx
  simp only [hsome, Bool.true_and, Bool.or_eq_true, decide_eq_true_eq, not_or] at this
  exact this

theorem find_append_new (rows : List Row) (r : Row) (key : String)
    (hkey : r.NormalizedUserName = some key)
    (hno : ∀ x ∈ rows, x.NormalizedUserName ≠ some key) :
    (rows ++ [r]).find? (fun x => decide (x.NormalizedUserName = some key)) = some r := by
  rw [List.find?_append, find_of_absent rows key hno]
  simp [hkey]

/-- After a successful `NewUser`, `Authenticate` with the same name and password returns
the new user, with the stored hash and a counter of zero. -/
theorem Authenticate_after_NewUser (E : Env) (emptyHash : String) (tab : Users)
    (name email password : String) (w : World)
    (hc : HashContract E) (hw : w.healthy 3)
    (hok : (NewUser E tab name email password w).1.2 = none) :
    ∃ stored u, (NewUser E tab name email password w).1.1 = some stored ∧
      insertVals stored ∈ (NewUser E tab name email password w).2.rows ∧
      (Authenticate E emptyHash tab name password (NewUser E tab name email password w).2).1 =
        (some u, none) ∧
      u.UserName = name ∧ u.PasswordHash = stored.PasswordHash ∧ u.AccessFailedCount = 0 := by
  obtain ⟨-, pwd, hgen, hk, hres, hrows, hfaults, -⟩ :=
    NewUser_ok_inv E tab name email password w (healthy_mono w 2 3 (by omega) hw) hok
  generalize hu : newRecord E name email pwd (E.uuid w.uuids) (E.uuid (w.uuids + 1))
    (E.uuid (w.uuids + 2)) = stored at hk hres hrows
  have hnm : (insertVals stored).NormalizedUserName = some (E.ToUpper name) := by
    rw [← hu]; rfl
  have hph : (insertVals stored).PasswordHash = some (E.EncodeToString pwd) := by
    rw [← hu]; rfl
  have hun : (insertVals stored).UserName = some name := by
    rw [← hu]; rfl
  have hh : (NewUser E tab name email password w).2.healthy 1 :=
    healthy_of_faults w _ 1 2 hfaults hw
  generalize (NewUser E tab name email password w).2 = W at hrows hh
  generalize (NewUser E tab name email password w).1 = res at hres
  have hfind : W.rows.find? (fun x => decide (x.NormalizedUserName = some (E.ToUpper name)))
      = some (insertVals stored) := by
    rw [hrows]
    apply find_append_new _ _ _ hnm
    intro x hx
    have := (not_keyTaken w.rows (insertVals stored) hk (by rw [hnm]; rfl) x hx).2
    rwa [hnm] at this
  have hdec : E.DecodeString (opts (insertVals stored).PasswordHash) = .ok pwd := by
    rw [hph]; exact hc.decode_encode _ _ _ hgen
  have hcmp : E.CompareHashAndPassword pwd password = true :=
    (hc.compare_iff _ _ _ password hgen).mpr rfl
  refine ⟨stored, (accessFailed E tab (scanUser tab (insertVals stored)) false
    (W.step (.queryName (E.ToUpper name))).2).2.1, by rw [hres], by rw [hrows]; simp, ?_, ?_⟩
  · rw [Authenticate_found E emptyHash tab name password W hh (insertVals stored) pwd hfind hdec,
      if_pos hcmp]
  · unfold accessFailed
    simp only [Bool.false_eq_true, if_false]
    have hsp : stored.PasswordHash = E.EncodeToString pwd := by rw [← hu]; rfl
    rcases Update_record E tab
      { scanUser tab (insertVals stored) with AccessFailedCount := 0 }
      (W.step (.queryName (E.ToUpper name))).2 with h | h <;>
    · rw [h]
      refine ⟨?_, ?_, rfl⟩
      · show opts (insertVals stored).UserName = name
        rw [hun]; rfl
      · show opts (insertVals stored).PasswordHash = stored.PasswordHash
        rw [hph, hsp]; rfl

/-- The right password.  First part: when `NewUser` succeeds, `Authenticate` with the
same name and password returns no error and a record with that `UserName`, the stored
`PasswordHash` and `AccessFailedCount = 0`.  Second part: for a stored row that is the
only one with the normalised name and whose `ConcurrencyStamp` is not NULL, a password
that the stored hash verifies is accepted, and `FindByName` afterwards shows
`AccessFailedCount = 0` whatever the counter was. -/
theorem Authenticate_correct_password (E : Env) (emptyHash : String) (tab : Users)
    (hc : HashContract E) :
    (∀ (name email password : String) (w : World), w.healthy 3 →
      (NewUser E tab name email password w).1.2 = none →
      ∃ stored u, (NewUser E tab name email password w).1.1 = some stored ∧
        insertVals stored ∈ (NewUser E tab name email password w).2.rows ∧
        (Authenticate E emptyHash tab name password (NewUser E tab name email password w).2).1 =
          (some u, none) ∧
        u.UserName = name ∧ u.PasswordHash = stored.PasswordHash ∧ u.AccessFailedCount = 0) ∧
    (∀ (name password : String) (w : World) (r : Row) (pwd : String), w.healthy 3 →
      (∀ b, tab.style.BoolVal (tab.db.boolValue b) = b) →
      (w.rows.map Row.Id).Nodup →
      r ∈ w.rows →
      r.NormalizedUserName = some (E.ToUpper name) →
      (∀ x ∈ w.rows, x.NormalizedUserName = some (E.ToUpper name) → x = r) →
      r.ConcurrencyStamp ≠ none →
      E.DecodeString (opts r.PasswordHash) = .ok pwd →
      E.CompareHashAndPassword pwd password = true →
      (Authenticate E emptyHash tab name password w).1 =
        (some { scanUser tab r with AccessFailedCount := 0, ConcurrencyStamp := E.uuid w.uuids },
          none) ∧
      (FindByName E tab name (Authenticate E emptyHash tab name password w).2).1 =
        (some { scanUser tab r with AccessFailedCount := 0, ConcurrencyStamp := E.uuid w.uuids },
          none)) := by
  refine ⟨fun name email password w hw hok =>
    Authenticate_after_NewUser E emptyHash tab name email password w hc hw hok, ?_⟩
  intro name password w r pwd hw hbool hnd hr hkey huniq hst hdec hcmp
  have h := Authenticate_stored E emptyHash tab name password w r pwd hw hbool hnd hr hkey huniq
    hst hdec
  simp only [hcmp, if_true] at h
  exact h

/-- Carol registers and logs in. -/
theorem Authenticate_correct_password_witness :
    ∃ u, (Authenticate demoEnv "#" demoTab "carol" "pw"
        (NewUser demoEnv demoTab "carol" "c@x" "pw" (World.ofRows [aliceRow])).2).1 =
          (some u, none) ∧ u.UserName = "carol" ∧ u.AccessFailedCount = 0 := by
  obtain ⟨_, u, _, _, h, hn, _, h0⟩ :=
    (Authenticate_correct_password demoEnv "#" demoTab demoEnv_contract).1 "carol" "c@x" "pw"
      (World.ofRows [aliceRow]) (by decide) (by decide)
  exact ⟨u, h, hn, h0⟩

/-- C6 at the failing input: alice's row is stored with a NULL `ConcurrencyStamp` and
three failures counted.  The right password is accepted and the returned record shows a
counter of zero, but the update matches no row and the next fetch still shows three. -/
theorem Authenticate_null_stamp_not_reset :
    (Authenticate demoEnv "#" demoTab "alice" "pw"
      (World.ofRows [{ aliceRow with ConcurrencyStamp := none, AccessFailedCount := 3 }])).1 =
      (some { aliceUser with ConcurrencyStamp := "", AccessFailedCount := 0 }, none) ∧
    (FindByName demoEnv demoTab "alice"
      (Authenticate demoEnv "#" demoTab "alice" "pw"
        (World.ofRows [{ aliceRow with ConcurrencyStamp := none, AccessFailedCount := 3 }])).2).1 =
      (some { aliceUser with ConcurrencyStamp := "", AccessFailedCount := 3 }, none) := by
  decide

theorem FindByName_world (E : Env) (tab : Users) (name : String) (w : World) :
    (FindByName E tab name w).2 = (w.step (.queryName (E.ToUpper name))).2 := by
  unfold FindByName queryRow
  simp only [normalise]
  generalize World.step _ _ = st
  obtain ⟨f, w1⟩ := st
  cases f with
  | some e => simp [unpackUser]
  | none =>
    simp only
    cases w1.rows.find? (fun x => decide (x.NormalizedUserName = some (E.ToUpper name))) <;>
      simp [unpackUser]

theorem FindByName_fault (E : Env) (tab : Users) (name : String) (w : World)
    (e : DriverError) (fs : List (Option DriverError)) (hf : w.faults = some e :: fs) :
    (FindByName E tab name w).1 = (none, some (.Errorf "find user: " (.Driver e))) := by
  unfold FindByName queryRow World.step
  simp [hf, unpackUser]

theorem NewUser_blank_world (E : Env) (tab : Users) (name email password : String)
    (w : World) (hpw : emptyPassword password = true) :
    (NewUser E tab name email password w).2 = (FindByName E tab name w).2 ∧
    (NewUser E tab name email password w).1.1 = none := by
  unfold NewUser
  generalize FindByName E tab name w = res
  obtain ⟨⟨u, err⟩, w1⟩ := res
  simp only [hpw, if_true]
  split_ifs <;> exact ⟨rfl, rfl⟩

theorem NewUser_lookup_fault (E : Env) (tab : Users) (name email password : String)
    (w : World) (e : DriverError) (fs : List (Option DriverError))
    (hf : w.faults = some e :: fs) :
    (NewUser E tab name email password w).1 =
      (none, some (.Errorf "find user: " (.Driver e))) := by
  have h := FindByName_fault E tab name w e fs hf
  unfold NewUser
  generalize FindByName E tab name w = res at h
  obtain ⟨⟨u, err⟩, w1⟩ := res
  simp only [Prod.mk.injEq] at h
  simp [h.2]

/-- C7, as amended: with a blank password `NewUser` performs exactly one store
operation, the lookup by normalised name, and no write; it returns no user; the error is
`ErrNoPassword` when the lookup meets no store failure, and the wrapped store failure of
the lookup otherwise. -/
theorem NewUser_blank_password (E : Env) (tab : Users) (name email password : String)
    (w : World) (hpw : emptyPassword password = true) :
    (NewUser E tab name email password w).2.log = .queryName (E.ToUpper name) :: w.log ∧
    (NewUser E tab name email password w).2.rows = w.rows ∧
    (NewUser E tab name email password w).1.1 = none ∧
    (w.healthy 1 → (NewUser E tab name email password w).1.2 = some .ErrNoPassword) ∧
    (∀ e fs, w.faults = some e :: fs →
      (NewUser E tab name email password w).1.2 = some (.Errorf "find user: " (.Driver e))) := by
  obtain ⟨hworld, hnone⟩ := NewUser_blank_world E tab name email password w hpw
  rw [hworld, FindByName_world]
  refine ⟨step_log _ _, step_rows _ _, hnone, ?_, ?_⟩
  · intro hw
    rw [NewUser_blank E tab name email password w hw hpw]
  · intro e fs hf
    rw [NewUser_lookup_fault E tab name email password w e fs hf]

/-- C7 at a concrete input: a password of a space and a tab. -/
theorem NewUser_blank_password_witness :
    (NewUser demoEnv demoTab "carol" "c@x" " \t" (World.ofRows [aliceRow])).1.1 = none :=
  (NewUser_blank_password demoEnv demoTab "carol" "c@x" " \t" (World.ofRows [aliceRow])
    (by decide)).2.2.1

/-- C7 as stated fails: with a blank password `NewUser` has read the store once before
it returns `ErrNoPassword`, and when that lookup fails it returns the lookup's error. -/
theorem NewUser_blank_password_reads_first :
    emptyPassword " \t" = true ∧
    (NewUser demoEnv demoTab "carol" "c@x" " \t" (World.ofRows [aliceRow])).1.2 =
      some .ErrNoPassword ∧
    (NewUser demoEnv demoTab "carol" "c@x" " \t" (World.ofRows [aliceRow])).2.log =
      [.queryName "CAROL"] ∧
    (NewUser demoEnv demoTab "carol" "c@x" " \t"
      { World.ofRows [aliceRow] with faults := [some (.Other "connection refused")] }).1.2 =
      some (.Errorf "find user: " (.Driver (.Other "connection refused"))) := by
  decide

theorem keyTaken_false (rows : List Row) (r : Row)
    (hid : ∀ x ∈ rows, x.Id ≠ r.Id)
    (hnm : ∀ x ∈ rows, x.NormalizedUserName ≠ r.NormalizedUserName) :
    keyTaken rows r = false := by
  unfold keyTaken
  rw [List.any_eq_false]
  intro x hx
  simp [hid x hx, hnm x hx]

theorem keyTaken_of_name (rows : List Row) (r x : Row) (hx : x ∈ rows)
    (hsome : r.NormalizedUserName.isSome = true)
    (hnm : x.NormalizedUserName = r.NormalizedUserName) : keyTaken rows r = true := by
  unfold keyTaken
  rw [List.any_eq_true]
  exact ⟨x, hx, by simp [hsome, hnm]⟩

/-- C8: two names with the same upper-cased form, passwords that are not blank and that
the library hashes, a table with no row of that name and none with the `Id` about to be
drawn, a dialect that recognises the engine's duplicate-key error, and a store that
executes the four statements.  The first `NewUser` succeeds, the second returns exactly
`ErrExists` and leaves the table as it was, with exactly one row of that normalised name. -/
theorem NewUser_twice_same_name (E : Env) (tab : Users) (n1 n2 e1 e2 p1 p2 h1 h2 : String)
    (w : World)
    (hw : w.healthy 4)
    (hup : E.ToUpper n1 = E.ToUpper n2)
    (hp1 : emptyPassword p1 = false) (hp2 : emptyPassword p2 = false)
    (hg1 : E.GenerateFromPassword p1 w.salts = .ok h1)
    (hg2 : E.GenerateFromPassword p2 (w.salts + 1) = .ok h2)
    (hdup : tab.style.IsDuplicate (.Driver tab.db.duplicate) = true)
    (hno : ∀ x ∈ w.rows, x.NormalizedUserName ≠ some (E.ToUpper n1))
    (hid : ∀ x ∈ w.rows, x.Id ≠ E.uuid w.uuids) :
    (NewUser E tab n1 e1 p1 w).1 =
      (some (newRecord E n1 e1 h1 (E.uuid w.uuids) (E.uuid (w.uuids + 1)) (E.uuid (w.uuids + 2))),
        none) ∧
    (NewUser E tab n2 e2 p2 (NewUser E tab n1 e1 p1 w).2).1 = (none, some .ErrExists) ∧
    (NewUser E tab n2 e2 p2 (NewUser E tab n1 e1 p1 w).2).2.rows =
      (NewUser E tab n1 e1 p1 w).2.rows ∧
    ((NewUser E tab n2 e2 p2 (NewUser E tab n1 e1 p1 w).2).2.rows.filter
      (fun x => decide (x.NormalizedUserName = some (E.ToUpper n1)))).length = 1 := by
  obtain ⟨a1, a2, a3, a4, a5⟩ :=
    NewUser_run E tab n1 e1 p1 w h1 (healthy_mono w 2 4 (by omega) hw) hp1 hg1
  generalize hu1 : newRecord E n1 e1 h1 (E.uuid w.uuids) (E.uuid (w.uuids + 1))
    (E.uuid (w.uuids + 2)) = u1 at a1 a2
  have hk1 : keyTaken w.rows (insertVals u1) = false := by
    apply keyTaken_false
    · intro x hx; rw [← hu1]; exact hid x hx
    · intro x hx; rw [← hu1]; exact hno x hx
  rw [hk1] at a1 a2
  simp only [Bool.false_eq_true, if_false] at a1 a2
  have hh : (NewUser E tab n1 e1 p1 w).2.healthy 2 := healthy_of_faults w _ 2 2 a3 hw
  generalize (NewUser E tab n1 e1 p1 w).2 = W1 at a2 a3 a4 a5 hh
  rw [← a5] at hg2
  obtain ⟨b1, b2, -⟩ := NewUser_run E tab n2 e2 p2 W1 h2 hh hp2 hg2
  have hk2 : keyTaken W1.rows (insertVals (newRecord E n2 e2 h2 (E.uuid W1.uuids)
      (E.uuid (W1.uuids + 1)) (E.uuid (W1.uuids + 2)))) = true := by
    refine keyTaken_of_name W1.rows _ (insertVals u1) (by rw [a2]; simp) (by rfl) ?_
    rw [← hu1]
    show some (E.ToUpper n1) = some (E.ToUpper n2)
    rw [hup]
  rw [hk2] at b1 b2
  simp only [if_true, hdup] at b1 b2
  refine ⟨a1, b1, b2, ?_⟩
  rw [b2, a2, List.filter_append, List.length_append]
  have h0 : w.rows.filter (fun x => decide (x.NormalizedUserName = some (E.ToUpper n1))) = [] := by
    rw [List.filter_eq_nil_iff]
    intro x hx
    simpa using hno x hx
  have h1 : (insertVals u1).NormalizedUserName = some (E.ToUpper n1) := by rw [← hu1]; rfl
  rw [h0]
  simp [h1]

/-- C8 at the input of the test: jake registers twice, under two spellings. -/
theorem NewUser_twice_same_name_witness :
    (NewUser demoEnv demoTab "Jake" "jake@x" "waffy"
      (NewUser demoEnv demoTab "jake" "jake@x" "woofy" (World.ofRows [aliceRow])).2).1 =
      (none, some .ErrExists) :=
  (NewUser_twice_same_name demoEnv demoTab "jake" "Jake" "jake@x" "jake@x" "woofy" "waffy"
    "#woofy" "#waffy" (World.ofRows [aliceRow]) (by decide) (by decide) (by decide) (by decide)
    rfl rfl (by decide) (by decide) (by decide)).2.1

theorem scanUser_insertVals (tab : Users) (u : User)
    (hbool : ∀ b, tab.style.BoolVal (tab.db.boolValue b) = b) :
    scanUser tab (insertVals u) = u := by
  simp [scanUser, insertVals, opts, hbool]

theorem emptyPassword_empty : emptyPassword "" = true := by decide

theorem demoEnv_uuid_injective : Function.Injective demoEnv.uuid := by
  intro a b h
  have h1 : (List.replicate (a + 1) 'u').length = (List.replicate (b + 1) 'u').length :=
    congrArg (fun s : String => s.data.length) h
  simpa using h1

theorem demoEnv_encode_nonempty (p : String) (s : Nat) (h : String)
    (hg : demoEnv.GenerateFromPassword p s = .ok h) : demoEnv.EncodeToString h ≠ "" := by
  simp only [demoEnv, Except.ok.injEq] at hg
  subst hg
  intro he
  have := congrArg String.length he
  simp only [demoEnv, String.length_append] at this
  have h1 : "#".length = 1 := by decide
  have h0 : "".length = 0 := by decide
  omega

/-- C9: when `NewUser` succeeds, `FindByName` on the upper-cased name returns the very
record that `NewUser` returned; it carries the name and the email given and their
upper-cased forms, a counter of zero, no `LockoutEnd`, a `PasswordHash` that is neither
empty nor the placeholder of the empty password, and an `ID`, a `SecurityStamp` and a
`ConcurrencyStamp` that are the three UUIDs drawn by the call, pairwise distinct, the
`ID` being that of no earlier row.  Assumed of the collaborators: the contract of the
password library, encoded hashes that are not empty, a UUID generator that does not
repeat, an idempotent upper-casing, an adapter that decodes the engine's booleans, and a
store that executes the three statements. -/
theorem NewUser_then_FindByName (E : Env) (emptyHash : String) (tab : Users)
    (name email password : String) (w : World) (salt : Nat)
    (hc : HashContract E)
    (heh : mustHashPassword E "" salt = some emptyHash)
    (henc : ∀ p s h, E.GenerateFromPassword p s = .ok h → E.EncodeToString h ≠ "")
    (hinj : Function.Injective E.uuid)
    (hup : E.ToUpper (E.ToUpper name) = E.ToUpper name)
    (hbool : ∀ b, tab.style.BoolVal (tab.db.boolValue b) = b)
    (hw : w.healthy 3)
    (hok : (NewUser E tab name email password w).1.2 = none) :
    ∃ u, (NewUser E tab name email password w).1 = (some u, none) ∧
      (FindByName E tab (E.ToUpper name) (NewUser E tab name email password w).2).1 =
        (some u, none) ∧
      u.UserName = name ∧ u.Email = email ∧
      u.NormalizedUserName = E.ToUpper name ∧ u.NormalizedEmail = E.ToUpper email ∧
      u.AccessFailedCount = 0 ∧ u.LockoutEnd = none ∧
      u.PasswordHash ≠ "" ∧ u.PasswordHash ≠ emptyHash ∧
      u.ID = E.uuid w.uuids ∧ u.SecurityStamp = E.uuid (w.uuids + 1) ∧
      u.ConcurrencyStamp = E.uuid (w.uuids + 2) ∧
      u.ID ≠ u.SecurityStamp ∧ u.ID ≠ u.ConcurrencyStamp ∧
      u.SecurityStamp ≠ u.ConcurrencyStamp ∧
      (∀ x ∈ w.rows, x.Id ≠ u.ID) := by
  obtain ⟨hpw, pwd, hgen, hk, hres, hrows, hfaults, -⟩ :=
    NewUser_ok_inv E tab name email password w (healthy_mono w 2 3 (by omega) hw) hok
  have hh : (NewUser E tab name email password w).2.healthy 1 :=
    healthy_of_faults w _ 1 2 hfaults hw
  generalize (NewUser E tab name email password w).2 = W at hrows hh
  generalize (NewUser E tab name email password w).1 = res at hres
  have hnk := not_keyTaken w.rows _ hk (by rfl)
  refine ⟨_, hres, ?_, rfl, rfl, rfl, rfl, rfl, rfl, ?_, ?_, rfl, rfl, rfl, ?_, ?_, ?_, ?_⟩
  · rw [FindByName_spec E tab (E.ToUpper name) W hh, hup, hrows,
      find_append_new w.rows _ (E.ToUpper name) rfl (fun x hx => (hnk x hx).2)]
    simp only [scanUser_insertVals tab _ hbool]
  · exact henc _ _ _ hgen
  · intro heq
    obtain ⟨h0, hd0, hc0⟩ := emptyHash_decodes E emptyHash salt hc heh
    have heq1 : E.EncodeToString pwd = emptyHash := heq
    have hd1 := hc.decode_encode _ _ _ hgen
    rw [heq1, hd0] at hd1
    have hpwd : h0 = pwd := Except.ok.inj hd1
    have : password = "" := (hc0 password).mp (by rw [hpwd]; exact (hc.compare_iff _ _ _ _ hgen).mpr rfl)
    rw [this, emptyPassword_empty] at hpw
    exact absurd hpw (by simp)
  · exact fun h => absurd (hinj h) (by omega)
  · exact fun h => absurd (hinj h) (by omega)
  · exact fun h => absurd (hinj h) (by omega)
  · exact fun x hx => (hnk x hx).1

/-- C9 at a concrete input: carol registers and is looked up as `CAROL`. -/
theorem NewUser_then_FindByName_witness :
    ∃ u, (NewUser demoEnv demoTab "carol" "c@x" "pw" (World.ofRows [aliceRow])).1 =
        (some u, none) ∧
      (FindByName demoEnv demoTab "CAROL"
        (NewUser demoEnv demoTab "carol" "c@x" "pw" (World.ofRows [aliceRow])).2).1 =
        (some u, none) := by
  obtain ⟨u, h1, h2, -⟩ := NewUser_then_FindByName demoEnv "#" demoTab "carol" "c@x" "pw"
    (World.ofRows [aliceRow]) 0 demoEnv_contract (by decide) demoEnv_encode_nonempty
    demoEnv_uuid_injective (by decide) (by decide) (by decide) (by decide)
  exact ⟨u, h1, h2⟩

/-! ### CheckLockout -/

/-- C10: `CheckLockout` returns `ErrLockedOut` exactly when `LockoutEnabled` is set,
`LockoutEnd` is present and the clock is strictly before it; otherwise it returns no
error; it leaves the record and the world, hence the table, as they were. -/
theorem CheckLockout_iff (tab : Users) (u : User) (w : World) :
    ((CheckLockout tab u w).1 = some .ErrLockedOut ↔
      (u.LockoutEnabled = true ∧ ∃ e, u.LockoutEnd = some e ∧ w.now < e)) ∧
    ((CheckLockout tab u w).1 ≠ some .ErrLockedOut → (CheckLockout tab u w).1 = none) ∧
    (CheckLockout tab u w).2 = (u, w) := by
  unfold CheckLockout
  cases he : u.LockoutEnd with
  | none => simp
  | some e =>
    by_cases h : u.LockoutEnabled = true ∧ w.now < e
    · simp [h]
    · simp only [h, if_false]
      refine ⟨⟨fun hx => by simp at hx, fun ⟨h1, e1, h2, h3⟩ => ?_⟩, fun _ => trivial, trivial⟩
      exact absurd ⟨h1, (Option.some.inj h2) ▸ h3⟩ h

/-! ### Update, whatever the store does -/

/-- The two outcomes of `Update`: an error, with the record and the table as they were;
or no error, a row that matched, the new stamp in the record and the rewritten table. -/
theorem Update_outcome (E : Env) (tab : Users) (u : User) (w : World) :
    ((∃ e, (Update E tab u w).1 = some e) ∧ (Update E tab u w).2.1 = u ∧
      (Update E tab u w).2.2.rows = w.rows) ∨
    ((Update E tab u w).1 = none ∧
      (Update E tab u w).2.1 = { u with ConcurrencyStamp := E.uuid w.uuids } ∧
      (Update E tab u w).2.2.rows =
        updated w.rows (updateVals u (E.uuid w.uuids)) u.ID u.ConcurrencyStamp ∧
      ∃ r ∈ w.rows, hit u.ID u.ConcurrencyStamp r = true) := by
  have hrows : ((newStamp E w).2.step
      (.update (updateVals u (E.uuid w.uuids)) u.ID u.ConcurrencyStamp)).2.rows = w.rows :=
    step_rows _ _
  unfold Update execUpdate
  simp only [newStamp] at hrows ⊢
  generalize World.step _ _ = st at hrows
  obtain ⟨f, w1⟩ := st
  simp only at hrows
  cases f with
  | some e => left; exact ⟨⟨_, rfl⟩, rfl, hrows⟩
  | none =>
    simp only [hrows]
    by_cases h1 : (w.rows.any (hit u.ID u.ConcurrencyStamp) &&
        decide (1 < ((updated w.rows (updateVals u (E.uuid w.uuids)) u.ID
          u.ConcurrencyStamp).filter (fun x => decide (x.NormalizedUserName =
            (updateVals u (E.uuid w.uuids)).NormalizedUserName))).length)) = true
    · left
      rw [if_pos h1]
      exact ⟨⟨_, rfl⟩, rfl, hrows⟩
    · rw [if_neg h1]
      by_cases h2 : (w.rows.filter (hit u.ID u.ConcurrencyStamp)).length = 0
      · left
        have hno : ∀ r ∈ w.rows, hit u.ID u.ConcurrencyStamp r = false := by
          intro r hr
          rw [List.length_eq_zero, List.filter_eq_nil_iff] at h2
          simpa using h2 r hr
        simp only [h2, if_true]
        refine ⟨?_, ?_, ?_⟩
        · first | trivial | exact ⟨_, rfl⟩
        · trivial
        · exact updated_of_no_hit _ _ _ _ hno
      · right
        simp only [h2, if_false]
        refine ⟨?_, ?_, ?_, ?_⟩
        · trivial
        · trivial
        · trivial
        by_contra hne
        push_neg at hne
        apply h2
        rw [filter_hit_of_no_hit _ _ _ (fun r hr => by simpa using hne r hr)]
        rfl

theorem Update_error_frame (E : Env) (tab : Users) (u : User) (w : World)
    (h : (Update E tab u w).1 ≠ none) :
    (Update E tab u w).2.1 = u ∧ (Update E tab u w).2.2.rows = w.rows := by
  rcases Update_outcome E tab u w with ⟨-, h1, h2⟩ | ⟨h0, -⟩
  · exact ⟨h1, h2⟩
  · exact absurd h0 h

theorem Update_ok_frame (E : Env) (tab : Users) (u : User) (w : World)
    (h : (Update E tab u w).1 = none) :
    (Update E tab u w).2.1 = { u with ConcurrencyStamp := E.uuid w.uuids } ∧
    (Update E tab u w).2.2.rows =
      updated w.rows (updateVals u (E.uuid w.uuids)) u.ID u.ConcurrencyStamp ∧
    ∃ r ∈ w.rows, hit u.ID u.ConcurrencyStamp r = true := by
  rcases Update_outcome E tab u w with ⟨⟨e, he⟩, -⟩ | ⟨-, h1, h2, h3⟩
  · rw [he] at h; simp at h
  · exact ⟨h1, h2, h3⟩

theorem Update_now (E : Env) (tab : Users) (u : User) (w : World) :
    (Update E tab u w).2.2.now = w.now ∧ (Update E tab u w).2.2.faults = w.faults.tail ∧
    (Update E tab u w).2.2.uuids = w.uuids + 1 ∧ (Update E tab u w).2.2.salts = w.salts := by
  have h1 := step_now (newStamp E w).2
    (.update (updateVals u (E.uuid w.uuids)) u.ID u.ConcurrencyStamp)
  have h2 := step_faults (newStamp E w).2
    (.update (updateVals u (E.uuid w.uuids)) u.ID u.ConcurrencyStamp)
  have h3 := step_uuids (newStamp E w).2
    (.update (updateVals u (E.uuid w.uuids)) u.ID u.ConcurrencyStamp)
  have h4 := step_salts (newStamp E w).2
    (.update (updateVals u (E.uuid w.uuids)) u.ID u.ConcurrencyStamp)
  unfold Update execUpdate
  simp only [newStamp] at h1 h2 h3 h4 ⊢
  generalize World.step _ _ = st at h1 h2 h3 h4
  obtain ⟨f, w1⟩ := st
  simp only at h1 h2 h3 h4
  cases f with
  | some e => exact ⟨h1, h2, h3, h4⟩
  | none =>
    simp only
    split_ifs
    · exact ⟨h1, h2, h3, h4⟩
    · by_cases h0 : (w1.rows.filter (hit u.ID u.ConcurrencyStamp)).length = 0
      · simp only [h0, if_true]; exact ⟨h1, h2, h3, h4⟩
      · simp only [h0, if_false]; exact ⟨h1, h2, h3, h4⟩

/-! ### LockOut and ResetLockout -/

theorem LockOut_eq (E : Env) (tab : Users) (u : User) (d : Int) (w : World) :
    (LockOut E tab u d w).1 = (Update E tab { u with LockoutEnd := some (w.now + d) } w).1 ∧
    (LockOut E tab u d w).2.2 = (Update E tab { u with LockoutEnd := some (w.now + d) } w).2.2 ∧
    (LockOut E tab u d w).2.1 =
      (if (Update E tab { u with LockoutEnd := some (w.now + d) } w).1 = none then
        { u with LockoutEnd := some (w.now + d) } else u) := by
  unfold LockOut
  simp only
  generalize Update E tab { u with LockoutEnd := some (w.now + d) } w = res
  obtain ⟨err, nu1, w1⟩ := res
  cases err <;> simp

theorem mem_updated_of_hit (rows : List Row) (vals : Row) (id stamp : String) (r : Row)
    (hr : r ∈ rows) (hh : hit id stamp r = true) :
    ({ vals with Id := r.Id } : Row) ∈ updated rows vals id stamp := by
  unfold updated
  exact List.mem_map.mpr ⟨r, hr, by rw [if_pos hh]⟩

theorem updated_eq_map (rows : List Row) (vals : Row) (id stamp : String) :
    updated rows vals id stamp = rows.map (fun x =>
      if x.Id = id ∧ x.ConcurrencyStamp = some stamp then { vals with Id := x.Id } else x) := by
  unfold updated
  apply List.map_congr_left
  intro x _
  by_cases hx : x.Id = id ∧ x.ConcurrencyStamp = some stamp
  · rw [if_pos ((hit_iff _ _ _).mpr hx), if_pos hx]
  · have : ¬ hit id stamp x = true := fun h => hx ((hit_iff _ _ _).mp h)
    rw [if_neg this, if_neg hx]

/-- A successful `LockOut` leaves a row of the `Id` of `u` with the new end. -/
theorem LockOut_ok_row (E : Env) (tab : Users) (u : User) (d : Int) (w : World)
    (hok : (LockOut E tab u d w).1 = none) :
    ∃ y ∈ (LockOut E tab u d w).2.2.rows, y.Id = u.ID ∧ y.LockoutEnd = some (w.now + d) := by
  obtain ⟨h1, h2, -⟩ := LockOut_eq E tab u d w
  rw [h1] at hok
  obtain ⟨-, hrows, r, hr, hhit⟩ := Update_ok_frame E tab _ w hok
  rw [h2, hrows]
  exact ⟨_, mem_updated_of_hit _ _ _ _ r hr hhit, hit_Id u.ID u.ConcurrencyStamp r hhit, rfl⟩

/-- C12: when `LockOut` returns an error the record `u` is as it was (and so is the
table); when it returns no error the record is `u` with `LockoutEnd` set to the clock
of the call plus `d`, a row matched `u.ID` and `u.ConcurrencyStamp`, every matching row
was rewritten from the staged copy, and the table holds a row of that `Id` whose
`LockoutEnd` is the clock of the call plus `d`. -/
theorem LockOut_all_or_nothing (E : Env) (tab : Users) (u : User) (d : Int) (w : World) :
    ((LockOut E tab u d w).1 ≠ none →
      (LockOut E tab u d w).2.1 = u ∧ (LockOut E tab u d w).2.2.rows = w.rows) ∧
    ((LockOut E tab u d w).1 = none →
      (LockOut E tab u d w).2.1 = { u with LockoutEnd := some (w.now + d) } ∧
      (LockOut E tab u d w).2.2.rows = w.rows.map (fun x =>
        if x.Id = u.ID ∧ x.ConcurrencyStamp = some u.ConcurrencyStamp then
          { updateVals { u with LockoutEnd := some (w.now + d) } (E.uuid w.uuids) with Id := x.Id }
        else x) ∧
      (∃ r ∈ w.rows, r.Id = u.ID ∧ r.ConcurrencyStamp = some u.ConcurrencyStamp) ∧
      (∃ y ∈ (LockOut E tab u d w).2.2.rows, y.Id = u.ID ∧ y.LockoutEnd = some (w.now + d))) := by
  obtain ⟨h1, h2, h3⟩ := LockOut_eq E tab u d w
  rw [h1, h2, h3]
  constructor
  · intro herr
    rw [if_neg herr]
    exact ⟨rfl, (Update_error_frame E tab _ w herr).2⟩
  · intro hok
    rw [if_pos hok]
    obtain ⟨-, hrows, r, hr, hhit⟩ := Update_ok_frame E tab _ w hok
    refine ⟨rfl, hrows.trans (updated_eq_map _ _ _ _), ⟨r, hr, (hit_iff _ _ _).mp hhit⟩, ?_⟩
    rw [hrows]
    exact ⟨_, mem_updated_of_hit _ _ _ _ r hr hhit, hit_Id u.ID u.ConcurrencyStamp r hhit, rfl⟩

/-- C12 at a concrete input: alice is locked out for ten units at clock 0. -/
theorem LockOut_all_or_nothing_witness :
    (LockOut demoEnv demoTab lockableUser 10 (World.ofRows [lockableRow, bobRow])).2.1 =
      { lockableUser with LockoutEnd := some 10 } :=
  ((LockOut_all_or_nothing demoEnv demoTab lockableUser 10
    (World.ofRows [lockableRow, bobRow])).2 (by decide)).1

/-- C11, as amended: for a record with `LockoutEnabled` set, after `LockOut u d`
succeeds, `CheckLockout` on the record returns `ErrLockedOut` at every clock before the
clock of the call plus `d`, in particular right after the call when `d` is positive;
at every clock from that instant on it returns no error, although `LockoutEnd` is
still set. -/
theorem LockOut_then_CheckLockout (E : Env) (tab : Users) (u : User) (d : Int) (w : World)
    (hen : u.LockoutEnabled = true)
    (hok : (LockOut E tab u d w).1 = none) :
    (∀ w1 : World, w1.now < w.now + d →
      (CheckLockout tab (LockOut E tab u d w).2.1 w1).1 = some .ErrLockedOut) ∧
    (0 < d →
      (CheckLockout tab (LockOut E tab u d w).2.1 (LockOut E tab u d w).2.2).1 =
        some .ErrLockedOut) ∧
    (∀ w1 : World, w.now + d ≤ w1.now →
      (CheckLockout tab (LockOut E tab u d w).2.1 w1).1 = none ∧
      (LockOut E tab u d w).2.1.LockoutEnd = some (w.now + d)) := by
  obtain ⟨h1, h2, h3⟩ := LockOut_eq E tab u d w
  rw [h1] at hok
  have hnow : (LockOut E tab u d w).2.2.now = w.now := by
    rw [h2]; exact (Update_now E tab _ w).1
  rw [h3, if_pos hok]
  refine ⟨?_, ?_, ?_⟩
  · intro w1 hlt
    simp [CheckLockout, hen, hlt]
  · intro hd
    have : (LockOut E tab u d w).2.2.now < w.now + d := by rw [hnow]; omega
    simp [CheckLockout, hen, this]
  · intro w1 hge
    have : ¬ w1.now < w.now + d := by omega
    simp [CheckLockout, this]

/-- C11 at a concrete input: alice with lockout enabled is locked out for ten units. -/
theorem LockOut_then_CheckLockout_witness :
    (CheckLockout demoTab (LockOut demoEnv demoTab lockableUser 10
        (World.ofRows [lockableRow, bobRow])).2.1
      (LockOut demoEnv demoTab lockableUser 10 (World.ofRows [lockableRow, bobRow])).2.2).1 =
      some .ErrLockedOut :=
  (LockOut_then_CheckLockout demoEnv demoTab lockableUser 10
    (World.ofRows [lockableRow, bobRow]) (by decide) (by decide)).2.1 (by decide)

/-- C11 as stated fails: alice's record is the one `FindByName` returns, with
`LockoutEnabled` false as `NewUser` leaves it; `LockOut` for ten units succeeds and sets
`LockoutEnd`, yet `CheckLockout` right after it returns no error. -/
theorem LockOut_without_LockoutEnabled :
    (FindByName demoEnv demoTab "alice" (World.ofRows [aliceRow, bobRow])).1 =
      (some aliceUser, none) ∧
    (LockOut demoEnv demoTab aliceUser 10 (World.ofRows [aliceRow, bobRow])).1 = none ∧
    (LockOut demoEnv demoTab aliceUser 10 (World.ofRows [aliceRow, bobRow])).2.1.LockoutEnd =
      some 10 ∧
    (LockOut demoEnv demoTab aliceUser 10 (World.ofRows [aliceRow, bobRow])).2.2.now = 0 ∧
    (CheckLockout demoTab (LockOut demoEnv demoTab aliceUser 10
        (World.ofRows [aliceRow, bobRow])).2.1
      (LockOut demoEnv demoTab aliceUser 10 (World.ofRows [aliceRow, bobRow])).2.2).1 = none := by
  decide

/-- After an update, no row carries the old stamp under that `Id`, when the new stamp
differs from it. -/
theorem stale_after_update (rows : List Row) (vals : Row) (id stamp s : String)
    (hs : vals.ConcurrencyStamp = some s) (hne : s ≠ stamp) :
    ∀ y ∈ updated rows vals id stamp, hit id stamp y = false := by
  intro y hy
  obtain ⟨x, hx, hyx⟩ := mem_updated _ _ _ _ y hy
  by_cases hh : hit id stamp x = true
  · rw [if_pos hh] at hyx
    apply hit_false_of_not
    rintro ⟨-, h2⟩
    rw [hyx] at h2
    have h3 : vals.ConcurrencyStamp = some stamp := h2
    rw [hs] at h3
    exact hne (Option.some.inj h3)
  · rw [if_neg hh] at hyx
    rw [hyx]
    simpa using hh

/-- What `ResetLockout` does after a successful `LockOut`, when the stamp drawn by
`LockOut` differs from the one in the record and the store executes the statement: the
record still carries the old stamp, so the update matches no row. -/
theorem ResetLockout_after_LockOut (E : Env) (tab : Users) (u : User) (d : Int) (w : World)
    (hw : w.healthy 2)
    (hfresh : E.uuid w.uuids ≠ u.ConcurrencyStamp)
    (hok : (LockOut E tab u d w).1 = none) :
    (ResetLockout E tab (LockOut E tab u d w).2.1 (LockOut E tab u d w).2.2).1 =
      some .ErrConcurrency ∧
    (ResetLockout E tab (LockOut E tab u d w).2.1 (LockOut E tab u d w).2.2).2.1.LockoutEnd =
      none ∧
    (ResetLockout E tab (LockOut E tab u d w).2.1 (LockOut E tab u d w).2.2).2.2.rows =
      (LockOut E tab u d w).2.2.rows ∧
    (∃ y ∈ (LockOut E tab u d w).2.2.rows, y.Id = u.ID ∧ y.LockoutEnd = some (w.now + d)) := by
  obtain ⟨h1, h2, h3⟩ := LockOut_eq E tab u d w
  have hok1 := hok
  rw [h1] at hok1
  obtain ⟨-, hrows, r, hr, hhit⟩ := Update_ok_frame E tab _ w hok1
  have hex := LockOut_ok_row E tab u d w hok
  have hh : (Update E tab { u with LockoutEnd := some (w.now + d) } w).2.2.healthy 1 :=
    healthy_of_faults w _ 1 1 (by rw [(Update_now E tab _ w).2.1]; cases w.faults <;> rfl) hw
  have hmiss : ∀ y ∈ (Update E tab { u with LockoutEnd := some (w.now + d) } w).2.2.rows,
      hit u.ID u.ConcurrencyStamp y = false := by
    rw [hrows]
    exact stale_after_update _ _ _ _ (E.uuid w.uuids) rfl hfresh
  rw [h2] at hex
  rw [h3, if_pos hok1, h2]
  generalize (Update E tab { u with LockoutEnd := some (w.now + d) } w).2.2 = W at hh hmiss hex
  have hR : ResetLockout E tab { u with LockoutEnd := some (w.now + d) } W =
      Update E tab { u with LockoutEnd := none } W := rfl
  rw [hR, Update_miss E tab { u with LockoutEnd := none } W hh hmiss]
  exact ⟨rfl, rfl, afterUpdate_rows _ _ _, hex⟩

/-- C13 at the failing input: alice's record is in sync with her row, lockout enabled.
`LockOut` for ten units succeeds, but it leaves the old `ConcurrencyStamp` in the
record, so `ResetLockout` on that record returns `ErrConcurrency`; the record has lost
its `LockoutEnd`, the row keeps it, and `CheckLockout` on the re-fetched record returns
`ErrLockedOut`. -/
theorem ResetLockout_after_LockOut_conflicts :
    (FindByName demoEnv demoTab "alice" (World.ofRows [lockableRow, bobRow])).1 =
      (some lockableUser, none) ∧
    (LockOut demoEnv demoTab lockableUser 10 (World.ofRows [lockableRow, bobRow])).1 = none ∧
    (ResetLockout demoEnv demoTab
      (LockOut demoEnv demoTab lockableUser 10 (World.ofRows [lockableRow, bobRow])).2.1
      (LockOut demoEnv demoTab lockableUser 10 (World.ofRows [lockableRow, bobRow])).2.2).1 =
      some .ErrConcurrency ∧
    (ResetLockout demoEnv demoTab
      (LockOut demoEnv demoTab lockableUser 10 (World.ofRows [lockableRow, bobRow])).2.1
      (LockOut demoEnv demoTab lockableUser 10 (World.ofRows [lockableRow, bobRow])).2.2).2.1.LockoutEnd =
      none ∧
    (FindByName demoEnv demoTab "alice" (ResetLockout demoEnv demoTab
      (LockOut demoEnv demoTab lockableUser 10 (World.ofRows [lockableRow, bobRow])).2.1
      (LockOut demoEnv demoTab lockableUser 10 (World.ofRows [lockableRow, bobRow])).2.2).2.2).1 =
      (some { lockableUser with LockoutEnd := some 10, ConcurrencyStamp := "u" }, none) ∧
    (CheckLockout demoTab { lockableUser with LockoutEnd := some 10, ConcurrencyStamp := "u" }
      (ResetLockout demoEnv demoTab
        (LockOut demoEnv demoTab lockableUser 10 (World.ofRows [lockableRow, bobRow])).2.1
        (LockOut demoEnv demoTab lockableUser 10 (World.ofRows [lockableRow, bobRow])).2.2).2.2).1 =
      some .ErrLockedOut := by
  decide

/-- C14, as amended.  With `LockoutEnd` absent, `ResetLockout` returns no error and
leaves the record and the world, log and table included, as they were.  With
`LockoutEnd` present, over a table with unique `Id`s in which a row matches `u.ID`
and `u.ConcurrencyStamp` and no other row carries `u.NormalizedUserName`, when the store
executes the statement, `ResetLockout` returns no error, the record has no `LockoutEnd`
(and the new stamp), and the matching row is rewritten with no `LockoutEnd`. -/
theorem ResetLockout_effect (E : Env) (tab : Users) (u : User) (w : World) :
    (u.LockoutEnd = none → ResetLockout E tab u w = (none, u, w)) ∧
    (u.LockoutEnd ≠ none → w.healthy 1 → (w.rows.map Row.Id).Nodup →
      (∃ r ∈ w.rows, r.Id = u.ID ∧ r.ConcurrencyStamp = some u.ConcurrencyStamp) →
      (∀ r ∈ w.rows, r.NormalizedUserName = some u.NormalizedUserName → r.Id = u.ID) →
      (ResetLockout E tab u w).1 = none ∧
      (ResetLockout E tab u w).2.1 =
        { u with LockoutEnd := none, ConcurrencyStamp := E.uuid w.uuids } ∧
      (ResetLockout E tab u w).2.2.rows = w.rows.map (fun x =>
        if x.Id = u.ID ∧ x.ConcurrencyStamp = some u.ConcurrencyStamp then
          { updateVals { u with LockoutEnd := none } (E.uuid w.uuids) with Id := x.Id }
        else x) ∧
      (∃ y ∈ (ResetLockout E tab u w).2.2.rows, y.Id = u.ID ∧ y.LockoutEnd = none)) := by
  constructor
  · intro h
    unfold ResetLockout
    rw [h]
  · intro h hw hnd hrow hname
    have hR : ResetLockout E tab u w = Update E tab { u with LockoutEnd := none } w := by
      unfold ResetLockout
      cases hl : u.LockoutEnd with
      | none => exact absurd hl h
      | some e => rfl
    obtain ⟨r, hr, hrm⟩ := hrow
    have hhit : hit u.ID u.ConcurrencyStamp r = true := (hit_iff _ _ _).mpr hrm
    rw [hR, Update_hit E tab { u with LockoutEnd := none } w hw ⟨r, hr, hhit⟩
      (accepts_of_unique w.rows (updateVals { u with LockoutEnd := none } (E.uuid w.uuids))
        u.ID u.ConcurrencyStamp hnd hname)]
    exact ⟨rfl, rfl, updated_eq_map _ _ _ _,
      _, mem_updated_of_hit _ _ _ _ r hr hhit, hrm.1, rfl⟩

/-- C14 at a concrete input: alice, locked out until 5, is reset. -/
theorem ResetLockout_effect_witness :
    (ResetLockout demoEnv demoTab { lockableUser with LockoutEnd := some 5 }
      (World.ofRows [{ lockableRow with LockoutEnd := some 5 }, bobRow])).1 = none :=
  ((ResetLockout_effect demoEnv demoTab { lockableUser with LockoutEnd := some 5 }
    (World.ofRows [{ lockableRow with LockoutEnd := some 5 }, bobRow])).2
    (by decide) (by decide) (by decide) (by decide) (by decide)).1

/-- C14 as stated fails in its second part: alice's row matches her record in `Id` and
stamp, `LockoutEnd` is present, but the record carries the name of bob and the store
refuses the update; when the store fails the statement, the failure is returned.  In
both cases `LockoutEnd` is cleared in the record and kept in the row. -/
theorem ResetLockout_store_refuses :
    (∃ r ∈ (World.ofRows [{ lockableRow with LockoutEnd := some 5 }, bobRow]).rows,
      r.Id = lockableUser.ID ∧ r.ConcurrencyStamp = some lockableUser.ConcurrencyStamp) ∧
    (ResetLockout demoEnv demoTab
      { lockableUser with LockoutEnd := some 5, UserName := "bob", NormalizedUserName := "BOB" }
      (World.ofRows [{ lockableRow with LockoutEnd := some 5 }, bobRow])).1 =
      some (.Driver (.MySQLError 1062)) ∧
    (ResetLockout demoEnv demoTab
      { lockableUser with LockoutEnd := some 5, UserName := "bob", NormalizedUserName := "BOB" }
      (World.ofRows [{ lockableRow with LockoutEnd := some 5 }, bobRow])).2.1.LockoutEnd = none ∧
    (ResetLockout demoEnv demoTab
      { lockableUser with LockoutEnd := some 5, UserName := "bob", NormalizedUserName := "BOB" }
      (World.ofRows [{ lockableRow with LockoutEnd := some 5 }, bobRow])).2.2.rows =
      [{ lockableRow with LockoutEnd := some 5 }, bobRow] ∧
    (ResetLockout demoEnv demoTab { lockableUser with LockoutEnd := some 5 }
      { World.ofRows [{ lockableRow with LockoutEnd := some 5 }, bobRow] with
        faults := [some (.Other "connection lost")] }).1 =
      some (.Driver (.Other "connection lost")) := by
  decide

/-! ### ChangePassword -/

/-- `ChangePassword` with a password that is not blank and that the library turns into
the text `text`: the outcome is that of `Update` on the staged copy. -/
theorem ChangePassword_eq (E : Env) (tab : Users) (u : User) (password : String) (w : World)
    (pwd text : String) (hpw : emptyPassword password = false)
    (hnew : E.New password w.salts = .ok pwd) (hm : E.MarshalText pwd = .ok text) :
    (ChangePassword E tab u password w).1 =
      (Update E tab { u with PasswordHash := text, SecurityStamp := E.uuid w.uuids } w.drawn).1 ∧
    (ChangePassword E tab u password w).2.2 =
      (Update E tab { u with PasswordHash := text, SecurityStamp := E.uuid w.uuids } w.drawn).2.2 ∧
    (ChangePassword E tab u password w).2.1 =
      (if (Update E tab { u with PasswordHash := text, SecurityStamp := E.uuid w.uuids }
          w.drawn).1 = none then
        { u with PasswordHash := text, SecurityStamp := E.uuid w.uuids } else u) := by
  have hrec := Update_record E tab
    { u with PasswordHash := text, SecurityStamp := E.uuid w.uuids } w.drawn
  unfold ChangePassword
  simp only [hpw, Bool.false_eq_true, if_false, hnew, hm, newStamp]
  generalize Update E tab { u with PasswordHash := text, SecurityStamp := E.uuid w.uuids }
    w.drawn = res at hrec
  obtain ⟨err, nu1, w3⟩ := res
  simp only at hrec
  cases err with
  | some e => simp
  | none =>
    rcases hrec with h | h <;> simp [h]

/-- C15: with a blank password `ChangePassword` returns exactly `ErrNoPassword` and
leaves the record and the world, log and table included, as they were; and whenever it
returns an error, the record is as it was and so is the table, hence the stored
`PasswordHash` and `SecurityStamp`. -/
theorem ChangePassword_failure_frame (E : Env) (tab : Users) (u : User) (password : String)
    (w : World) :
    (emptyPassword password = true →
      ChangePassword E tab u password w = (some .ErrNoPassword, u, w)) ∧
    ((ChangePassword E tab u password w).1 ≠ none →
      (ChangePassword E tab u password w).2.1 = u ∧
      (ChangePassword E tab u password w).2.2.rows = w.rows) := by
  constructor
  · intro h
    unfold ChangePassword
    simp [h]
  · intro herr
    cases hpw : emptyPassword password with
    | true => unfold ChangePassword; simp [hpw]
    | false =>
      cases hnew : E.New password w.salts with
      | error msg => unfold ChangePassword; simp [hpw, hnew]
      | ok pwd =>
        cases hm : E.MarshalText pwd with
        | error msg => unfold ChangePassword; simp [hpw, hnew, hm]
        | ok text =>
          obtain ⟨h1, h2, h3⟩ := ChangePassword_eq E tab u password w pwd text hpw hnew hm
          rw [h1] at herr
          rw [h3, h2, if_neg herr]
          exact ⟨rfl, (Update_error_frame E tab _ w.drawn herr).2⟩

/-- C15 at a concrete input: a blank password for alice. -/
theorem ChangePassword_failure_frame_witness :
    ChangePassword demoEnv demoTab aliceUser "  " (World.ofRows [aliceRow, bobRow]) =
      (some .ErrNoPassword, aliceUser, World.ofRows [aliceRow, bobRow]) :=
  (ChangePassword_failure_frame demoEnv demoTab aliceUser "  "
    (World.ofRows [aliceRow, bobRow])).1 (by decide)

/-! ### Lookups by name and by Id -/

/-- The ranges of `CaseRanges` ascend and do not overlap. -/
theorem CaseRanges_sorted : unicode.CaseRanges.Pairwise (fun a b => a.Hi < b.Lo) := by
  decide!

set_option maxRecDepth 100000 in
/-- No range of `CaseRanges` is empty, the alternating ranges lie above ASCII, and the
image of a range with a proper delta meets no range of the table, but for three single
letters whose capital is the capital of an alternating range. -/
theorem CaseRanges_stable : ∀ cr ∈ unicode.CaseRanges, cr.Lo ≤ cr.Hi ∧
    (cr.Delta > unicode.MaxRune → unicode.MaxASCII < cr.Lo) ∧
    (¬ cr.Delta > unicode.MaxRune → 0 ≤ (cr.Lo : Int) + cr.Delta ∧
      ∀ cr1 ∈ unicode.CaseRanges,
        (cr1.Hi : Int) < cr.Lo + cr.Delta ∨ (cr.Hi : Int) + cr.Delta < cr1.Lo ∨
        (cr1.Delta > unicode.MaxRune ∧ cr.Lo = cr.Hi ∧
          ((cr.Lo : Int) + cr.Delta - cr1.Lo) % 2 = 0)) := by
  decide!

/-- In an ascending table the range that holds `x` is the one `find?` returns. -/
theorem find_covering (T : List unicode.CaseRange) (hs : T.Pairwise (fun a b => a.Hi < b.Lo))
    (cr : unicode.CaseRange) (hcr : cr ∈ T) (x : Nat) (h1 : cr.Lo ≤ x) (h2 : x ≤ cr.Hi) :
    T.find? (fun c => decide (c.Lo ≤ x) && decide (x ≤ c.Hi)) = some cr := by
  induction T with
  | nil => simp at hcr
  | cons a l ih =>
    rw [List.pairwise_cons] at hs
    rcases List.mem_cons.mp hcr with h | h
    · subst h
      rw [List.find?_cons_of_pos]
      simp [h1, h2]
    · have := hs.1 cr h
      rw [List.find?_cons_of_neg]
      · exact ih hs.2 h
      · simp only [Bool.and_eq_true, decide_eq_true_eq, not_and, not_le]
        intro _
        omega

/-- What `unicode.ToUpper` returns is a rune it leaves as it is. -/
theorem unicode_ToUpper_idem (r : Nat) :
    unicode.ToUpper (unicode.ToUpper r) = unicode.ToUpper r := by
  have haz : (unicode.CaseRange.mk 0x61 0x7A (-32)) ∈ unicode.CaseRanges :=
    List.mem_cons_self _ _
  by_cases hr : r ≤ unicode.MaxASCII
  · unfold unicode.ToUpper
    simp only [unicode.MaxASCII] at hr ⊢
    rw [if_pos hr]
    by_cases h : 97 ≤ r ∧ r ≤ 122
    · rw [if_pos h, if_pos (by omega), if_neg (by omega)]
    · rw [if_neg h, if_pos hr, if_neg h]
  · have hup : unicode.ToUpper r = unicode.toCase unicode.CaseRanges r := by
      unfold unicode.ToUpper; rw [if_neg hr]
    rw [hup]
    unfold unicode.toCase
    cases hf : unicode.CaseRanges.find? (fun cr => decide (cr.Lo ≤ r) && decide (r ≤ cr.Hi)) with
    | none => simp only; rw [hup]; unfold unicode.toCase; rw [hf]
    | some cr =>
      have hmem := List.mem_of_find?_eq_some hf
      have hcov := List.find?_some hf
      simp only [Bool.and_eq_true, decide_eq_true_eq] at hcov
      obtain ⟨hord, halt, hshift⟩ := CaseRanges_stable cr hmem
      simp only
      by_cases hd : cr.Delta > unicode.MaxRune
      · rw [if_pos hd]
        have hlo := halt hd
        have hnot : ¬ (cr.Lo + (r - cr.Lo) / 2 * 2 ≤ unicode.MaxASCII) := by omega
        unfold unicode.ToUpper
        rw [if_neg hnot]
        unfold unicode.toCase
        rw [find_covering _ CaseRanges_sorted cr hmem _ (by omega) (by omega)]
        simp only
        rw [if_pos hd]
        omega
      · rw [if_neg hd]
        obtain ⟨h0, hfree⟩ := hshift hd
        unfold unicode.ToUpper
        by_cases hx : ((r : Int) + cr.Delta).toNat ≤ unicode.MaxASCII
        · rw [if_pos hx]
          rcases hfree _ haz with h | h | h
          · simp only at h
            rw [if_neg (by omega)]
          · simp only at h
            rw [if_neg (by omega)]
          · exact absurd h.1 (by decide)
        · rw [if_neg hx]
          unfold unicode.toCase
          cases hf1 : unicode.CaseRanges.find? (fun c =>
              decide (c.Lo ≤ ((r : Int) + cr.Delta).toNat) &&
              decide (((r : Int) + cr.Delta).toNat ≤ c.Hi)) with
          | none => rfl
          | some c1 =>
            have hmem1 := List.mem_of_find?_eq_some hf1
            have hcov1 := List.find?_some hf1
            simp only [Bool.and_eq_true, decide_eq_true_eq] at hcov1
            simp only
            rcases hfree c1 hmem1 with h | h | h
            · omega
            · omega
            · rw [if_pos h.1]
              omega

theorem toNat_ofNat_valid (n : Nat) (h : n.isValidChar) : (Char.ofNat n).toNat = n := by
  unfold Char.ofNat
  rw [dif_pos h]
  rfl

/-- The rune written for a mapped code point is written again for its own code point. -/
theorem writeRune_idem (n : Nat) :
    strings.writeRune (unicode.ToUpper (strings.writeRune (unicode.ToUpper n)).toNat) =
      strings.writeRune (unicode.ToUpper n) := by
  by_cases hv : (unicode.ToUpper n).isValidChar
  · have h1 : strings.writeRune (unicode.ToUpper n) = Char.ofNat (unicode.ToUpper n) := by
      unfold strings.writeRune; rw [if_pos hv]
    rw [h1, toNat_ofNat_valid _ hv, unicode_ToUpper_idem, h1]
  · have h1 : strings.writeRune (unicode.ToUpper n) = Char.ofNat 0xFFFD := by
      unfold strings.writeRune; rw [if_neg hv]
    have h2 : unicode.ToUpper (Char.ofNat 0xFFFD).toNat = 0xFFFD := by decide!
    rw [h1, h2]
    rfl

/-- The ASCII path of `strings.ToUpper` returns what `Map(unicode.ToUpper, s)` returns. -/
theorem strings_ToUpper_eq_Map (s : String) :
    strings.ToUpper s = strings.Map unicode.ToUpper s := by
  have hascii : ∀ c : Char, c.toNat < 0x80 →
      strings.writeRune (unicode.ToUpper c.toNat) =
        (if 97 ≤ c.toNat ∧ c.toNat ≤ 122 then Char.ofNat (c.toNat - 32) else c) := by
    intro c hc
    have hup : unicode.ToUpper c.toNat =
        (if 97 ≤ c.toNat ∧ c.toNat ≤ 122 then c.toNat - 32 else c.toNat) := by
      unfold unicode.ToUpper
      rw [if_pos (show c.toNat ≤ unicode.MaxASCII by unfold unicode.MaxASCII; omega)]
    rw [hup]
    unfold strings.writeRune
    by_cases h : 97 ≤ c.toNat ∧ c.toNat ≤ 122
    · rw [if_pos h, if_pos h, if_pos (show (c.toNat - 32).isValidChar from Or.inl (by omega))]
    · rw [if_neg h, if_neg h, if_pos (show c.toNat.isValidChar from c.valid)]
      exact Char.ofNat_toNat c
  unfold strings.ToUpper
  by_cases hall : s.data.all (fun c => decide (c.toNat < 0x80)) = true
  · rw [if_pos hall]
    have hc : ∀ c ∈ s.data, c.toNat < 0x80 := by
      intro c hmem
      have := List.all_eq_true.mp hall c hmem
      simpa using this
    by_cases hany : s.data.any (fun c => decide (97 ≤ c.toNat ∧ c.toNat ≤ 122)) = true
    · rw [if_pos hany]
      unfold strings.Map
      congr 1
      apply List.map_congr_left
      intro c hmem
      exact (hascii c (hc c hmem)).symm
    · rw [if_neg hany]
      unfold strings.Map
      apply String.ext
      show s.data = s.data.map _
      have hid : ∀ c ∈ s.data, strings.writeRune (unicode.ToUpper c.toNat) = c := by
        intro c hmem
        rw [hascii c (hc c hmem)]
        have hno : ¬ (97 ≤ c.toNat ∧ c.toNat ≤ 122) := by
          intro h
          apply hany
          exact List.any_eq_true.mpr ⟨c, hmem, by simpa using h⟩
        rw [if_neg hno]
      conv_lhs => rw [← List.map_id s.data]
      apply List.map_congr_left
      intro c hmem
      exact (hid c hmem).symm
  · rw [if_neg hall]

/-- Upper-casing with `strings.ToUpper` is idempotent. -/
theorem strings_ToUpper_idem (s : String) :
    strings.ToUpper (strings.ToUpper s) = strings.ToUpper s := by
  rw [strings_ToUpper_eq_Map (strings.ToUpper s), strings_ToUpper_eq_Map s]
  unfold strings.Map
  simp only [List.map_map]
  congr 1
  apply List.map_congr_left
  intro c _
  exact writeRune_idem c.toNat

/-- `strings.ToUpper` on letters outside ASCII. -/
theorem strings_ToUpper_examples :
    strings.ToUpper "é" = "É" ∧ strings.ToUpper "ı" = "I" ∧ strings.ToUpper "ß" = "ß" ∧
    strings.ToUpper "straße ǆ" = "STRAßE Ǆ" ∧ strings.ToUpper "jake@x" = "JAKE@X" := by
  decide!

/-- C17: over a table in which no two rows share a `NormalizedUserName`, when the store
executes the query, `FindByName name` returns no user and exactly `ErrNotFound` if and
only if no row carries the upper-cased name, and otherwise the decoded row that carries
it; a name with the same upper-cased form gives the same result; and `normalise` is
idempotent, `ToUpper` being Go's `strings.ToUpper`: `upper (upper s) = upper s` for
every string `s`, letters outside ASCII included. -/
theorem FindByName_by_normalised_name (E : Env) (tab : Users) (name : String) (w : World)
    (hw : w.healthy 1)
    (huniq : ∀ x ∈ w.rows, ∀ y ∈ w.rows, x.NormalizedUserName ≠ none →
      x.NormalizedUserName = y.NormalizedUserName → x = y) :
    ((FindByName E tab name w).1 = (none, some .ErrNotFound) ↔
      ∀ r ∈ w.rows, r.NormalizedUserName ≠ some (E.ToUpper name)) ∧
    ((FindByName E tab name w).1.2 = some .ErrNotFound ↔
      ∀ r ∈ w.rows, r.NormalizedUserName ≠ some (E.ToUpper name)) ∧
    (∀ r ∈ w.rows, r.NormalizedUserName = some (E.ToUpper name) →
      (FindByName E tab name w).1 = (some (scanUser tab r), none)) ∧
    (∀ other, E.ToUpper other = E.ToUpper name →
      FindByName E tab other w = FindByName E tab name w) ∧
    (E.ToUpper = strings.ToUpper → ∀ s, normalise E (normalise E s) = normalise E s) := by
  have hfound : ∀ r ∈ w.rows, r.NormalizedUserName = some (E.ToUpper name) →
      (FindByName E tab name w).1 = (some (scanUser tab r), none) := by
    intro r hr hk
    rw [FindByName_spec E tab name w hw, find_of_unique w.rows r _ hr hk
      (fun x hx hxk => (huniq r hr x hx (by rw [hk]; simp) (hk.trans hxk.symm)).symm)]
  have habsent : (∀ r ∈ w.rows, r.NormalizedUserName ≠ some (E.ToUpper name)) →
      (FindByName E tab name w).1 = (none, some .ErrNotFound) := by
    intro hno
    rw [FindByName_spec E tab name w hw, find_of_absent w.rows _ hno]
  refine ⟨⟨?_, habsent⟩, ⟨?_, fun h => by rw [habsent h]⟩, hfound, ?_, ?_⟩
  · intro h r hr hk
    rw [hfound r hr hk] at h
    simp at h
  · intro h r hr hk
    rw [hfound r hr hk] at h
    simp at h
  · intro other h
    simp only [FindByName, normalise, h]
  · intro h s
    simp only [normalise, h]
    exact strings_ToUpper_idem s

/-- C17 at a concrete input: alice is found under another spelling, and upper-casing a
name with letters outside ASCII twice gives what upper-casing it once gives. -/
theorem FindByName_by_normalised_name_witness :
    (FindByName demoEnv demoTab "Alice" (World.ofRows [aliceRow, bobRow])).1 =
      (some (scanUser demoTab aliceRow), none) ∧
    normalise demoEnv (normalise demoEnv "zoé ǆ") = normalise demoEnv "zoé ǆ" :=
  ⟨(FindByName_by_normalised_name demoEnv demoTab "Alice" (World.ofRows [aliceRow, bobRow])
    (by decide) (by decide)).2.2.1 aliceRow (by decide) (by decide),
   (FindByName_by_normalised_name demoEnv demoTab "Alice" (World.ofRows [aliceRow, bobRow])
    (by decide) (by decide)).2.2.2.2 rfl "zoé ǆ"⟩

/-- C18: over a table with unique `Id`s, when the store executes the two queries and
`FindByName name` returns the record `u`, `FindByID u.ID` returns no error and the
record `u` itself. -/
theorem FindByID_of_FindByName (E : Env) (tab : Users) (name : String) (w : World) (u : User)
    (hw : w.healthy 2)
    (hnd : (w.rows.map Row.Id).Nodup)
    (hfound : (FindByName E tab name w).1 = (some u, none)) :
    (FindByID tab u.ID (FindByName E tab name w).2).1 = (some u, none) := by
  have hh : (FindByName E tab name w).2.healthy 1 := by
    rw [FindByName_world]; exact (step_healthy w _ 1 hw).2
  have hrows : (FindByName E tab name w).2.rows = w.rows := by
    rw [FindByName_world]; exact step_rows _ _
  rw [FindByName_spec E tab name w (healthy_mono w 1 2 (by omega) hw)] at hfound
  generalize (FindByName E tab name w).2 = W at hh hrows
  cases hf : w.rows.find? (fun x => decide (x.NormalizedUserName = some (E.ToUpper name))) with
  | none => rw [hf] at hfound; simp at hfound
  | some r =>
    rw [hf] at hfound
    simp only [Prod.mk.injEq, Option.some.injEq, and_true] at hfound
    subst hfound
    have hr : r ∈ w.rows := List.mem_of_find?_eq_some hf
    rw [FindByID_spec tab _ W hh, hrows]
    cases hg : w.rows.find? (fun x => decide (x.Id = (scanUser tab r).ID)) with
    | none =>
      rw [List.find?_eq_none] at hg
      exact absurd (show decide (r.Id = (scanUser tab r).ID) = true by simp [scanUser]) (hg r hr)
    | some r1 =>
      have h1 : r1 ∈ w.rows := List.mem_of_find?_eq_some hg
      have h2 : r1.Id = r.Id := by simpa [scanUser] using List.find?_some hg
      rw [List.inj_on_of_nodup_map hnd h1 hr h2]

/-- C18 at the input of the test: the record found by name is found again by its `Id`. -/
theorem FindByID_of_FindByName_witness :
    (FindByID demoTab aliceUser.ID
      (FindByName demoEnv demoTab "alice" (World.ofRows [aliceRow, bobRow])).2).1 =
      (some aliceUser, none) :=
  FindByID_of_FindByName demoEnv demoTab "alice" (World.ofRows [aliceRow, bobRow]) aliceUser
    (by decide) (by decide) (by decide)

/-! ### Authenticate and its bookkeeping write -/

/-- An error of `Update` is `ErrConcurrency` or an error of the driver. -/
theorem Update_error_kind (E : Env) (tab : Users) (u : User) (w : World) (e : Error)
    (h : (Update E tab u w).1 = some e) : e = .ErrConcurrency ∨ ∃ d, e = .Driver d := by
  unfold Update execUpdate at h
  simp only [newStamp] at h
  generalize World.step _ _ = st at h
  obtain ⟨f, w1⟩ := st
  cases f with
  | some d =>
    simp only [Option.some.injEq] at h
    exact Or.inr ⟨d, h.symm⟩
  | none =>
    simp only at h
    split_ifs at h with h1
    · simp only [Option.some.injEq] at h
      exact Or.inr ⟨_, h.symm⟩
    · by_cases h0 : (w1.rows.filter (hit u.ID u.ConcurrencyStamp)).length = 0
      · simp only [h0, if_true, Option.some.injEq] at h
        exact Or.inl h.symm
      · simp only [h0, if_false] at h
        exact absurd h (by simp)

/-- C20: for a stored user found by the lookup and whose hash decodes, the result of
`Authenticate` is the record with no error when the password verifies, and no user with
exactly `ErrInvalidCredentials` when it does not, whatever becomes of the bookkeeping
`Update`: nothing is assumed of the store after the lookup, and when that `Update`
returns an error, the error `Authenticate` returns is not that one. -/
theorem Authenticate_verdict_despite_write (E : Env) (emptyHash : String) (tab : Users)
    (name password : String) (w : World) (r : Row) (pwd : String)
    (hw : w.healthy 1)
    (hfind : w.rows.find? (fun x => decide (x.NormalizedUserName = some (E.ToUpper name)))
      = some r)
    (hdec : E.DecodeString (opts r.PasswordHash) = .ok pwd) :
    (E.CompareHashAndPassword pwd password = true →
      ∃ u, (Authenticate E emptyHash tab name password w).1 = (some u, none) ∧
        u.ID = r.Id ∧ u.AccessFailedCount = 0) ∧
    (E.CompareHashAndPassword pwd password = false →
      (Authenticate E emptyHash tab name password w).1 = (none, some .ErrInvalidCredentials)) ∧
    (∀ e, (accessFailed E tab (scanUser tab r) (!E.CompareHashAndPassword pwd password)
        (w.step (.queryName (E.ToUpper name))).2).1 = some e →
      (Authenticate E emptyHash tab name password w).1.2 ≠ some e) := by
  have hA := Authenticate_found E emptyHash tab name password w hw r pwd hfind hdec
  refine ⟨?_, ?_, ?_⟩
  · intro hc
    rw [hA, if_pos hc]
    refine ⟨_, rfl, ?_⟩
    unfold accessFailed
    simp only [Bool.false_eq_true, if_false]
    rcases Update_record E tab { scanUser tab r with AccessFailedCount := 0 }
      (w.step (.queryName (E.ToUpper name))).2 with h | h <;>
    · rw [h]; exact ⟨rfl, rfl⟩
  · intro hc
    rw [hA, hc]
    simp
  · intro e he
    unfold accessFailed at he
    have hk := Update_error_kind E tab _ _ e he
    rw [hA]
    by_cases hc : E.CompareHashAndPassword pwd password = true
    · rw [if_pos hc]; simp
    · rw [if_neg hc]
      rcases hk with hk | ⟨d, hk⟩ <;> rw [hk] <;> simp

/-- C20 at a concrete input: the store fails the bookkeeping write, alice logs in. -/
theorem Authenticate_verdict_despite_write_witness :
    ∃ u, (Authenticate demoEnv "#" demoTab "alice" "pw"
        { World.ofRows [aliceRow, bobRow] with faults := [none, some (.Other "gone")] }).1 =
        (some u, none) ∧ u.ID = aliceRow.Id ∧ u.AccessFailedCount = 0 :=
  (Authenticate_verdict_despite_write demoEnv "#" demoTab "alice" "pw"
    { World.ofRows [aliceRow, bobRow] with faults := [none, some (.Other "gone")] }
    aliceRow "#pw" (by decide) (by decide) rfl).1 (by decide)

/-! ### Authenticate and the lockout columns -/

theorem find_blind (l1 l2 : List Row) (p : Row → Bool) (hp : ∀ x, p x.eraseLockout = p x)
    (h : l1.map Row.eraseLockout = l2.map Row.eraseLockout) :
    (l1.find? p).map Row.eraseLockout = (l2.find? p).map Row.eraseLockout := by
  have key : ∀ l : List Row, (l.find? p).map Row.eraseLockout = (l.map Row.eraseLockout).find? p := by
    intro l
    rw [List.find?_map]
    congr 2
    funext x
    exact (hp x).symm
  rw [key, key, h]

theorem any_blind (l1 l2 : List Row) (p : Row → Bool) (hp : ∀ x, p x.eraseLockout = p x)
    (h : l1.map Row.eraseLockout = l2.map Row.eraseLockout) : l1.any p = l2.any p := by
  have key : ∀ l : List Row, l.any p = (l.map Row.eraseLockout).any p := by
    intro l
    rw [List.any_map]
    congr 1
    funext x
    exact (hp x).symm
  rw [key l1, key l2, h]

theorem filter_length_blind (l1 l2 : List Row) (p : Row → Bool)
    (hp : ∀ x, p x.eraseLockout = p x)
    (h : l1.map Row.eraseLockout = l2.map Row.eraseLockout) :
    (l1.filter p).length = (l2.filter p).length := by
  have key : ∀ l : List Row, (l.filter p).length = ((l.map Row.eraseLockout).filter p).length := by
    intro l
    rw [List.filter_map, List.length_map]
    congr 2
    funext x
    exact (hp x).symm
  rw [key l1, key l2, h]

theorem hit_erase (id stamp : String) (x : Row) : hit id stamp x.eraseLockout = hit id stamp x :=
  rfl

theorem updated_erase (l : List Row) (vals : Row) (id stamp : String) :
    (updated l vals id stamp).map Row.eraseLockout =
      updated (l.map Row.eraseLockout) vals.eraseLockout id stamp := by
  unfold updated
  rw [List.map_map, List.map_map]
  apply List.map_congr_left
  intro x _
  simp only [Function.comp, hit_erase]
  split_ifs <;> rfl

theorem updated_blind (l1 l2 : List Row) (v1 v2 : Row) (id stamp : String)
    (hv : v1.eraseLockout = v2.eraseLockout)
    (h : l1.map Row.eraseLockout = l2.map Row.eraseLockout) :
    (updated l1 v1 id stamp).map Row.eraseLockout =
      (updated l2 v2 id stamp).map Row.eraseLockout := by
  rw [updated_erase, updated_erase, hv, h]

theorem scanUser_blind (tab : Users) (r1 r2 : Row)
    (h : r1.eraseLockout = r2.eraseLockout) :
    (scanUser tab r1).eraseLockout = (scanUser tab r2).eraseLockout := by
  simp only [Row.eraseLockout, Row.mk.injEq] at h
  obtain ⟨h1, h2, h3, h4, h5, -, -, h8, h9, h10, h11, h12, h13, h14, h15⟩ := h
  simp only [scanUser, User.eraseLockout, h1, h2, h3, h4, h5, h8, h9, h10, h11, h12, h13, h14,
    h15]

theorem updateVals_blind (a b : User) (s : String) (h : a.eraseLockout = b.eraseLockout) :
    (updateVals a s).eraseLockout = (updateVals b s).eraseLockout := by
  simp only [User.eraseLockout, User.mk.injEq] at h
  obtain ⟨h1, h2, h3, h4, h5, h6, h7, h8, h9, h10, h11, h12, -, -, h15⟩ := h
  simp only [updateVals, Row.eraseLockout, h1, h2, h3, h4, h5, h6, h7, h8, h9, h10, h11, h12,
    h15]

theorem step_blind (v w : World) (o1 o2 : Op) (h : lockoutBlind v w) :
    (v.step o1).1 = (w.step o2).1 ∧ lockoutBlind (v.step o1).2 (w.step o2).2 := by
  obtain ⟨h1, h2, h3, h4, h5⟩ := h
  unfold lockoutBlind
  rw [step_fst, step_fst, step_rows, step_rows, step_faults, step_faults, step_uuids, step_uuids,
    step_salts, step_salts, step_now, step_now, h2]
  exact ⟨rfl, h1, rfl, h3, h4, h5⟩

theorem name_erase (k : Option String) (x : Row) :
    decide (x.eraseLockout.NormalizedUserName = k) = decide (x.NormalizedUserName = k) := rfl

theorem execUpdate_blind (tab : Users) (v w : World) (v1 v2 : Row) (id stamp : String)
    (hv : v1.eraseLockout = v2.eraseLockout) (h : lockoutBlind v w) :
    (execUpdate tab v v1 id stamp).1 = (execUpdate tab w v2 id stamp).1 ∧
    lockoutBlind (execUpdate tab v v1 id stamp).2 (execUpdate tab w v2 id stamp).2 := by
  obtain ⟨hf, hb⟩ := step_blind v w (.update v1 id stamp) (.update v2 id stamp) h
  have hN : v1.NormalizedUserName = v2.NormalizedUserName := by
    have := congrArg Row.NormalizedUserName hv
    exact this
  unfold execUpdate
  generalize v.step (.update v1 id stamp) = s1 at hf hb
  generalize w.step (.update v2 id stamp) = s2 at hf hb
  obtain ⟨f1, va⟩ := s1
  obtain ⟨f2, wa⟩ := s2
  simp only at hf hb
  subst hf
  obtain ⟨hr, hfa, hu, hs, hn⟩ := hb
  cases f1 with
  | some e => exact ⟨rfl, hr, hfa, hu, hs, hn⟩
  | none =>
    have hup := updated_blind va.rows wa.rows v1 v2 id stamp hv hr
    have e1 : va.rows.any (hit id stamp) = wa.rows.any (hit id stamp) :=
      any_blind _ _ _ (hit_erase id stamp) hr
    have e2 : ((updated va.rows v1 id stamp).filter
        (fun x => decide (x.NormalizedUserName = v1.NormalizedUserName))).length =
        ((updated wa.rows v2 id stamp).filter
        (fun x => decide (x.NormalizedUserName = v2.NormalizedUserName))).length := by
      rw [hN]
      exact filter_length_blind _ _ _ (name_erase _) hup
    have e3 : (va.rows.filter (hit id stamp)).length = (wa.rows.filter (hit id stamp)).length :=
      filter_length_blind _ _ _ (hit_erase id stamp) hr
    simp only [e1, e2, e3]
    split_ifs
    · exact ⟨rfl, hr, hfa, hu, hs, hn⟩
    · exact ⟨rfl, hup, hfa, hu, hs, hn⟩

theorem Update_blind (E : Env) (tab : Users) (a b : User) (v w : World)
    (hab : a.eraseLockout = b.eraseLockout) (h : lockoutBlind v w) :
    (Update E tab a v).1 = (Update E tab b w).1 ∧
    (Update E tab a v).2.1.eraseLockout = (Update E tab b w).2.1.eraseLockout ∧
    lockoutBlind (Update E tab a v).2.2 (Update E tab b w).2.2 := by
  have hID : a.ID = b.ID := by
    have := congrArg User.ID hab
    exact this
  have hst : a.ConcurrencyStamp = b.ConcurrencyStamp := by
    have := congrArg User.ConcurrencyStamp hab
    exact this
  have hu : v.uuids = w.uuids := h.2.2.1
  have hb1 : lockoutBlind (newStamp E v).2 (newStamp E w).2 := by
    obtain ⟨h1, h2, h3, h4, h5⟩ := h
    exact ⟨h1, h2, by simp [newStamp, h3], h4, h5⟩
  obtain ⟨hx1, hx2⟩ := execUpdate_blind tab (newStamp E v).2 (newStamp E w).2
    (updateVals a (E.uuid v.uuids)) (updateVals b (E.uuid w.uuids)) a.ID a.ConcurrencyStamp
    (by rw [hu]; exact updateVals_blind a b _ hab) hb1
  unfold Update
  simp only [newStamp] at hx1 hx2 ⊢
  rw [← hID, ← hst]
  generalize execUpdate tab _ (updateVals a (E.uuid v.uuids)) a.ID a.ConcurrencyStamp = r1
    at hx1 hx2
  generalize execUpdate tab _ (updateVals b (E.uuid w.uuids)) a.ID a.ConcurrencyStamp = r2
    at hx1 hx2
  obtain ⟨x1, va⟩ := r1
  obtain ⟨x2, wa⟩ := r2
  simp only at hx1 hx2
  subst hx1
  cases x1 with
  | error e => exact ⟨rfl, hab, hx2⟩
  | ok nr =>
    by_cases h0 : nr = 0
    · simp only [h0, if_true]
      exact ⟨trivial, hab, hx2⟩
    · simp only [h0, if_false]
      refine ⟨trivial, ?_, hx2⟩
      simp only [User.eraseLockout, User.mk.injEq] at hab ⊢
      obtain ⟨h1, h2, h3, h4, h5, h6, h7, h8, h9, h10, h11, h12, -, -, h15⟩ := hab
      simp [h1, h2, h3, h4, h5, h6, h7, h8, h10, h11, h12, h15, hu]

theorem FindByName_blind (E : Env) (tab : Users) (name : String) (v w : World)
    (h : lockoutBlind v w) :
    (FindByName E tab name v).1.2 = (FindByName E tab name w).1.2 ∧
    (FindByName E tab name v).1.1.map User.eraseLockout =
      (FindByName E tab name w).1.1.map User.eraseLockout ∧
    lockoutBlind (FindByName E tab name v).2 (FindByName E tab name w).2 := by
  obtain ⟨hf, hb⟩ := step_blind v w (.queryName (E.ToUpper name)) (.queryName (E.ToUpper name)) h
  refine ⟨?_, ?_, by rw [FindByName_world, FindByName_world]; exact hb⟩ <;>
  · unfold FindByName queryRow
    simp only [normalise]
    generalize v.step (.queryName (E.ToUpper name)) = s1 at hf hb
    generalize w.step (.queryName (E.ToUpper name)) = s2 at hf hb
    obtain ⟨f1, va⟩ := s1
    obtain ⟨f2, wa⟩ := s2
    simp only at hf hb
    subst hf
    cases f1 with
    | some e => simp [unpackUser]
    | none =>
      have hfind := find_blind va.rows wa.rows
        (fun x => decide (x.NormalizedUserName = some (E.ToUpper name))) (fun _ => rfl) hb.1
      simp only
      cases h1 : va.rows.find? (fun x => decide (x.NormalizedUserName = some (E.ToUpper name))) with
      | none =>
        cases h2 : wa.rows.find?
            (fun x => decide (x.NormalizedUserName = some (E.ToUpper name))) with
        | none => simp [unpackUser]
        | some r2 => rw [h1, h2] at hfind; simp at hfind
      | some r1 =>
        cases h2 : wa.rows.find?
            (fun x => decide (x.NormalizedUserName = some (E.ToUpper name))) with
        | none => rw [h1, h2] at hfind; simp at hfind
        | some r2 =>
          rw [h1, h2] at hfind
          simp only [Option.map_some', Option.some.injEq] at hfind
          simp [unpackUser, scanUser_blind tab r1 r2 hfind]

theorem Authenticate_eq_authTail (E : Env) (emptyHash : String) (tab : Users)
    (name password : String) (w : World) :
    Authenticate E emptyHash tab name password w =
      if (FindByName E tab name w).1.2 ≠ none ∧ (FindByName E tab name w).1.2 ≠ some .ErrNotFound
      then FindByName E tab name w
      else authTail E tab password
        (match (FindByName E tab name w).1.1 with
          | none => { User.zero with PasswordHash := emptyHash }
          | some u => u) (FindByName E tab name w).2 := by
  unfold Authenticate authTail
  generalize FindByName E tab name w = r
  obtain ⟨⟨f, e⟩, w1⟩ := r
  simp only
  split_ifs with h
  · rfl
  · cases E.DecodeString (match f with
        | none => { User.zero with PasswordHash := emptyHash }
        | some u => u : User).PasswordHash with
    | error msg => rfl
    | ok pwd => cases hc : E.CompareHashAndPassword pwd password <;> simp [hc]

theorem accessFailed_blind (E : Env) (tab : Users) (a b : User) (bad : Bool) (v w : World)
    (hab : a.eraseLockout = b.eraseLockout) (h : lockoutBlind v w) :
    (accessFailed E tab a bad v).2.1.eraseLockout =
      (accessFailed E tab b bad w).2.1.eraseLockout ∧
    lockoutBlind (accessFailed E tab a bad v).2.2 (accessFailed E tab b bad w).2.2 := by
  unfold accessFailed
  have hab1 : (if bad = true then
      { a with AccessFailedCount := wrapInt (a.AccessFailedCount + 1) }
      else { a with AccessFailedCount := 0 } : User).eraseLockout =
      (if bad = true then
      { b with AccessFailedCount := wrapInt (b.AccessFailedCount + 1) }
      else { b with AccessFailedCount := 0 } : User).eraseLockout := by
    simp only [User.eraseLockout, User.mk.injEq] at hab
    obtain ⟨h1, h2, h3, h4, h5, h6, h7, h8, h9, h10, h11, h12, -, -, h15⟩ := hab
    cases bad <;>
      simp [User.eraseLockout, h1, h2, h3, h4, h5, h6, h7, h8, h9, h10, h11, h12, h15]
  exact (Update_blind E tab _ _ v w hab1 h).2

theorem authTail_blind (E : Env) (tab : Users) (password : String) (a b : User) (v w : World)
    (hab : a.eraseLockout = b.eraseLockout) (h : lockoutBlind v w) :
    (authTail E tab password a v).1.2 = (authTail E tab password b w).1.2 ∧
    (authTail E tab password a v).1.1.map User.eraseLockout =
      (authTail E tab password b w).1.1.map User.eraseLockout ∧
    lockoutBlind (authTail E tab password a v).2 (authTail E tab password b w).2 := by
  have hph : a.PasswordHash = b.PasswordHash := by
    have := congrArg User.PasswordHash hab
    exact this
  unfold authTail
  rw [← hph]
  cases E.DecodeString a.PasswordHash with
  | error msg => exact ⟨rfl, rfl, h⟩
  | ok pwd =>
    dsimp only
    by_cases hc : E.CompareHashAndPassword pwd password = true
    · rw [if_pos hc, if_pos hc]
      exact ⟨rfl, congrArg some (accessFailed_blind E tab a b false v w hab h).1,
        (accessFailed_blind E tab a b false v w hab h).2⟩
    · rw [if_neg hc, if_neg hc]
      exact ⟨rfl, rfl, (accessFailed_blind E tab a b true v w hab h).2⟩

theorem Authenticate_blind (E : Env) (emptyHash : String) (tab : Users) (name password : String)
    (v w : World) (h : lockoutBlind v w) :
    (Authenticate E emptyHash tab name password v).1.2 =
      (Authenticate E emptyHash tab name password w).1.2 ∧
    (Authenticate E emptyHash tab name password v).1.1.map User.eraseLockout =
      (Authenticate E emptyHash tab name password w).1.1.map User.eraseLockout ∧
    lockoutBlind (Authenticate E emptyHash tab name password v).2
      (Authenticate E emptyHash tab name password w).2 := by
  obtain ⟨he, hu, hb⟩ := FindByName_blind E tab name v w h
  rw [Authenticate_eq_authTail, Authenticate_eq_authTail, ← he]
  generalize FindByName E tab name v = r1 at he hu hb
  generalize FindByName E tab name w = r2 at he hu hb
  obtain ⟨⟨f1, e1⟩, va⟩ := r1
  obtain ⟨⟨f2, e2⟩, wa⟩ := r2
  simp only at he hu hb ⊢
  subst he
  by_cases hc : e1 ≠ none ∧ e1 ≠ some .ErrNotFound
  · rw [if_pos hc, if_pos hc]
    exact ⟨rfl, hu, hb⟩
  · rw [if_neg hc, if_neg hc]
    cases f1 with
    | none =>
      cases f2 with
      | none => exact authTail_blind E tab password _ _ va wa rfl hb
      | some b => simp at hu
    | some a =>
      cases f2 with
      | none => simp at hu
      | some b =>
        simp only [Option.map_some', Option.some.injEq] at hu
        exact authTail_blind E tab password a b va wa hu hb

theorem map_count_of_blind (l1 l2 : List Row)
    (h : l1.map Row.eraseLockout = l2.map Row.eraseLockout) :
    l1.map Row.AccessFailedCount = l2.map Row.AccessFailedCount := by
  have key : ∀ l : List Row,
      l.map Row.AccessFailedCount = (l.map Row.eraseLockout).map Row.AccessFailedCount := by
    intro l
    rw [List.map_map]
    rfl
  rw [key l1, key l2, h]

/-- C19: for two worlds whose tables differ at most in the `LockoutEnabled` and
`LockoutEnd` columns, `Authenticate` returns the same error, a user in the one exactly
when in the other and the same but for its two lockout fields, and leaves tables that
again differ at most in those two columns, so with the same `AccessFailedCount` in every
row.  In particular, when the lookup finds a row with lockout enabled and an end that
the clock has not reached, the right password is accepted, although `CheckLockout`
refuses the record returned. -/
theorem Authenticate_ignores_lockout (E : Env) (emptyHash : String) (tab : Users)
    (name password : String) (v w : World) (h : lockoutBlind v w) :
    (Authenticate E emptyHash tab name password v).1.2 =
      (Authenticate E emptyHash tab name password w).1.2 ∧
    (Authenticate E emptyHash tab name password v).1.1.map User.eraseLockout =
      (Authenticate E emptyHash tab name password w).1.1.map User.eraseLockout ∧
    lockoutBlind (Authenticate E emptyHash tab name password v).2
      (Authenticate E emptyHash tab name password w).2 ∧
    (Authenticate E emptyHash tab name password v).2.rows.map Row.AccessFailedCount =
      (Authenticate E emptyHash tab name password w).2.rows.map Row.AccessFailedCount ∧
    (∀ (r : Row) (pwd : String) (e : Int), v.healthy 1 →
      (∀ b, tab.style.BoolVal (tab.db.boolValue b) = b) →
      v.rows.find? (fun x => decide (x.NormalizedUserName = some (E.ToUpper name))) = some r →
      r.LockoutEnabled = true → r.LockoutEnd = some e → v.now < e →
      E.DecodeString (opts r.PasswordHash) = .ok pwd →
      E.CompareHashAndPassword pwd password = true →
      ∃ u, (Authenticate E emptyHash tab name password v).1 = (some u, none) ∧
        (CheckLockout tab u v).1 = some .ErrLockedOut) := by
  obtain ⟨h1, h2, h3⟩ := Authenticate_blind E emptyHash tab name password v w h
  refine ⟨h1, h2, h3, map_count_of_blind _ _ h3.1, ?_⟩
  intro r pwd e hv hbool hfind hen hend hnow hdec hcmp
  rw [Authenticate_found E emptyHash tab name password v hv r pwd hfind hdec, if_pos hcmp]
  refine ⟨_, rfl, ?_⟩
  unfold accessFailed
  simp only [Bool.false_eq_true, if_false]
  rcases Update_record E tab { scanUser tab r with AccessFailedCount := 0 }
    (v.step (.queryName (E.ToUpper name))).2 with hu | hu <;>
  · rw [hu]
    simp [CheckLockout, scanUser, hbool, hen, hend, hnow]

/-- C19 at a concrete input: alice locked out until 100 and alice not locked out give
the same answer to the right password. -/
theorem Authenticate_ignores_lockout_witness :
    (Authenticate demoEnv "#" demoTab "alice" "pw" (World.ofRows [lockedRow, bobRow])).1.2 =
      (Authenticate demoEnv "#" demoTab "alice" "pw" (World.ofRows [aliceRow, bobRow])).1.2 ∧
    ∃ u, (Authenticate demoEnv "#" demoTab "alice" "pw"
        (World.ofRows [lockedRow, bobRow])).1 = (some u, none) ∧
      (CheckLockout demoTab u (World.ofRows [lockedRow, bobRow])).1 = some .ErrLockedOut :=
  ⟨(Authenticate_ignores_lockout demoEnv "#" demoTab "alice" "pw"
      (World.ofRows [lockedRow, bobRow]) (World.ofRows [aliceRow, bobRow])
      ⟨by decide, rfl, rfl, rfl, rfl⟩).1,
   (Authenticate_ignores_lockout demoEnv "#" demoTab "alice" "pw"
      (World.ofRows [lockedRow, bobRow]) (World.ofRows [aliceRow, bobRow])
      ⟨by decide, rfl, rfl, rfl, rfl⟩).2.2.2.2 lockedRow "#pw" 100 (by decide) (by decide)
      (by decide) (by decide) (by decide) (by decide) rfl (by decide)⟩

/-! ### ChangePassword, then Authenticate -/

/-- A successful `Update` passed the unique key, whatever the store did before. -/
theorem Update_ok_accepts (E : Env) (tab : Users) (u : User) (w : World)
    (hok : (Update E tab u w).1 = none) :
    ((updated w.rows (updateVals u (E.uuid w.uuids)) u.ID u.ConcurrencyStamp).filter
      (fun x => decide (x.NormalizedUserName = some u.NormalizedUserName))).length ≤ 1 := by
  obtain ⟨-, -, r, hr, hhit⟩ := Update_ok_frame E tab u w hok
  have hany : w.rows.any (hit u.ID u.ConcurrencyStamp) = true :=
    List.any_eq_true.mpr ⟨r, hr, hhit⟩
  have hrows : ((newStamp E w).2.step
      (.update (updateVals u (E.uuid w.uuids)) u.ID u.ConcurrencyStamp)).2.rows = w.rows :=
    step_rows _ _
  by_contra hlt
  unfold Update execUpdate at hok
  simp only [newStamp] at hrows hok
  generalize World.step _ _ = st at hrows hok
  obtain ⟨f, w1⟩ := st
  simp only at hrows
  cases f with
  | some e => simp at hok
  | none =>
    simp only [hrows, hany, Bool.true_and, decide_eq_true_eq] at hok
    rw [if_pos (by simpa [updateVals] using hlt)] at hok
    simp at hok

/-- After a successful `Update`, the lookup by the normalised name of the record finds
the row just written. -/
theorem find_after_Update (E : Env) (tab : Users) (u : User) (w : World) (key : String)
    (hkey : u.NormalizedUserName = key) (hok : (Update E tab u w).1 = none) :
    ∃ x ∈ w.rows, hit u.ID u.ConcurrencyStamp x = true ∧
      (Update E tab u w).2.2.rows.find? (fun y => decide (y.NormalizedUserName = some key)) =
        some { updateVals u (E.uuid w.uuids) with Id := x.Id } := by
  have hacc := Update_ok_accepts E tab u w hok
  obtain ⟨-, hrows, x, hx, hhit⟩ := Update_ok_frame E tab u w hok
  refine ⟨x, hx, hhit, ?_⟩
  rw [hrows]
  have himg := mem_updated_of_hit w.rows (updateVals u (E.uuid w.uuids)) u.ID u.ConcurrencyStamp
    x hx hhit
  have hnm : ({ updateVals u (E.uuid w.uuids) with Id := x.Id } : Row).NormalizedUserName =
      some key := by rw [← hkey]; rfl
  rw [hkey] at hacc
  cases hf : (updated w.rows (updateVals u (E.uuid w.uuids)) u.ID u.ConcurrencyStamp).find?
      (fun y => decide (y.NormalizedUserName = some key)) with
  | none =>
    rw [List.find?_eq_none] at hf
    exact absurd (by simpa using hnm) (hf _ himg)
  | some y =>
    have hy := List.mem_of_find?_eq_some hf
    have hyn : y.NormalizedUserName = some key := by simpa using List.find?_some hf
    rw [eq_of_length_le_one _ y _ hacc (List.mem_filter.mpr ⟨hy, by simpa using hyn⟩)
      (List.mem_filter.mpr ⟨himg, by simpa using hnm⟩)]

/-- `Authenticate` for a stored user keeps the hash that the lookup by name finds, and
uses two store operations. -/
theorem Authenticate_keeps_hash (E : Env) (emptyHash : String) (tab : Users)
    (name password : String) (W : World) (y : Row) (pwd : String)
    (hW : W.healthy 1)
    (hfind : W.rows.find? (fun x => decide (x.NormalizedUserName = some (E.ToUpper name)))
      = some y)
    (hdec : E.DecodeString (opts y.PasswordHash) = .ok pwd) :
    (∃ y1, (Authenticate E emptyHash tab name password W).2.rows.find?
        (fun x => decide (x.NormalizedUserName = some (E.ToUpper name))) = some y1 ∧
      opts y1.PasswordHash = opts y.PasswordHash) ∧
    (Authenticate E emptyHash tab name password W).2.faults = W.faults.drop 2 := by
  have hyn : y.NormalizedUserName = some (E.ToUpper name) := by
    simpa using List.find?_some hfind
  have hA := Authenticate_found E emptyHash tab name password W hW y pwd hfind hdec
  have hr1 : (W.step (.queryName (E.ToUpper name))).2.rows = W.rows := step_rows _ _
  have hf1 : (W.step (.queryName (E.ToUpper name))).2.faults = W.faults.tail := step_faults _ _
  have hdrop : W.faults.tail.tail = W.faults.drop 2 := by
    cases W.faults with
    | nil => rfl
    | cons a t => cases t <;> rfl
  generalize (W.step (.queryName (E.ToUpper name))).2 = W1 at hA hr1 hf1
  have key : ∀ bad : Bool,
      (∃ y1, (accessFailed E tab (scanUser tab y) bad W1).2.2.rows.find?
        (fun x => decide (x.NormalizedUserName = some (E.ToUpper name))) = some y1 ∧
        opts y1.PasswordHash = opts y.PasswordHash) ∧
      (accessFailed E tab (scanUser tab y) bad W1).2.2.faults = W.faults.drop 2 := by
    intro bad
    unfold accessFailed
    simp only
    generalize hu : (if bad = true then
        { scanUser tab y with AccessFailedCount := wrapInt ((scanUser tab y).AccessFailedCount + 1) }
      else { scanUser tab y with AccessFailedCount := 0 } : User) = u
    have hunm : u.NormalizedUserName = E.ToUpper name := by
      have : u.NormalizedUserName = opts y.NormalizedUserName := by rw [← hu]; split_ifs <;> rfl
      rw [this, hyn]; rfl
    have huph : u.PasswordHash = opts y.PasswordHash := by rw [← hu]; split_ifs <;> rfl
    refine ⟨?_, by rw [(Update_now E tab u W1).2.1, hf1, hdrop]⟩
    cases hres : (Update E tab u W1).1 with
    | some e =>
      have := (Update_error_frame E tab u W1 (by rw [hres]; simp)).2
      rw [this, hr1, hfind]
      exact ⟨y, rfl, rfl⟩
    | none =>
      obtain ⟨x, -, -, hfd⟩ := find_after_Update E tab u W1 _ hunm hres
      rw [hfd]
      exact ⟨_, rfl, by show opts (some u.PasswordHash) = _; rw [huph]; rfl⟩
  rw [hA]
  split_ifs
  · exact key false
  · exact key true

theorem demoEnv_compare (p q : String) :
    demoEnv.CompareHashAndPassword ("#" ++ p) q = true ↔ q = p := by
  simp only [demoEnv, decide_eq_true_eq]
  constructor
  · intro h
    have := congrArg String.data h
    simp only [String.data_append, List.append_cancel_left_eq] at this
    exact (String.ext this).symm
  · intro h; rw [h]

theorem demoEnv_newContract : NewContract demoEnv where
  decode_marshal := by
    intro p s h t hn hm
    simp only [demoEnv, Except.ok.injEq] at hn hm
    subst hn
    subst hm
    refine ⟨"#" ++ p, by simp [demoEnv], ?_⟩
    intro q
    simp only [demoEnv, decide_eq_true_eq]
    constructor
    · intro h
      have := congrArg String.data h
      simp only [String.data_append, List.append_cancel_left_eq] at this
      exact (String.ext this).symm
    · intro h; rw [h]

/-- A successful `ChangePassword`: the password is not blank and the library turned it
into a text. -/
theorem ChangePassword_ok_inv (E : Env) (tab : Users) (u : User) (password : String)
    (w : World) (hok : (ChangePassword E tab u password w).1 = none) :
    emptyPassword password = false ∧
    ∃ pwd text, E.New password w.salts = .ok pwd ∧ E.MarshalText pwd = .ok text := by
  cases hpw : emptyPassword password with
  | true =>
    rw [(show ChangePassword E tab u password w = (some .ErrNoPassword, u, w) by
      unfold ChangePassword; simp [hpw])] at hok
    simp at hok
  | false =>
    refine ⟨rfl, ?_⟩
    cases hnew : E.New password w.salts with
    | error msg =>
      unfold ChangePassword at hok
      simp [hpw, hnew] at hok
    | ok pwd =>
      cases hm : E.MarshalText pwd with
      | error msg =>
        unfold ChangePassword at hok
        simp [hpw, hnew, hm] at hok
      | ok text => exact ⟨pwd, text, rfl, hm⟩

/-- C16: the record `u` is in sync with its row `r` in a table with unique `Id`s, its
normalised name is its upper-cased name, its hash verifies the old password `p0` and
nothing else, the new password `p1` differs from `p0`, the stamp drawn differs from the
current `SecurityStamp`, the library meets the contract of `New`, and the store executes
the statements.  After `ChangePassword u p1` succeeds, the record carries a new
`PasswordHash` and a new `SecurityStamp`, the row of `u` carries the same two values,
which differ from those it had, `Authenticate` with `p1` succeeds, and `Authenticate`
with `p0`, after it or in its place, returns `ErrInvalidCredentials`. -/
theorem ChangePassword_then_Authenticate (E : Env) (emptyHash : String) (tab : Users)
    (u : User) (p0 p1 : String) (w : World) (r : Row) (d0 : String)
    (hn : NewContract E)
    (hw : w.healthy 4)
    (hnd : (w.rows.map Row.Id).Nodup)
    (hr : r ∈ w.rows) (hsync : scanUser tab r = u)
    (hnorm : u.NormalizedUserName = E.ToUpper u.UserName)
    (hold : E.DecodeString u.PasswordHash = .ok d0)
    (hold2 : ∀ q, E.CompareHashAndPassword d0 q = true ↔ q = p0)
    (hne : p1 ≠ p0)
    (hfresh : E.uuid w.uuids ≠ u.SecurityStamp)
    (hok : (ChangePassword E tab u p1 w).1 = none) :
    (ChangePassword E tab u p1 w).2.1.PasswordHash ≠ u.PasswordHash ∧
    (ChangePassword E tab u p1 w).2.1.SecurityStamp ≠ u.SecurityStamp ∧
    (∃ y ∈ (ChangePassword E tab u p1 w).2.2.rows, y.Id = r.Id ∧
      y.PasswordHash = some (ChangePassword E tab u p1 w).2.1.PasswordHash ∧
      y.SecurityStamp = some (ChangePassword E tab u p1 w).2.1.SecurityStamp ∧
      y.PasswordHash ≠ r.PasswordHash ∧ y.SecurityStamp ≠ r.SecurityStamp) ∧
    (∃ a, (Authenticate E emptyHash tab u.UserName p1 (ChangePassword E tab u p1 w).2.2).1 =
      (some a, none)) ∧
    (Authenticate E emptyHash tab u.UserName p0 (ChangePassword E tab u p1 w).2.2).1 =
      (none, some .ErrInvalidCredentials) ∧
    (Authenticate E emptyHash tab u.UserName p0
      (Authenticate E emptyHash tab u.UserName p1 (ChangePassword E tab u p1 w).2.2).2).1 =
      (none, some .ErrInvalidCredentials) := by
  obtain ⟨hpw, pwd, text, hnew, hm⟩ := ChangePassword_ok_inv E tab u p1 w hok
  obtain ⟨d1, hdec1, hcmp1⟩ := hn.decode_marshal p1 w.salts pwd text hnew hm
  obtain ⟨h1, h2, h3⟩ := ChangePassword_eq E tab u p1 w pwd text hpw hnew hm
  rw [h1] at hok
  rw [h3, if_pos hok, h2]
  -- the new text is not the old hash
  have htext : text ≠ u.PasswordHash := by
    intro heq
    rw [← heq, hdec1] at hold
    have hd : d1 = d0 := Except.ok.inj hold
    exact hne ((hold2 p1).mp (by rw [← hd]; exact (hcmp1 p1).mpr rfl))
  -- the row written
  obtain ⟨x, hx, hhit, hfd⟩ := find_after_Update E tab
    { u with PasswordHash := text, SecurityStamp := E.uuid w.uuids } w.drawn
    (E.ToUpper u.UserName) hnorm hok
  have hrId : r.Id = u.ID := by rw [← hsync]; rfl
  have hxr : x = r :=
    List.inj_on_of_nodup_map hnd hx hr ((hit_Id u.ID u.ConcurrencyStamp x hhit).trans hrId.symm)
  subst hxr
  have hrph : opts x.PasswordHash = u.PasswordHash := by rw [← hsync]; rfl
  have hrss : opts x.SecurityStamp = u.SecurityStamp := by rw [← hsync]; rfl
  have hfaults := (Update_now E tab
    { u with PasswordHash := text, SecurityStamp := E.uuid w.uuids } w.drawn).2.1
  have hh : (Update E tab { u with PasswordHash := text, SecurityStamp := E.uuid w.uuids }
      w.drawn).2.2.healthy 3 := by
    apply healthy_of_faults w _ 3 1 _ hw
    rw [hfaults]
    show w.faults.tail = _
    cases w.faults <;> rfl
  have hmem := List.mem_of_find?_eq_some hfd
  generalize (Update E tab { u with PasswordHash := text, SecurityStamp := E.uuid w.uuids }
      w.drawn).2.2 = W at hfd hh hmem
  have hdecy : E.DecodeString (opts ({ updateVals
      { u with PasswordHash := text, SecurityStamp := E.uuid w.uuids }
      (E.uuid w.drawn.uuids) with Id := x.Id } : Row).PasswordHash) = .ok d1 := hdec1
  have hbad : ¬ E.CompareHashAndPassword d1 p0 = true := fun hc => hne ((hcmp1 p0).mp hc).symm
  refine ⟨htext, hfresh, ⟨_, hmem, rfl, rfl, rfl, ?_, ?_⟩, ?_, ?_, ?_⟩
  · intro heq
    apply htext
    rw [← hrph, ← heq]
    rfl
  · intro heq
    apply hfresh
    rw [← hrss, ← heq]
    rfl
  · rw [Authenticate_found E emptyHash tab u.UserName p1 W (healthy_mono W 1 3 (by omega) hh)
      _ d1 hfd hdecy, if_pos ((hcmp1 p1).mpr rfl)]
    exact ⟨_, rfl⟩
  · rw [Authenticate_found E emptyHash tab u.UserName p0 W (healthy_mono W 1 3 (by omega) hh)
      _ d1 hfd hdecy, if_neg hbad]
  · obtain ⟨⟨y1, hf1, hph1⟩, hfl⟩ := Authenticate_keeps_hash E emptyHash tab u.UserName p1 W _ d1
      (healthy_mono W 1 3 (by omega) hh) hfd hdecy
    have hh2 : (Authenticate E emptyHash tab u.UserName p1 W).2.healthy 1 :=
      healthy_of_faults W _ 1 2 hfl hh
    rw [Authenticate_found E emptyHash tab u.UserName p0 _ hh2 y1 d1 hf1
      (by rw [hph1]; exact hdecy), if_neg hbad]

/-- C16 at a concrete input: alice, whose password is `pw`, changes it to `new`. -/
theorem ChangePassword_then_Authenticate_witness :
    (∃ a, (Authenticate demoEnv "#" demoTab "alice" "new"
      (ChangePassword demoEnv demoTab aliceUser "new" (World.ofRows [aliceRow, bobRow])).2.2).1 =
      (some a, none)) ∧
    (Authenticate demoEnv "#" demoTab "alice" "pw"
      (ChangePassword demoEnv demoTab aliceUser "new" (World.ofRows [aliceRow, bobRow])).2.2).1 =
      (none, some .ErrInvalidCredentials) :=
  ⟨(ChangePassword_then_Authenticate demoEnv "#" demoTab aliceUser "pw" "new"
      (World.ofRows [aliceRow, bobRow]) aliceRow "#pw" demoEnv_newContract (by decide)
      (by decide) (by decide) (by decide) (by decide) rfl
      (fun q => demoEnv_compare "pw" q)
      (by decide) (by decide) (by decide)).2.2.2.1,
   (ChangePassword_then_Authenticate demoEnv "#" demoTab aliceUser "pw" "new"
      (World.ofRows [aliceRow, bobRow]) aliceRow "#pw" demoEnv_newContract (by decide)
      (by decide) (by decide) (by decide) (by decide) rfl
      (fun q => demoEnv_compare "pw" q)
      (by decide) (by decide) (by decide)).2.2.2.2.1⟩

/-! ### The staged copies of ChangePassword and LockOut -/

/-- The stamp column after the `UPDATE`: the new stamp in the matching rows, the old
value elsewhere. -/
theorem updated_stamps (rows : List Row) (u : User) (stamp id old : String) :
    (updated rows (updateVals u stamp) id old).map Row.ConcurrencyStamp =
      rows.map (fun x => if x.Id = id ∧ x.ConcurrencyStamp = some old then some stamp
        else x.ConcurrencyStamp) := by
  rw [updated_eq_map, List.map_map]
  apply List.map_congr_left
  intro x _
  simp only [Function.comp]
  split_ifs <;> rfl

/-- A successful `Update` of a staged copy `nu` of `u` (same `ID`, same
`ConcurrencyStamp`): a row matched, the stamp column holds the stamp drawn in the
matching rows, and a row of that `Id` carries it. -/
theorem Update_ok_stamps (E : Env) (tab : Users) (nu : User) (w : World)
    (hok : (Update E tab nu w).1 = none) :
    (Update E tab nu w).2.2.rows.map Row.Id = w.rows.map Row.Id ∧
    (Update E tab nu w).2.2.rows.map Row.ConcurrencyStamp = w.rows.map (fun x =>
      if x.Id = nu.ID ∧ x.ConcurrencyStamp = some nu.ConcurrencyStamp then
        some (E.uuid w.uuids) else x.ConcurrencyStamp) ∧
    (∃ r ∈ w.rows, r.Id = nu.ID ∧ r.ConcurrencyStamp = some nu.ConcurrencyStamp) ∧
    (∃ y ∈ (Update E tab nu w).2.2.rows,
      y.Id = nu.ID ∧ y.ConcurrencyStamp = some (E.uuid w.uuids)) := by
  obtain ⟨-, hrows, r, hr, hhit⟩ := Update_ok_frame E tab nu w hok
  rw [hrows]
  exact ⟨updated_map_Id _ _ _ _, updated_stamps _ _ _ _ _, ⟨r, hr, (hit_iff _ _ _).mp hhit⟩,
    _, mem_updated_of_hit _ _ _ _ r hr hhit, hit_Id nu.ID nu.ConcurrencyStamp r hhit, rfl⟩

/-- C22: after a successful `ChangePassword u p` the record differs from `u` in
`PasswordHash` and `SecurityStamp` only (putting the two old values back gives `u`),
and after a successful `LockOut u d` in `LockoutEnd` only; in both cases the record
keeps the `ConcurrencyStamp` of `u`, while in the table a row matched `u.ID` and
`u.ConcurrencyStamp`, the `ConcurrencyStamp` of every matching row is replaced by the
stamp that `Update` drew (the second UUID of `ChangePassword`, the first of `LockOut`),
the other rows keep theirs, and a row of the `Id` of `u` carries the new stamp. -/
theorem staged_fields_only_copied_back (E : Env) (tab : Users) (u : User) (w : World) :
    (∀ password : String, (ChangePassword E tab u password w).1 = none →
      { (ChangePassword E tab u password w).2.1 with
          PasswordHash := u.PasswordHash, SecurityStamp := u.SecurityStamp } = u ∧
      (ChangePassword E tab u password w).2.1.ConcurrencyStamp = u.ConcurrencyStamp ∧
      (ChangePassword E tab u password w).2.2.rows.map Row.Id = w.rows.map Row.Id ∧
      (ChangePassword E tab u password w).2.2.rows.map Row.ConcurrencyStamp =
        w.rows.map (fun x =>
          if x.Id = u.ID ∧ x.ConcurrencyStamp = some u.ConcurrencyStamp then
            some (E.uuid (w.uuids + 1)) else x.ConcurrencyStamp) ∧
      (∃ r ∈ w.rows, r.Id = u.ID ∧ r.ConcurrencyStamp = some u.ConcurrencyStamp) ∧
      (∃ y ∈ (ChangePassword E tab u password w).2.2.rows,
        y.Id = u.ID ∧ y.ConcurrencyStamp = some (E.uuid (w.uuids + 1)))) ∧
    (∀ d : Int, (LockOut E tab u d w).1 = none →
      { (LockOut E tab u d w).2.1 with LockoutEnd := u.LockoutEnd } = u ∧
      (LockOut E tab u d w).2.1.ConcurrencyStamp = u.ConcurrencyStamp ∧
      (LockOut E tab u d w).2.2.rows.map Row.Id = w.rows.map Row.Id ∧
      (LockOut E tab u d w).2.2.rows.map Row.ConcurrencyStamp =
        w.rows.map (fun x =>
          if x.Id = u.ID ∧ x.ConcurrencyStamp = some u.ConcurrencyStamp then
            some (E.uuid w.uuids) else x.ConcurrencyStamp) ∧
      (∃ r ∈ w.rows, r.Id = u.ID ∧ r.ConcurrencyStamp = some u.ConcurrencyStamp) ∧
      (∃ y ∈ (LockOut E tab u d w).2.2.rows,
        y.Id = u.ID ∧ y.ConcurrencyStamp = some (E.uuid w.uuids))) := by
  constructor
  · intro password hok
    obtain ⟨hpw, pwd, text, hnew, hm⟩ := ChangePassword_ok_inv E tab u password w hok
    obtain ⟨h1, h2, h3⟩ := ChangePassword_eq E tab u password w pwd text hpw hnew hm
    rw [h1] at hok
    rw [h2, h3, if_pos hok]
    obtain ⟨hid, hst, hr, hy⟩ := Update_ok_stamps E tab _ w.drawn hok
    exact ⟨rfl, rfl, hid, hst, hr, hy⟩
  · intro d hok
    obtain ⟨h1, h2, h3⟩ := LockOut_eq E tab u d w
    rw [h1] at hok
    rw [h2, h3, if_pos hok]
    obtain ⟨hid, hst, hr, hy⟩ := Update_ok_stamps E tab _ w hok
    exact ⟨rfl, rfl, hid, hst, hr, hy⟩

/-- C22 at a concrete input: alice changes her password; her record keeps the stamp
`st-a` while her row now carries the second UUID drawn. -/
theorem staged_fields_only_copied_back_witness :
    (ChangePassword demoEnv demoTab aliceUser "new" (World.ofRows [aliceRow, bobRow])).2.1.ConcurrencyStamp
        = "st-a" ∧
      (ChangePassword demoEnv demoTab aliceUser "new"
        (World.ofRows [aliceRow, bobRow])).2.2.rows.map Row.ConcurrencyStamp =
          [some "uu", some "st-b"] :=
  ⟨((staged_fields_only_copied_back demoEnv demoTab aliceUser
      (World.ofRows [aliceRow, bobRow])).1 "new" (by decide)).2.1,
   ((staged_fields_only_copied_back demoEnv demoTab aliceUser
      (World.ofRows [aliceRow, bobRow])).1 "new" (by decide)).2.2.2.1⟩

/-- After `LockOut` the record and the row of alice disagree on the stamp. -/
theorem LockOut_leaves_stale_stamp :
    (LockOut demoEnv demoTab lockableUser 10 (World.ofRows [lockableRow, bobRow])).2.1.ConcurrencyStamp
        = "st-a" ∧
      (LockOut demoEnv demoTab lockableUser 10
        (World.ofRows [lockableRow, bobRow])).2.2.rows.map Row.ConcurrencyStamp =
          [some "u", some "st-b"] := by
  decide

/-! ### The statements: placeholders and arguments -/

theorem intercalate_go_eq (sep : String) (l : List String) (acc : String) :
    String.intercalate.go acc sep l = l.foldl (fun a x => a ++ sep ++ x) acc := by
  induction l generalizing acc with
  | nil => rfl
  | cons x l ih =>
    simp only [String.intercalate.go, List.foldl_cons]
    exact ih _

theorem foldl_sep_append (sep : String) (l : List String) (pre acc : String) :
    l.foldl (fun a x => a ++ sep ++ x) (pre ++ acc) =
      pre ++ l.foldl (fun a x => a ++ sep ++ x) acc := by
  induction l generalizing acc with
  | nil => rfl
  | cons x l ih =>
    simp only [List.foldl_cons]
    rw [← ih]
    simp only [String.append_assoc]

/-- A loop that writes a separator before every item that satisfies `c`, over items
that all satisfy it. -/
theorem sep_tail {α : Type} (sep : String) (c : α → Prop) [DecidablePred c] (g : α → String)
    (l : List α) (sb : String) (hl : ∀ x ∈ l, c x) :
    l.foldl (fun sb x => (if c x then sb ++ sep else sb) ++ g x) sb =
      (l.map g).foldl (fun a x => a ++ sep ++ x) sb := by
  induction l generalizing sb with
  | nil => rfl
  | cons x l ih =>
    simp only [List.foldl_cons, List.map_cons]
    rw [if_pos (hl x (List.mem_cons_self _ _))]
    exact ih _ (fun y hy => hl y (List.mem_cons_of_mem _ hy))

/-- A loop that writes a separator before every item but the first appends the items
joined by the separator. -/
theorem sep_fold {α : Type} (sep : String) (c : α → Prop) [DecidablePred c] (g : α → String)
    (a : α) (l : List α) (sb : String) (ha : ¬ c a) (hl : ∀ x ∈ l, c x) :
    (a :: l).foldl (fun sb x => (if c x then sb ++ sep else sb) ++ g x) sb =
      sb ++ sep.intercalate ((a :: l).map g) := by
  rw [List.foldl_cons, if_neg ha, sep_tail sep c g l _ hl]
  simp only [List.map_cons, String.intercalate, intercalate_go_eq]
  exact foldl_sep_append sep _ sb (g a)

/-- The method `params` returns `Param(1)`, ..., `Param(n)` separated by commas. -/
theorem params_eq (db : Database) (n : Nat) :
    db.params n = ",".intercalate ((List.range n).map (fun i => db.Param (i + 1))) := by
  cases n with
  | zero => rfl
  | succ n =>
    unfold Database.params
    rw [List.range_succ_eq_map]
    rw [sep_fold "," (fun i => 0 < i) (fun i => db.Param (i + 1)) 0 _ ""
      (Nat.lt_irrefl 0)
      (by intro x hx; obtain ⟨y, -, rfl⟩ := List.mem_map.mp hx; exact Nat.succ_pos y)]
    exact String.empty_append _

/-- The method `assign` returns the assignments `name=Param(i+1)` of the names with
their indices `i`, separated by a comma and a space. -/
theorem assign_eq (db : Database) (cs : List String) :
    db.assign cs =
      ", ".intercalate (cs.enum.map (fun p => p.2 ++ "=" ++ db.Param (p.1 + 1))) := by
  cases cs with
  | nil => rfl
  | cons a cs =>
    have hstep : (fun sb (p : Nat × String) =>
        (if 0 < p.1 then sb ++ ", " else sb) ++ p.2 ++ "=" ++ db.Param (p.1 + 1)) =
        (fun sb (p : Nat × String) =>
        (if 0 < p.1 then sb ++ ", " else sb) ++ (p.2 ++ "=" ++ db.Param (p.1 + 1))) := by
      funext sb p
      simp only [String.append_assoc]
    unfold Database.assign
    rw [hstep]
    show ((0, a) :: List.enumFrom 1 cs).foldl _ "" = _
    rw [sep_fold ", " (fun p : Nat × String => 0 < p.1)
      (fun p => p.2 ++ "=" ++ db.Param (p.1 + 1)) (0, a) _ ""
      (Nat.lt_irrefl 0) (fun x hx => List.le_fst_of_mem_enumFrom hx)]
    exact String.empty_append _

/-- The loop of `cmd` over a `[]string` appends the strings separated by a comma and a
space. -/
theorem join_eq (a : List String) (sb : String) :
    a.enum.foldl (fun sb (p : Nat × String) => (if p.1 ≠ 0 then sb ++ ", " else sb) ++ p.2) sb =
      sb ++ ", ".intercalate a := by
  cases a with
  | nil => exact (String.append_empty sb).symm
  | cons x a =>
    show ((0, x) :: List.enumFrom 1 a).foldl _ sb = _
    rw [sep_fold ", " (fun p : Nat × String => p.1 ≠ 0) (fun p => p.2) (0, x) _ sb
      (fun h => h rfl) (fun y hy => Nat.ne_of_gt (List.le_fst_of_mem_enumFrom hy))]
    rw [List.map_cons, show (List.enumFrom 1 a).map (fun p => p.2) = a from
      List.enumFrom_map_snd 1 a]

/-- The text of the `UPDATE`, around the assignments. -/
theorem updateStmt_eq (tab : Users) : updateStmt tab =
    "UPDATE " ++ tab.table ++ " SET " ++ tab.style.assign cols ++ " WHERE Id = " ++
      tab.style.Param 15 ++ " AND ConcurrencyStamp = " ++ tab.style.Param 16 := by
  apply String.ext
  simp only [updateStmt, Database.cmd, List.foldl, String.data_append, List.append_assoc]
  rfl

/-- The text of the `INSERT`, around the parameters. -/
theorem insertStmt_eq (tab : Users) : insertStmt tab =
    "INSERT INTO " ++ tab.table ++ " (Id,  " ++ ", ".intercalate cols ++ " ) VALUES ( " ++
      tab.style.params 15 ++ " )" := by
  apply String.ext
  simp only [insertStmt, Database.cmd, List.foldl_cons, List.foldl_nil, join_eq,
    String.data_append, List.append_assoc]
  rfl

/-- The columns ascend strictly, in the order of their characters. -/
theorem cols_ascending : cols.Pairwise (fun a b => a < b) := by
  have h : (cols.map String.toList).Pairwise (fun a b => a < b) := by decide
  rw [List.pairwise_map] at h
  exact h.imp (fun hab => String.lt_iff_toList_lt.mpr hab)

/-- C21: for every table handle, hence every dialect and every `Param`: `cols` has 14
entries; the `UPDATE` assigns `Param(i)` to the `i`-th column of `cols` for `i = 1..14`,
the assignments separated by a comma and a space, and compares `Id` with `Param(15)`
and `ConcurrencyStamp` with `Param(16)`; its 16 arguments are the values of the 14
columns in the order of `cols`, taken from the record with the new stamp in the place of
`ConcurrencyStamp`, then `u.ID`, then the old stamp.  The `INSERT` lists `Id` and the 14
columns, and the 15 placeholders `Param(1)`, ..., `Param(15)` separated by commas; its 15
arguments are the values of `Id` and of the columns in that order.  The column list
ascends strictly and does not contain `Id`. -/
theorem placeholders_and_arguments_line_up (tab : Users) (u : User) (stamp : String) :
    cols.length = 14 ∧
    updateStmt tab = "UPDATE " ++ tab.table ++ " SET " ++
      ", ".intercalate ((List.range 14).map (fun i =>
        cols.getD i "" ++ "=" ++ tab.style.Param (i + 1))) ++
      " WHERE Id = " ++ tab.style.Param 15 ++
      " AND ConcurrencyStamp = " ++ tab.style.Param 16 ∧
    (updateArgs u stamp).length = 16 ∧
    (updateArgs u stamp).map some =
      cols.map ({ u with ConcurrencyStamp := stamp } : User).column ++
        [some (.string u.ID), some (.string u.ConcurrencyStamp)] ∧
    insertStmt tab = "INSERT INTO " ++ tab.table ++ " (Id,  " ++ ", ".intercalate cols ++
      " ) VALUES ( " ++
      ",".intercalate ((List.range 15).map (fun i => tab.style.Param (i + 1))) ++ " )" ∧
    (insertArgs u).length = 15 ∧
    (insertArgs u).map some = ("Id" :: cols).map u.column ∧
    cols.Pairwise (fun a b => a < b) ∧
    "Id" ∉ cols := by
  refine ⟨rfl, ?_, rfl, rfl, ?_, rfl, rfl, cols_ascending, by decide⟩
  · rw [updateStmt_eq, assign_eq]
    rfl
  · rw [insertStmt_eq, params_eq]

set_option maxRecDepth 100000 in
/-- The `UPDATE` of the MySQL dialect. -/
theorem updateStmt_mysql : updateStmt demoTab =
    "UPDATE aspnetusers SET AccessFailedCount=?, ConcurrencyStamp=?, Email=?, EmailConfirmed=?, LockoutEnabled=?, LockoutEnd=?, NormalizedEmail=?, NormalizedUserName=?, PasswordHash=?, PhoneNumber=?, PhoneNumberConfirmed=?, SecurityStamp=?, TwoFactorEnabled=?, UserName=? WHERE Id = ? AND ConcurrencyStamp = ?" := by
  decide

set_option maxRecDepth 100000 in
/-- The `UPDATE` of a dialect with numbered parameters. -/
theorem updateStmt_numbered : updateStmt numberedTab =
    "UPDATE aspnetusers SET AccessFailedCount=@p1, ConcurrencyStamp=@p2, Email=@p3, EmailConfirmed=@p4, LockoutEnabled=@p5, LockoutEnd=@p6, NormalizedEmail=@p7, NormalizedUserName=@p8, PasswordHash=@p9, PhoneNumber=@p10, PhoneNumberConfirmed=@p11, SecurityStamp=@p12, TwoFactorEnabled=@p13, UserName=@p14 WHERE Id = @p15 AND ConcurrencyStamp = @p16" := by
  decide

set_option maxRecDepth 100000 in
/-- The `INSERT` of the MySQL dialect. -/
theorem insertStmt_mysql : insertStmt demoTab =
    "INSERT INTO aspnetusers (Id,  AccessFailedCount, ConcurrencyStamp, Email, EmailConfirmed, LockoutEnabled, LockoutEnd, NormalizedEmail, NormalizedUserName, PasswordHash, PhoneNumber, PhoneNumberConfirmed, SecurityStamp, TwoFactorEnabled, UserName ) VALUES ( ?,?,?,?,?,?,?,?,?,?,?,?,?,?,? )" := by
  decide

set_option maxRecDepth 100000 in
/-- The `INSERT` of a dialect with numbered parameters. -/
theorem insertStmt_numbered : insertStmt numberedTab =
    "INSERT INTO aspnetusers (Id,  AccessFailedCount, ConcurrencyStamp, Email, EmailConfirmed, LockoutEnabled, LockoutEnd, NormalizedEmail, NormalizedUserName, PasswordHash, PhoneNumber, PhoneNumberConfirmed, SecurityStamp, TwoFactorEnabled, UserName ) VALUES ( @p1,@p2,@p3,@p4,@p5,@p6,@p7,@p8,@p9,@p10,@p11,@p12,@p13,@p14,@p15 )" := by
  decide

/-- The arguments of the `UPDATE` for alice and the stamp `s1`. -/
theorem updateArgs_alice : updateArgs aliceUser "s1" =
    [.int 0, .string "s1", .string "a@x", .bool false, .bool false, .time none, .string "A@X",
     .string "ALICE", .string "#pw", .string "", .bool false, .string "sec-a", .bool false,
     .string "alice", .string "id-a", .string "st-a"] := by
  decide

end Aspnetusers
